import Mathlib

/-!
# Kernel memory manager (`kernel/core/mem.c`)

A shallow embedding of the placement allocator (`kmalloc_real`), the frame
bitmap (`set_frame`, `clear_frame`, `test_frame`, `first_frame`) and the frame
allocator (`alloc_frame`, `free_frame`), followed by the properties proved
about them.

Conventions.  `uint32_t`, `uintptr_t` and `size_t` values are natural numbers
below `2 ^ 32`; an operation that can leave that range is reduced modulo
`2 ^ 32` where it happens.  The global `frames` array is word-addressed memory,
a function from word index to word.  `int` flags are integers.

The first part keeps the bitmap, the pages, the directory and the page tables
as objects of their own.  The second part, the namespace `Flat`, keeps them as
bytes of one memory, where `kmalloc_real` places them: there the directory can
lie on the bitmap and a page table on the directory, as they do when the
aligned `kmalloc_real` rounds the cursor down.
-/

namespace Mem

/-! ## Frame bitmap -/

/-- `#define INDEX_FROM_BIT(b) (b / 0x20)`. -/
def INDEX_FROM_BIT (b : Nat) : Nat := b / 0x20

/-- `#define OFFSET_FROM_BIT(b) (b % 0x20)`. -/
def OFFSET_FROM_BIT (b : Nat) : Nat := b % 0x20

/-- `set_frame(frame_addr)`: `frames[index] |= (0x1 << offset)`. -/
def set_frame (frames : Nat → Nat) (frame_addr : Nat) : Nat → Nat :=
  let frame := frame_addr / 0x1000
  let index := INDEX_FROM_BIT frame
  let offset := OFFSET_FROM_BIT frame
  Function.update frames index (frames index ||| (0x1 <<< offset))

/-- `clear_frame(frame_addr)`: `frames[index] &= ~(0x1 << offset)`; the
complement is taken in 32 bits. -/
def clear_frame (frames : Nat → Nat) (frame_addr : Nat) : Nat → Nat :=
  let frame := frame_addr / 0x1000
  let index := INDEX_FROM_BIT frame
  let offset := OFFSET_FROM_BIT frame
  Function.update frames index (frames index &&& (0xFFFFFFFF ^^^ (0x1 <<< offset)))

/-- `test_frame(frame_addr)`: `frames[index] & (0x1 << offset)`. -/
def test_frame (frames : Nat → Nat) (frame_addr : Nat) : Nat :=
  let frame := frame_addr / 0x1000
  let index := INDEX_FROM_BIT frame
  let offset := OFFSET_FROM_BIT frame
  frames index &&& (0x1 <<< offset)

/-- Bit `b` of the logical bit stream of the bitmap: frame `b` is marked used. -/
def frame_used (frames : Nat → Nat) (b : Nat) : Bool :=
  frames (INDEX_FROM_BIT b) &&& (0x1 <<< OFFSET_FROM_BIT b) != 0

/-- The inner loop of `first_frame` on the word `w`: `for (j = ...; j < 32; ++j)`,
with `n` iterations left; `some j` is the `return` inside the loop, `none` is
the loop running to its end. -/
def first_frame_bits (w : Nat) (j : Nat) : Nat → Option Nat
  | 0 => none
  | n + 1 =>
    if w &&& (0x1 <<< j) = 0 then some j else first_frame_bits w (j + 1) n

/-- The outer loop of `first_frame` from word `i`, with `n` iterations left
(`n = INDEX_FROM_BIT(nframes) - i`).  The index `i * 0x20 + j` stays below
`2 ^ 32` because `i < nframes / 32 < 2 ^ 27`.  The value after the loop is
`(uint32_t)-1`. -/
def first_frame_loop (frames : Nat → Nat) (i : Nat) : Nat → Nat
  | 0 => 0xFFFFFFFF
  | n + 1 =>
    if frames i ≠ 0xFFFFFFFF then
      match first_frame_bits (frames i) 0 32 with
      | some j => i * 0x20 + j
      | none => first_frame_loop frames (i + 1) n
    else first_frame_loop frames (i + 1) n

/-- `first_frame()`. -/
def first_frame (frames : Nat → Nat) (nframes : Nat) : Nat :=
  first_frame_loop frames 0 (INDEX_FROM_BIT nframes)

/-! ## Pages and the frame allocator -/

/-- Modelled from the spec: the declaration of `page_t` is in `system.h`, which
is not among the sources.  The spec gives a page the attributes `present`,
`read_write`, `user_accessible` and an owning frame index, an unsigned integer;
these are the four fields `mem.c` touches. -/
structure page_t where
  present : Nat
  rw : Nat
  user : Nat
  frame : Nat
  deriving DecidableEq, Repr

/-- Modelled from the spec: `HALT_AND_CATCH_FIRE` is a macro of `system.h`,
which is not among the sources.  The spec makes it fatal: it halts the system
and control never comes back.  `halted s` is the machine stopped in state `s`,
`returned s` is a normal return in state `s`. -/
inductive Outcome (α : Type) where
  | returned : α → Outcome α
  | halted : α → Outcome α

/-- `alloc_frame(page, is_kernel, is_writeable)` on the bitmap `frames` with
`nframes` frames.  `index * 0x1000` is a `uint32_t` product. -/
def alloc_frame (frames : Nat → Nat) (nframes : Nat) (page : page_t)
    (is_kernel is_writeable : Int) : Outcome ((Nat → Nat) × page_t) :=
  if page.frame ≠ 0 then
    .returned (frames,
      { page with
        rw := if is_writeable = 1 then 1 else 0
        user := if is_kernel = 1 then 0 else 1 })
  else
    let index := first_frame frames nframes
    if index = 0xFFFFFFFF then
      .halted (frames, page)
    else
      .returned (set_frame frames (index * 0x1000 % 2 ^ 32),
        { present := 1
          rw := if is_writeable = 1 then 1 else 0
          user := if is_kernel = 1 then 0 else 1
          frame := index })

/-- `free_frame(page)`. -/
def free_frame (frames : Nat → Nat) (page : page_t) : (Nat → Nat) × page_t :=
  let frame := page.frame
  if frame = 0 then
    (frames, page)
  else
    (clear_frame frames frame, { page with frame := 0x0 })

/-! ## Sequences of allocator calls -/

/-- The allocator state: the bitmap, the frame count, and the pages that
exist, numbered `0 .. npages - 1`. -/
structure State where
  frames : Nat → Nat
  nframes : Nat
  pages : Nat → page_t
  npages : Nat

/-- One call made by a client of the allocator, on the page numbered `i`. -/
inductive Call where
  | alloc (i : Nat) (is_kernel is_writeable : Int)
  | free (i : Nat)

/-- Perform one call.  A call that names no existing page does nothing. -/
def call_step (s : State) : Call → Outcome State
  | .alloc i k w =>
    if i < s.npages then
      match alloc_frame s.frames s.nframes (s.pages i) k w with
      | .returned r =>
        .returned { s with frames := r.1, pages := Function.update s.pages i r.2 }
      | .halted _ => .halted s
    else .returned s
  | .free i =>
    if i < s.npages then
      let r := free_frame s.frames (s.pages i)
      .returned { s with frames := r.1, pages := Function.update s.pages i r.2 }
    else .returned s

/-- Perform a sequence of calls; a halt ends the sequence. -/
def run_calls (s : State) : List Call → Outcome State
  | [] => .returned s
  | c :: cs =>
    match call_step s c with
    | .returned s' => run_calls s' cs
    | .halted s' => .halted s'

/-- The state an outcome carries. -/
def Outcome.state {α : Type} : Outcome α → α
  | .returned a => a
  | .halted a => a

/-- A page that owns a frame: `present && frame != 0`. -/
def page_t.owns (p : page_t) : Bool := p.present == 1 && p.frame != 0

/-- Number of set bitmap bits among the frames `lo .. hi - 1`. -/
def count_used (frames : Nat → Nat) (lo hi : Nat) : Nat :=
  ((List.range' lo (hi - lo)).filter (fun b => frame_used frames b)).length

/-- Number of pages with `present && frame != 0`. -/
def count_owning (s : State) : Nat :=
  ((List.range s.npages).filter (fun i => (s.pages i).owns)).length

/-! ## Placement allocator -/

/-- Modelled from the spec: `malloc` and `valloc` belong to the general-purpose
heap allocator, which is not among the sources; they are taken as given
functions.  `frame_of a` stands for the frame field of the page that
`get_page(a, 0, kernel_directory)` finds in the kernel directory of the
moment.  Only the branch taken once the heap is installed reads them. -/
structure HeapExt where
  malloc : Nat → Nat
  valloc : Nat → Nat
  frame_of : Nat → Nat

/-- The two globals of the placement allocator. -/
structure Cursor where
  placement_pointer : Nat
  heap_end : Nat
  deriving DecidableEq, Repr

/-- What one `kmalloc_real` call produces: the returned address, the value
stored through `phys` (when `phys` is not null), and the globals afterwards. -/
structure KResult where
  address : Nat
  phys : Option Nat
  st : Cursor
  deriving DecidableEq, Repr

/-- `kmalloc_real(size, align, phys)`; `want_phys` says that `phys` is not
null.  Sums are `uintptr_t` sums. -/
def kmalloc_real (ext : HeapExt) (st : Cursor) (size : Nat) (align : Int)
    (want_phys : Bool) : KResult :=
  if st.heap_end ≠ 0 then
    let address := if align ≠ 0 then ext.valloc size else ext.malloc size
    { address := address
      phys :=
        if want_phys then
          some ((ext.frame_of address * 0x1000 + (address &&& 0xFFF)) % 2 ^ 32)
        else none
      st := st }
  else
    let pp :=
      if align ≠ 0 ∧ st.placement_pointer &&& 0xFFFFF000 ≠ 0 then
        st.placement_pointer &&& 0xFFFFF000
      else st.placement_pointer
    { address := pp
      phys := if want_phys then some pp else none
      st := { st with placement_pointer := (pp + size) % 2 ^ 32 } }

/-- One request to the placement allocator. -/
structure Request where
  size : Nat
  align : Int
  want_phys : Bool

/-- A sequence of `kmalloc_real` calls: the regions handed out, each as the
pair of its returned address and its size, in call order. -/
def kmalloc_seq (ext : HeapExt) (st : Cursor) : List Request → List (Nat × Nat)
  | [] => []
  | r :: rs =>
    let res := kmalloc_real ext st r.size r.align r.want_phys
    (res.address, r.size) :: kmalloc_seq ext res.st rs

/-! ## Well-formed allocator states -/

/-- A call is an `alloc_frame` call. -/
def Call.isAlloc : Call → Bool
  | .alloc _ _ _ => true
  | .free _ => false

/-- The ownership invariant of an allocator state whose frames all have a
32-bit physical address (`nframes ≤ 2 ^ 20`): every owned frame index is below
`nframes`, a bit other than bit 0 is set exactly when some page owns that
frame, and no frame is owned by two pages.  A page owns its frame when
`present && frame != 0`. -/
structure FrameInv (s : State) : Prop where
  addressable : s.nframes ≤ 2 ^ 20
  in_range : ∀ i, i < s.npages → (s.pages i).owns = true → (s.pages i).frame < s.nframes
  used_iff : ∀ b, 1 ≤ b → b < s.nframes →
    (frame_used s.frames b = true ↔
      ∃ i, i < s.npages ∧ (s.pages i).owns = true ∧ (s.pages i).frame = b)
  unique : ∀ i j, i < s.npages → j < s.npages → (s.pages i).owns = true →
    (s.pages j).owns = true → (s.pages i).frame = (s.pages j).frame → i = j

/-- The pages that own frame `b`. -/
def owners (s : State) (b : Nat) : List Nat :=
  (List.range s.npages).filter (fun i => (s.pages i).owns && (s.pages i).frame == b)

/-! ## Concrete inputs -/

/-- The all-clear bitmap. -/
def clear_bitmap : Nat → Nat := fun _ => 0

/-- A page that was never mapped. -/
def unmapped_page : page_t := { present := 0, rw := 0, user := 0, frame := 0 }

/-- A bitmap whose first word is full and whose other words are clear. -/
def first_word_full : Nat → Nat := fun i => if i = 0 then 0xFFFFFFFF else 0

/-- A bitmap with frames 0 and 5 marked used. -/
def frames_0_and_5 : Nat → Nat := fun i => if i = 0 then 0x21 else 0

/-- A bitmap in which frame 32 is the only free frame. -/
def only_frame_32_free : Nat → Nat := fun i => if i = 0 then 0xFFFFFFFF else 0xFFFFFFFE

/-- A bitmap with every frame marked used. -/
def full_bitmap : Nat → Nat := fun _ => 0xFFFFFFFF

/-- A bitmap with the frames of the first 4 GiB, `0 .. 2 ^ 20 - 1`, marked used
and the frames above them free. -/
def low_4GiB_used : Nat → Nat := fun i => if i < 32768 then 0xFFFFFFFF else 0

/-- One unmapped page and an all-clear bitmap of 32 frames. -/
def fresh_state : State :=
  { frames := clear_bitmap, nframes := 32, pages := fun _ => unmapped_page, npages := 1 }

/-- Three pages over 4128 frames: page 0 owns frame 1, page 1 owns frame 4096,
page 2 is unmapped; exactly the bits 1 and 4096 are set. -/
def three_page_state : State :=
  { frames := fun i => if i = 0 then 0x2 else if i = 128 then 0x1 else 0
    nframes := 4128
    pages := fun i =>
      if i = 0 then { present := 1, rw := 1, user := 0, frame := 1 }
      else if i = 1 then { present := 1, rw := 1, user := 0, frame := 4096 }
      else unmapped_page
    npages := 3 }

/-- More than 4 GiB of memory: `2 ^ 20 + 32` frames; page `i` for
`i < 2 ^ 20 - 1` owns frame `i + 1`, pages `2 ^ 20 - 1` and `2 ^ 20` are
unmapped; exactly the bits `1 .. 2 ^ 20 - 1` are set. -/
def high_memory_state : State :=
  { frames := fun i => if i = 0 then 0xFFFFFFFE else if i < 32768 then 0xFFFFFFFF else 0
    nframes := 1048608
    pages := fun i =>
      if i < 1048575 then { present := 1, rw := 1, user := 0, frame := i + 1 }
      else unmapped_page
    npages := 1048577 }

/-- Two `alloc_frame` calls on page `2 ^ 20 - 1`, then one on page `2 ^ 20`. -/
def high_memory_calls : List Call :=
  [Call.alloc 1048575 1 1, Call.alloc 1048575 1 1, Call.alloc 1048576 1 1]

/-- Two unmapped pages over 64 frames, with frame 0 marked used. -/
def reserved_state : State :=
  { frames := fun i => if i = 0 then 0x1 else 0, nframes := 64
    pages := fun _ => unmapped_page, npages := 2 }

/-- Three `alloc_frame` calls on two pages, the last one on a page that is
already mapped. -/
def three_allocs : List Call := [Call.alloc 0 1 1, Call.alloc 1 0 1, Call.alloc 0 1 0]

/-- A `free_frame` call on page 1, then two `alloc_frame` calls on page 2. -/
def free_then_allocs : List Call := [Call.free 1, Call.alloc 2 1 1, Call.alloc 2 1 1]

/-- The external heap used in examples; it is never consulted before the heap
is installed. -/
def no_heap : HeapExt := { malloc := fun _ => 0, valloc := fun _ => 0, frame_of := fun _ => 0 }

/-- Three unaligned requests of 16, 4096 and 4 bytes. -/
def boot_requests : List Request :=
  [{ size := 16, align := 0, want_phys := false },
   { size := 0x1000, align := 0, want_phys := true },
   { size := 4, align := 0, want_phys := false }]

/-! ## Page directories and page lookup -/

/-- Modelled from the spec: `page_directory_t` is declared in `system.h`, which
is not among the sources.  The spec gives a directory 1024 references to page
tables, the parallel array of their physical addresses, and its own physical
address.  A reference is the address of the table, 0 being the null pointer. -/
structure page_directory_t where
  tables : Nat → Nat
  physical_tables : Nat → Nat
  physical_address : Nat

/-- Modelled from the spec: `sizeof(page_table_t)`, whose declaration is in
`system.h`; the spec makes a page table exactly one frame, and `get_page`
clears `0x1000` bytes of it. -/
def sizeof_page_table_t : Nat := 0x1000

/-- Modelled from the spec: the size of `page_directory_t` and the offset of
its `physical_tables` array, which follow from the declaration in `system.h`;
they are taken as given. -/
structure Layout where
  sizeof_page_directory_t : Nat
  offsetof_physical_tables : Nat

/-- The state of the memory manager: the placement allocator globals, the
frame bitmap with `nframes`, the kernel directory, and the page tables in
memory, `tmem a` being the 1024 pages of the table at address `a`.  The bitmap,
the directory and the tables at different addresses are separate objects. -/
structure Kernel where
  cur : Cursor
  frames : Nat → Nat
  nframes : Nat
  dir : page_directory_t
  tmem : Nat → Nat → page_t

/-- `kmalloc(size)`. -/
def kmalloc (ext : HeapExt) (st : Cursor) (size : Nat) : KResult :=
  kmalloc_real ext st size 0 false

/-- `kvmalloc(size)`. -/
def kvmalloc (ext : HeapExt) (st : Cursor) (size : Nat) : KResult :=
  kmalloc_real ext st size 1 false

/-- `kmalloc_p(size, phys)`. -/
def kmalloc_p (ext : HeapExt) (st : Cursor) (size : Nat) : KResult :=
  kmalloc_real ext st size 0 true

/-- `kvmalloc_p(size, phys)`. -/
def kvmalloc_p (ext : HeapExt) (st : Cursor) (size : Nat) : KResult :=
  kmalloc_real ext st size 1 true

/-- `get_page(address, make, dir)` on the directory of the state.  The result
is the state afterwards and the returned pointer: `none` is the null pointer,
`some (a, e)` is the page `e` of the table at address `a`. -/
def get_page (ext : HeapExt) (K : Kernel) (address : Nat) (make : Int) :
    Kernel × Option (Nat × Nat) :=
  let address := address / 0x1000
  let table_index := address / 1024
  if K.dir.tables table_index ≠ 0 then
    (K, some (K.dir.tables table_index, address % 1024))
  else if make ≠ 0 then
    let res := kvmalloc_p ext K.cur sizeof_page_table_t
    let temp := res.phys.getD 0
    ({ K with
        cur := res.st
        dir := { K.dir with
          tables := Function.update K.dir.tables table_index res.address
          physical_tables :=
            Function.update K.dir.physical_tables table_index (temp ||| 0x7) }
        tmem := Function.update K.tmem res.address (fun _ => unmapped_page) },
      some (res.address, address % 1024))
  else
    (K, none)

/-- The page a `page_t *` points to; the null pointer is address 0, the first
page of a table at address 0. -/
def deref (p : Option (Nat × Nat)) : Nat × Nat :=
  match p with
  | some slot => slot
  | none => (0, 0)

/-- `alloc_frame(page, is_kernel, is_writeable)` for a page in a table. -/
def alloc_frame_at (K : Kernel) (slot : Nat × Nat) (is_kernel is_writeable : Int) :
    Outcome Kernel :=
  match alloc_frame K.frames K.nframes (K.tmem slot.1 slot.2) is_kernel is_writeable with
  | .returned r =>
    .returned { K with
      frames := r.1
      tmem := Function.update K.tmem slot.1 (Function.update (K.tmem slot.1) slot.2 r.2) }
  | .halted _ => .halted K

/-! ## Installing paging -/

/-- `memset(frames, 0, n)` on an array of 32-bit words: the first `n` bytes
become 0; the target is little-endian, so in the word split by the end of the
range the low `n % 4` bytes are cleared. -/
def memset_zero (mem : Nat → Nat) (n : Nat) : Nat → Nat :=
  fun i =>
    if i < n / 4 then 0
    else if i = n / 4 then mem i &&& (0xFFFFFFFF ^^^ (2 ^ (8 * (n % 4)) - 1))
    else mem i

/-- The size in bytes that `paging_install(memsize)` asks of `kmalloc` for the
bitmap and then clears: `INDEX_FROM_BIT(nframes)` with `nframes = memsize / 4`. -/
def bitmap_bytes (memsize : Nat) : Nat := INDEX_FROM_BIT (memsize / 4)

/-- A directory cleared by `memset`. -/
def zero_directory : page_directory_t :=
  { tables := fun _ => 0, physical_tables := fun _ => 0, physical_address := 0 }

/-- The statements of `paging_install(memsize)` before its loop: the bitmap is
placed and `bitmap_bytes` of it cleared, the kernel directory is placed and
cleared.  The second component is the address of the directory. -/
def paging_install_setup (ext : HeapExt) (lay : Layout) (K : Kernel) (memsize : Nat) :
    Kernel × Nat :=
  let nframes := memsize / 4
  let r1 := kmalloc ext K.cur (bitmap_bytes memsize)
  let frames := memset_zero K.frames (bitmap_bytes memsize)
  let r2 := kvmalloc_p ext r1.st lay.sizeof_page_directory_t
  ({ K with cur := r2.st, frames := frames, nframes := nframes, dir := zero_directory },
    r2.address)

/-- A bound on the iterations of a loop whose 32-bit counter advances by one
frame: the counter takes at most `2 ^ 20` values. -/
def loop_fuel : Nat := 0x100001

/-! ## The heap -/

/-- `heap_install()`; `~0xFFF` is `0xFFFFF000` in 32 bits. -/
def heap_install (K : Kernel) : Kernel :=
  { K with
    cur :=
      { placement_pointer := 0
        heap_end := ((K.cur.placement_pointer + 0x1000) % 2 ^ 32) &&& 0xFFFFF000 } }

/-- Modelled from the spec: `ASSERT` is a macro of `system.h`, which is not
among the sources; the spec makes a failed assertion fatal.  The ways a call of
`sbrk` ends: a return with the returned address, the out-of-frames halt inside
`alloc_frame`, or a failed assertion. -/
inductive SbrkResult where
  | returned (address : Nat) (K : Kernel)
  | out_of_frames (K : Kernel)
  | assert_failed (K : Kernel)

/-- The state in which a call of `sbrk` ends. -/
def SbrkResult.kernel : SbrkResult → Kernel
  | .returned _ K => K
  | .out_of_frames K => K
  | .assert_failed K => K

/-- The loop of `sbrk`, `for (i = address; i < heap_end; i += 0x1000)`, from
the value `i`, with `fuel` bounding the number of iterations. -/
def sbrk_loop (ext : HeapExt) : Nat → Kernel → Nat → Option (Outcome Kernel)
  | 0, _, _ => none
  | fuel + 1, K, i =>
    if i < K.cur.heap_end then
      let K1 := (get_page ext K i 1).1
      let r := get_page ext K1 i 1
      match alloc_frame_at r.1 (deref r.2) 0 1 with
      | .returned K2 => sbrk_loop ext fuel K2 ((i + 0x1000) % 2 ^ 32)
      | .halted K2 => some (.halted K2)
    else some (.returned K)

/-- `sbrk(increment)`.  The loop runs on `loop_fuel`. -/
def sbrk (ext : HeapExt) (K : Kernel) (increment : Nat) : Option SbrkResult :=
  if increment % 0x1000 ≠ 0 then some (.assert_failed K)
  else if K.cur.heap_end % 0x1000 ≠ 0 then some (.assert_failed K)
  else
    let address := K.cur.heap_end
    let K1 := { K with cur := { K.cur with heap_end := (K.cur.heap_end + increment) % 2 ^ 32 } }
    match sbrk_loop ext loop_fuel K1 address with
    | none => none
    | some (.returned K2) => some (.returned address K2)
    | some (.halted K2) => some (.out_of_frames K2)

/-- A sequence of `sbrk` calls: the way each call ends, in call order; the
sequence stops at the first call that does not return. -/
def sbrk_seq (ext : HeapExt) (K : Kernel) : List Nat → List (Option SbrkResult)
  | [] => []
  | inc :: rest =>
    match sbrk ext K inc with
    | some (.returned a K2) => some (.returned a K2) :: sbrk_seq ext K2 rest
    | r => [r]

/-- A sequence of `get_page` calls, each an address with its `make` flag, on
the directory of the state. -/
def get_page_seq (ext : HeapExt) (K : Kernel) : List (Nat × Int) → Kernel
  | [] => K
  | c :: cs => get_page_seq ext (get_page ext K c.1 c.2).1 cs

/-! ## Concrete kernel states -/

/-- A state before boot: cursor 0, heap not installed, a clear bitmap of 32
frames, a cleared directory and cleared page tables. -/
def zero_kernel : Kernel :=
  { cur := { placement_pointer := 0, heap_end := 0 }
    frames := clear_bitmap, nframes := 32, dir := zero_directory
    tmem := fun _ _ => unmapped_page }

/-- The state `zero_kernel` with the heap installed up to `h`. -/
def kernel_with_heap_end (h : Nat) : Kernel :=
  { zero_kernel with cur := { placement_pointer := 0, heap_end := h } }

/-- The state `zero_kernel` with the cursor at `c`. -/
def kernel_at (c : Nat) : Kernel :=
  { zero_kernel with cur := { placement_pointer := c, heap_end := 0 } }

/-- The layout of `page_directory_t` with 32-bit pointers: 1024 table
pointers, 1024 physical addresses, one physical address. -/
def layout_32 : Layout := { sizeof_page_directory_t := 0x2004, offsetof_physical_tables := 0x1000 }

/-- A state with the heap installed up to `0x5000`, table 0 present, and every
frame of the bitmap used. -/
def full_heap_kernel : Kernel :=
  { cur := { placement_pointer := 0, heap_end := 0x5000 }
    frames := full_bitmap, nframes := 32
    dir := { zero_directory with tables := fun i => if i = 0 then 0x3000 else 0 }
    tmem := fun _ _ => unmapped_page }

/-- A call of `sbrk` ended by a return. -/
def SbrkResult.returns : SbrkResult → Bool
  | .returned _ _ => true
  | _ => false

/-- Number of page tables present in the directory of a state. -/
def table_count (K : Kernel) : Nat :=
  ((Finset.range 1024).filter (fun m => K.dir.tables m ≠ 0)).card

/-- The directory invariant before the heap is installed, for a directory
filled by `get_page` from the cursor `c`: the cursor stands one frame past the
last table placed, every table present is frame-aligned and recorded in
`physical_tables` with the flags `0x7`, and an absent table has
`physical_tables` 0. -/
structure DirInv (c : Nat) (K : Kernel) : Prop where
  preheap : K.cur.heap_end = 0
  cursor : K.cur.placement_pointer =
    if table_count K = 0 then c else c / 0x1000 * 0x1000 + table_count K * 0x1000
  bounded : ∀ m, 1024 ≤ m → K.dir.tables m = 0
  present : ∀ m, K.dir.tables m ≠ 0 →
    K.dir.tables m % 0x1000 = 0 ∧ K.dir.tables m < 2 ^ 32 ∧
      K.dir.physical_tables m = K.dir.tables m ||| 0x7
  absent : ∀ m, K.dir.tables m = 0 → K.dir.physical_tables m = 0

/-- Number of page tables that cover the first `k` pages. -/
def tcount (k : Nat) : Nat := (k + 1023) / 1024

/-! ## Memory as bytes

The definitions above keep the bitmap, the pages and the directory as objects
of their own.  In the machine they are bytes of one memory, placed by
`kmalloc_real`, and `paging_install` reaches them through the pointers `frames`
and `kernel_directory`.  The namespace `Flat` models that memory: a function
from address to byte, 32-bit little-endian words, and the functions of `mem.c`
acting on it. -/

namespace Flat

/-- The byte at address `a` of a memory; an address is a 32-bit value. -/
def load8 (mem : Nat → Nat) (a : Nat) : Nat := mem (a % 2 ^ 32) % 256

/-- The `uint32_t` at address `a`: four bytes, the lowest first. -/
def load32 (mem : Nat → Nat) (a : Nat) : Nat :=
  load8 mem a + 2 ^ 8 * load8 mem (a + 1) + 2 ^ 16 * load8 mem (a + 2) +
    2 ^ 24 * load8 mem (a + 3)

/-- Storing the `uint32_t` value `v` at address `a`. -/
def store32 (mem : Nat → Nat) (a v : Nat) : Nat → Nat := fun x =>
  if x = a % 2 ^ 32 then v % 256
  else if x = (a + 1) % 2 ^ 32 then v / 2 ^ 8 % 256
  else if x = (a + 2) % 2 ^ 32 then v / 2 ^ 16 % 256
  else if x = (a + 3) % 2 ^ 32 then v / 2 ^ 24 % 256
  else mem x

/-- `memset(s, c, n)` of the C library: the `n` bytes from address `s` become
`c`. -/
def memset (mem : Nat → Nat) (s c n : Nat) : Nat → Nat := fun x =>
  if (x + 2 ^ 32 - s % 2 ^ 32) % 2 ^ 32 < n then c % 256 else mem x

/-! ### Page entries and the directory -/

/-- Modelled from the spec: `page_t` is declared in `system.h`, which is not
among the sources.  The spec fixes a 32-bit two-level paging scheme with 1024
pages in a page table of exactly one frame, so a page is a 32-bit entry; its
fields are those of the page-table entry of that scheme: `present` is bit 0,
`rw` bit 1, `user` bit 2, and `frame` the upper 20 bits.  `page_present w` is
the `present` field of the entry `w`. -/
def page_present (w : Nat) : Nat := w % 2

/-- The `rw` field of a page entry (see `page_present`). -/
def page_rw (w : Nat) : Nat := w / 2 % 2

/-- The `user` field of a page entry (see `page_present`). -/
def page_user (w : Nat) : Nat := w / 4 % 2

/-- The `frame` field of a page entry, 20 bits wide (see `page_present`). -/
def page_frame (w : Nat) : Nat := w / 0x1000 % 2 ^ 20

/-- The entry `w` after `page->present = v`. -/
def with_present (w v : Nat) : Nat := w / 2 * 2 + v % 2

/-- The entry `w` after `page->rw = v`. -/
def with_rw (w v : Nat) : Nat := w / 4 * 4 + v % 2 * 2 + w % 2

/-- The entry `w` after `page->user = v`. -/
def with_user (w v : Nat) : Nat := w / 8 * 8 + v % 2 * 4 + w % 4

/-- The entry `w` after `page->frame = v`: the field keeps the low 20 bits of
`v`. -/
def with_frame (w v : Nat) : Nat := v % 2 ^ 20 * 0x1000 + w % 0x1000

/-- Modelled from the spec: `page_directory_t` is declared in `system.h`, which
is not among the sources.  The spec gives a directory 1024 references to page
tables, the parallel array of their physical addresses, and its own physical
address; with 32-bit pointers these are `tables` at offset 0, `physical_tables`
at offset `0x1000` and `physical_address` at offset `0x2000`, `0x2004` bytes in
all.  This is `sizeof(page_directory_t)`. -/
def sizeof_page_directory_t : Nat := 0x2004

/-- The offset of `physical_tables` in `page_directory_t` (see
`sizeof_page_directory_t`). -/
def offsetof_physical_tables : Nat := 0x1000

/-- The offset of `physical_address` in `page_directory_t` (see
`sizeof_page_directory_t`). -/
def offsetof_physical_address : Nat := 0x2000

/-! ### The machine -/

/-- Modelled from the spec: `malloc` and `valloc` belong to the general-purpose
heap allocator, which is not among the sources.  That allocator has a state of
its own, so the address a call returns is taken from a table of answers:
`malloc k size` and `valloc k size` are what the call number `k` to the
allocator returns.  The allocator is taken not to touch the globals of
`mem.c`. -/
structure HeapCalls where
  malloc : Nat → Nat → Nat
  valloc : Nat → Nat → Nat

/-- The memory and the globals of `mem.c`: `placement_pointer`, `heap_end`,
`frames`, `nframes` and `kernel_directory`, the two pointers as addresses.
`heap_calls` counts the calls made to the heap allocator. -/
structure Machine where
  mem : Nat → Nat
  placement_pointer : Nat
  heap_end : Nat
  frames : Nat
  nframes : Nat
  kernel_directory : Nat
  heap_calls : Nat

/-- The ways a run ends: a normal return, the halt of `HALT_AND_CATCH_FIRE`, a
failed `ASSERT` (both fatal, see `Outcome` and `SbrkResult`), or the
dereference of a null `page_t *` in `kmalloc_real`, after which nothing is
defined. -/
inductive Run (α : Type) where
  | returned : α → Run α
  | halted : Machine → Run α
  | assert_failed : Machine → Run α
  | null_access : Machine → Run α

/-- The bitmap as `first_frame` reads it: `frames[i]` is the word at
`frames + 4 * i`. -/
def bitmap (mem : Nat → Nat) (frames : Nat) : Nat → Nat :=
  fun i => load32 mem (frames + 4 * i)

/-- `set_frame(frame_addr)`: `frames[index] |= (0x1 << offset)`, on memory. -/
def set_frame (mem : Nat → Nat) (frames : Nat) (frame_addr : Nat) : Nat → Nat :=
  let frame := frame_addr / 0x1000
  let index := INDEX_FROM_BIT frame
  let offset := OFFSET_FROM_BIT frame
  store32 mem (frames + 4 * index) (load32 mem (frames + 4 * index) ||| (0x1 <<< offset))

/-- `first_frame()`: the scan of `Mem.first_frame` over the words of memory at
`frames`. -/
def first_frame (M : Machine) : Nat := Mem.first_frame (bitmap M.mem M.frames) M.nframes

/-- `alloc_frame(page, is_kernel, is_writeable)`, `page` being the address of
the entry.  Each assignment to a field reads the entry and stores it back. -/
def alloc_frame (M : Machine) (page : Nat) (is_kernel is_writeable : Int) : Outcome Machine :=
  if page_frame (load32 M.mem page) ≠ 0 then
    let m1 := store32 M.mem page (with_rw (load32 M.mem page) (if is_writeable = 1 then 1 else 0))
    let m2 := store32 m1 page (with_user (load32 m1 page) (if is_kernel = 1 then 0 else 1))
    .returned { M with mem := m2 }
  else
    let index := first_frame M
    if index = 0xFFFFFFFF then .halted M
    else
      let m0 := set_frame M.mem M.frames (index * 0x1000 % 2 ^ 32)
      let m1 := store32 m0 page (with_present (load32 m0 page) 1)
      let m2 := store32 m1 page (with_rw (load32 m1 page) (if is_writeable = 1 then 1 else 0))
      let m3 := store32 m2 page (with_user (load32 m2 page) (if is_kernel = 1 then 0 else 1))
      let m4 := store32 m3 page (with_frame (load32 m3 page) index)
      .returned { M with mem := m4 }

/-- What `get_page(address, 0, dir)` returns: the address of the page entry, 0
when the table is absent.  With `make == 0` the function writes nothing;
`kmalloc_real` calls it so. -/
def get_page_lookup (mem : Nat → Nat) (address dir : Nat) : Nat :=
  let address := address / 0x1000
  let table_index := address / 1024
  if load32 mem (dir + 4 * table_index) ≠ 0 then
    (load32 mem (dir + 4 * table_index) + 4 * (address % 1024)) % 2 ^ 32
  else 0

/-- `kmalloc_real(size, align, phys)`; `want_phys` says that `phys` is not
null.  The result is the state afterwards, the returned address and the value
stored through `phys` (0 when `phys` is null); `none` is the dereference of a
null `page` in the branch taken once the heap is installed. -/
def kmalloc_real (ext : HeapCalls) (M : Machine) (size : Nat) (align : Int)
    (want_phys : Bool) : Option (Machine × Nat × Nat) :=
  if M.heap_end ≠ 0 then
    let address := if align ≠ 0 then ext.valloc M.heap_calls size else ext.malloc M.heap_calls size
    let M1 := { M with heap_calls := M.heap_calls + 1 }
    if want_phys then
      let page := get_page_lookup M1.mem address M1.kernel_directory
      if page = 0 then none
      else
        some (M1, address,
          (page_frame (load32 M1.mem page) * 0x1000 + (address &&& 0xFFF)) % 2 ^ 32)
    else some (M1, address, 0)
  else
    let pp :=
      if align ≠ 0 ∧ M.placement_pointer &&& 0xFFFFF000 ≠ 0 then
        M.placement_pointer &&& 0xFFFFF000
      else M.placement_pointer
    some ({ M with placement_pointer := (pp + size) % 2 ^ 32 }, pp, if want_phys then pp else 0)

/-- `kmalloc(size)`. -/
def kmalloc (ext : HeapCalls) (M : Machine) (size : Nat) : Option (Machine × Nat × Nat) :=
  kmalloc_real ext M size 0 false

/-- `kvmalloc_p(size, phys)`. -/
def kvmalloc_p (ext : HeapCalls) (M : Machine) (size : Nat) : Option (Machine × Nat × Nat) :=
  kmalloc_real ext M size 1 true

/-- `get_page(address, make, dir)`: the state afterwards and the returned
pointer, 0 being the null pointer; `none` is the null dereference inside
`kvmalloc_p`.  The creating branch reads `dir->tables[table_index]` back from
memory for `memset` and for the result, as the source does. -/
def get_page (ext : HeapCalls) (M : Machine) (address : Nat) (make : Int) (dir : Nat) :
    Option (Machine × Nat) :=
  let address := address / 0x1000
  let table_index := address / 1024
  if load32 M.mem (dir + 4 * table_index) ≠ 0 then
    some (M, (load32 M.mem (dir + 4 * table_index) + 4 * (address % 1024)) % 2 ^ 32)
  else if make ≠ 0 then
    match kvmalloc_p ext M sizeof_page_table_t with
    | none => none
    | some (M1, a, temp) =>
      let m1 := store32 M1.mem (dir + 4 * table_index) a
      let m2 := memset m1 (load32 m1 (dir + 4 * table_index)) 0 0x1000
      let m3 := store32 m2 (dir + offsetof_physical_tables + 4 * table_index) (temp ||| 0x7)
      some ({ M1 with mem := m3 },
        (load32 m3 (dir + 4 * table_index) + 4 * (address % 1024)) % 2 ^ 32)
  else some (M, 0)

/-- The statements of `paging_install(memsize)` before its loop: `nframes` is
set, the bitmap is placed and `INDEX_FROM_BIT(nframes)` bytes of it cleared,
the kernel directory is placed and cleared. -/
def paging_install_setup (ext : HeapCalls) (M : Machine) (memsize : Nat) : Option Machine :=
  let M0 := { M with nframes := memsize / 4 }
  match kmalloc ext M0 (INDEX_FROM_BIT M0.nframes) with
  | none => none
  | some (M1, a1, _) =>
    let M2 := { M1 with frames := a1 }
    let M3 := { M2 with mem := memset M2.mem M2.frames 0 (INDEX_FROM_BIT M2.nframes) }
    match kvmalloc_p ext M3 sizeof_page_directory_t with
    | none => none
    | some (M4, a2, _) =>
      let M5 := { M4 with kernel_directory := a2 }
      some { M5 with mem := memset M5.mem M5.kernel_directory 0 sizeof_page_directory_t }

/-- The loop of `paging_install`, `while (i < placement_pointer + 0x1000)`,
from the value `i`, with `fuel` bounding the number of iterations: `none` is
the fuel running out, `returned` the end of the loop with the final value of
`i`. -/
def paging_install_loop (ext : HeapCalls) : Nat → Machine → Nat → Option (Run (Machine × Nat))
  | 0, _, _ => none
  | fuel + 1, M, i =>
    if i < (M.placement_pointer + 0x1000) % 2 ^ 32 then
      match get_page ext M i 1 M.kernel_directory with
      | none => some (.null_access M)
      | some (M1, page) =>
        match alloc_frame M1 page 0 0 with
        | .returned M2 => paging_install_loop ext fuel M2 ((i + 0x1000) % 2 ^ 32)
        | .halted M2 => some (.halted M2)
    else some (.returned (M, i))

/-- `paging_install(memsize)` up to the assignment of `physical_address`.  The
calls that follow, `isrs_install_handler`, `clone_directory` and
`switch_page_directory`, are not in `mem.c` or act on the processor, and are
left out.  The loop runs on `loop_fuel`. -/
def paging_install (ext : HeapCalls) (M : Machine) (memsize : Nat) : Option (Run Machine) :=
  match paging_install_setup ext M memsize with
  | none => some (.null_access M)
  | some M1 =>
    match paging_install_loop ext loop_fuel M1 0 with
    | none => none
    | some (.returned r) =>
      some (.returned { r.1 with
        mem := store32 r.1.mem (r.1.kernel_directory + offsetof_physical_address)
          ((r.1.kernel_directory + offsetof_physical_tables) % 2 ^ 32) })
    | some (.halted M2) => some (.halted M2)
    | some (.assert_failed M2) => some (.assert_failed M2)
    | some (.null_access M2) => some (.null_access M2)

/-- `heap_install()`; `~0xFFF` is `0xFFFFF000` in 32 bits. -/
def heap_install (M : Machine) : Machine :=
  { M with
    heap_end := ((M.placement_pointer + 0x1000) % 2 ^ 32) &&& 0xFFFFF000
    placement_pointer := 0 }

/-- The loop of `sbrk`, `for (i = address; i < heap_end; i += 0x1000)`, from
the value `i`, with `fuel` bounding the number of iterations. -/
def sbrk_loop (ext : HeapCalls) : Nat → Machine → Nat → Option (Run Machine)
  | 0, _, _ => none
  | fuel + 1, M, i =>
    if i < M.heap_end then
      match get_page ext M i 1 M.kernel_directory with
      | none => some (.null_access M)
      | some (M1, _) =>
        match get_page ext M1 i 1 M1.kernel_directory with
        | none => some (.null_access M1)
        | some (M2, page) =>
          match alloc_frame M2 page 0 1 with
          | .returned M3 => sbrk_loop ext fuel M3 ((i + 0x1000) % 2 ^ 32)
          | .halted M3 => some (.halted M3)
    else some (.returned M)

/-- `sbrk(increment)`: the state afterwards and the returned address.  The loop
runs on `loop_fuel`. -/
def sbrk (ext : HeapCalls) (M : Machine) (increment : Nat) : Option (Run (Machine × Nat)) :=
  if increment % 0x1000 ≠ 0 then some (.assert_failed M)
  else if M.heap_end % 0x1000 ≠ 0 then some (.assert_failed M)
  else
    let address := M.heap_end
    let M1 := { M with heap_end := (M.heap_end + increment) % 2 ^ 32 }
    match sbrk_loop ext loop_fuel M1 address with
    | none => none
    | some (.returned M2) => some (.returned (M2, address))
    | some (.halted M2) => some (.halted M2)
    | some (.assert_failed M2) => some (.assert_failed M2)
    | some (.null_access M2) => some (.null_access M2)

/-- What a run returned, if it returned. -/
def Run.value {α : Type} : Option (Run α) → Option α
  | some (.returned a) => some a
  | _ => none

/-! ### Where the objects lie -/

/-- The memory after the three statements of the creating branch of
`get_page`, `kvmalloc_p` having returned `a` and stored `temp`: the table
pointer is stored, the `0x1000` bytes it points to are cleared, and the
physical address is recorded with the flags `0x7`. -/
def table_created (mem : Nat → Nat) (dir ti a temp : Nat) : Nat → Nat :=
  store32 (memset (store32 mem (dir + 4 * ti) a)
    (load32 (store32 mem (dir + 4 * ti) a) (dir + 4 * ti)) 0 0x1000)
    (dir + offsetof_physical_tables + 4 * ti) (temp ||| 0x7)

/-- Where the objects of the memory manager lie in memory: the bitmap, the
number of bytes reserved for it, the kernel directory, and the page table of
each directory index. -/
structure Places where
  frames : Nat
  bytes : Nat
  dir : Nat
  table : Nat → Nat

/-- The bytes of the bitmap, the two arrays of the directory and the first `T`
page tables lie below `2 ^ 32` and apart from each other, and no table is at
address 0.  The last word that holds a bit of the bitmap can reach 3 bytes
past the bytes of the bitmap; these 3 bytes lie below `2 ^ 32` and outside the
page tables, and may belong to the directory. -/
structure Apart (L : Places) (T : Nat) : Prop where
  bitmap_end : L.frames + L.bytes + 3 ≤ 2 ^ 32
  dir_end : L.dir + 0x2000 ≤ 2 ^ 32
  bitmap_dir : L.frames + L.bytes ≤ L.dir ∨ L.dir + 0x2000 ≤ L.frames
  table_ne : ∀ m, m < T → L.table m ≠ 0
  table_end : ∀ m, m < T → L.table m + 0x1000 ≤ 2 ^ 32
  table_bitmap : ∀ m, m < T →
    L.table m + 0x1000 ≤ L.frames ∨ L.frames + L.bytes + 3 ≤ L.table m
  table_dir : ∀ m, m < T → L.table m + 0x1000 ≤ L.dir ∨ L.dir + 0x2000 ≤ L.table m
  table_table : ∀ m m2, m < T → m2 < T → m ≠ m2 →
    L.table m + 0x1000 ≤ L.table m2 ∨ L.table m2 + 0x1000 ≤ L.table m

/-- The state of a mapping loop that has mapped the pages `lo .. k - 1` with
the flag bits `fl`, with `t` page tables present: the first `t` directory
entries point to their tables, the bytes of the bitmap lie in the words that
`first_frame` scans, frame `b` is marked used exactly when `b < k`,
page `j` holds frame `j`, and the pages from `k` on are clear. -/
structure MapInv (L : Places) (lo fl : Nat) (M : Machine) (k t : Nat) : Prop where
  frames : M.frames = L.frames
  dir : M.kernel_directory = L.dir
  scanned : 8 * L.bytes ≤ 32 * (M.nframes / 32)
  tables : ∀ m, m < 1024 → load32 M.mem (L.dir + 4 * m) = if m < t then L.table m else 0
  bits : ∀ b, b < 8 * L.bytes → frame_used (bitmap M.mem L.frames) b = decide (b < k)
  entries : ∀ j, lo ≤ j → j < 1024 * t →
    load32 M.mem (L.table (j / 1024) + 4 * (j % 1024)) = if j < k then j * 0x1000 + fl else 0

/-- Where `paging_install` puts its objects when it is entered with the cursor
at `c` and reserves `n` bytes for the bitmap, the bitmap ending on a frame
boundary: the `n` bytes of the bitmap at `c`, the directory right after
them, and the page tables one after the other from the end of the two
arrays of the directory. -/
def install_places (c n : Nat) : Places :=
  { frames := c, bytes := n, dir := c + n, table := fun m => c + n + 0x2000 + 0x1000 * m }

/-- The invariant of the loop of `paging_install` at the top of the iteration
with `i = k * 0x1000`: the pages below `k` are mapped read-only, the heap is
not installed, no call to the heap allocator was made, and the cursor stands
past the last page table. -/
structure InstallInv (c n q : Nat) (M : Machine) (k : Nat) : Prop where
  map : MapInv (install_places c n) 0 5 M k (tcount k)
  preheap : M.heap_end = 0
  calls : M.heap_calls = q
  cursor : M.placement_pointer =
    if k = 0 then c + n + 0x2004 else c + n + 0x2000 + 0x1000 * tcount k
  tight : k = 0 ∨ k ≤ (c + n) / 0x1000 + 3 + tcount k

/-- Where the objects lie once the heap grows: the bitmap, the directory and
the first `tN` page tables where `paging_install` put them (see
`install_places`), and each later page table where the heap allocator put it,
the calls to `valloc` being numbered from `q`. -/
def heap_places (ext : HeapCalls) (c n q tN : Nat) : Places :=
  { frames := c, bytes := n, dir := c + n
    table := fun m =>
      if m < tN then c + n + 0x2000 + 0x1000 * m
      else ext.valloc (q + (m - tN)) sizeof_page_table_t }

/-- What `get_page` needs of the blocks that the calls `q`, `q + 1`, ... of
`valloc` hand out for the page tables of indices `tN .. T - 1`: each block is
not at address 0, ends below `2 ^ 32`, lies in a 4 MiB region that has a page
table when the call is made (so that its physical address can be looked up:
call `q + i` is made with `tN + i` tables in place), and lies apart from the
bitmap at `c`, from the directory and the `tN` page tables that follow it, and
from the other blocks. -/
structure FreshTables (ext : HeapCalls) (c n q tN T : Nat) : Prop where
  ne : ∀ i, tN + i < T → ext.valloc (q + i) sizeof_page_table_t ≠ 0
  bound : ∀ i, tN + i < T → ext.valloc (q + i) sizeof_page_table_t + 0x1000 ≤ 2 ^ 32
  mapped : ∀ i, tN + i < T → ext.valloc (q + i) sizeof_page_table_t / 0x1000 / 1024 < tN + i
  apart : ∀ i, tN + i < T →
    ext.valloc (q + i) sizeof_page_table_t + 0x1000 ≤ c ∨
      c + n + 0x2000 + 0x1000 * tN ≤ ext.valloc (q + i) sizeof_page_table_t
  distinct : ∀ i i2, tN + i < T → tN + i2 < T → i ≠ i2 →
    ext.valloc (q + i) sizeof_page_table_t + 0x1000 ≤ ext.valloc (q + i2) sizeof_page_table_t ∨
      ext.valloc (q + i2) sizeof_page_table_t + 0x1000 ≤ ext.valloc (q + i) sizeof_page_table_t

/-- The invariant of the loop of `sbrk` at the top of the iteration that maps
page `k`, the heap having started at page `N`: the pages `N .. k - 1` are
mapped writable, `heap_end` is `hend`, and one call to `valloc` was made for
each page table created. -/
structure GrowInv (ext : HeapCalls) (c n q N hend : Nat) (M : Machine) (k : Nat) : Prop where
  map : MapInv (heap_places ext c n q (tcount N)) N 7 M k (tcount k)
  heap : M.heap_end = hend
  calls : M.heap_calls = q + (tcount k - tcount N)

/-! ### Concrete machines -/

/-- A heap allocator that is never called: every answer is 0. -/
def quiet_heap : HeapCalls := { malloc := fun _ _ => 0, valloc := fun _ _ => 0 }

/-- The machine after `kmalloc_startat(c)`: the cursor at `c`, the heap not
installed, every byte of memory `0xFF`. -/
def boot_machine (c : Nat) : Machine :=
  { mem := fun _ => 0xFF, placement_pointer := c, heap_end := 0, frames := 0, nframes := 0
    kernel_directory := 0, heap_calls := 0 }

/-- A heap allocator whose call number `k` to `valloc` hands out the frame at
`0x200000 + 0x1000 * k`; `malloc` answers 0. -/
def block_heap : HeapCalls :=
  { malloc := fun _ _ => 0, valloc := fun k _ => 0x200000 + 0x1000 * k }

/-- The state after `kmalloc_startat(0x100000); paging_install(0x100000)`: the
cursor at 1 MiB, 1 GiB of memory in `0x40000` frames. -/
def installed_machine : Machine :=
  (Run.value (paging_install block_heap (boot_machine 0x100000) 0x100000)).getD (boot_machine 0)

/-- A machine with `2 ^ 20 + 32` frames whose bitmap, at `0x100000`, has the
first `2 ^ 20` frames marked used; the rest of memory is clear. -/
def high_memory_machine : Machine :=
  { mem := fun a => if 0x100000 ≤ a ∧ a < 0x120000 then 0xFF else 0
    placement_pointer := 0, heap_end := 0, frames := 0x100000, nframes := 1048608
    kernel_directory := 0, heap_calls := 0 }

end Flat

/-! ## The bitmap, bit by bit -/

/-- The mask test of the source, `w & (0x1 << j)`, reads bit `j` of `w`. -/
theorem and_one_shiftLeft_eq_zero (w j : Nat) :
    w &&& (0x1 <<< j) = 0 ↔ w.testBit j = false := by
  rw [Nat.one_shiftLeft, Nat.and_two_pow]
  cases h : w.testBit j <;> simp [Nat.pos_iff_ne_zero]

/-- Frame `b` is marked used when bit `b % 32` of word `b / 32` is set. -/
theorem frame_used_eq (frames : Nat → Nat) (b : Nat) :
    frame_used frames b = (frames (b / 32)).testBit (b % 32) := by
  unfold frame_used INDEX_FROM_BIT OFFSET_FROM_BIT
  cases h : (frames (b / 32)).testBit (b % 32)
  · have := (and_one_shiftLeft_eq_zero (frames (b / 32)) (b % 32)).2 h
    simp [this]
  · have : ¬ (frames (b / 32) &&& (0x1 <<< (b % 32)) = 0) := by
      rw [and_one_shiftLeft_eq_zero]; simp [h]
    simpa using this

/-- Frame `b` is marked used exactly when `test_frame` of its address is not 0. -/
theorem frame_used_iff_test_frame (frames : Nat → Nat) (b : Nat) :
    frame_used frames b = true ↔ test_frame frames (b * 0x1000) ≠ 0 := by
  have e : b * 0x1000 / 0x1000 = b := by omega
  simp [frame_used, test_frame, e]

/-- When the bit loop returns `r`, bit `r` is clear and the bits it passed are
set. -/
theorem first_frame_bits_some (w : Nat) : ∀ (n j r : Nat),
    first_frame_bits w j n = some r →
      j ≤ r ∧ r < j + n ∧ w.testBit r = false ∧ ∀ t, j ≤ t → t < r → w.testBit t = true := by
  intro n
  induction n with
  | zero => intro j r h; simp [first_frame_bits] at h
  | succ n ih =>
    intro j r h
    rw [first_frame_bits] at h
    split at h
    · rename_i hz
      have hr : j = r := by simpa using h
      subst hr
      refine ⟨le_refl _, by omega, (and_one_shiftLeft_eq_zero w j).1 hz, ?_⟩
      intro t h1 h2; omega
    · rename_i hz
      obtain ⟨h1, h2, h3, h4⟩ := ih (j + 1) r h
      refine ⟨by omega, by omega, h3, ?_⟩
      intro t ht1 ht2
      by_cases e : t = j
      · subst e
        cases hb : w.testBit t
        · exact absurd ((and_one_shiftLeft_eq_zero w t).2 hb) hz
        · rfl
      · exact h4 t (by omega) ht2

/-- When the bit loop runs to its end, every bit it passed is set. -/
theorem first_frame_bits_none (w : Nat) : ∀ (n j : Nat),
    first_frame_bits w j n = none → ∀ t, j ≤ t → t < j + n → w.testBit t = true := by
  intro n
  induction n with
  | zero => intro j _ t h1 h2; omega
  | succ n ih =>
    intro j h t ht1 ht2
    rw [first_frame_bits] at h
    split at h
    · simp at h
    · rename_i hz
      by_cases e : t = j
      · subst e
        cases hb : w.testBit t
        · exact absurd ((and_one_shiftLeft_eq_zero w t).2 hb) hz
        · rfl
      · exact ih (j + 1) h t (by omega) (by omega)

/-- The word loop either ends with the sentinel, every bit of the words it
scanned being set, or returns the lowest clear bit of those words. -/
theorem first_frame_loop_spec (frames : Nat → Nat) : ∀ (n i : Nat),
    (first_frame_loop frames i n = 0xFFFFFFFF ∧
        ∀ b, 32 * i ≤ b → b < 32 * (i + n) → frame_used frames b = true) ∨
    (∃ k, first_frame_loop frames i n = k ∧ 32 * i ≤ k ∧ k < 32 * (i + n) ∧
        frame_used frames k = false ∧
        ∀ b, 32 * i ≤ b → b < k → frame_used frames b = true) := by
  intro n
  induction n with
  | zero =>
    intro i
    left
    refine ⟨rfl, ?_⟩
    intro b h1 h2; omega
  | succ n ih =>
    intro i
    have hword : (∀ t, t < 32 → (frames i).testBit t = true) →
        ∀ b, 32 * i ≤ b → b < 32 * (i + 1) → frame_used frames b = true := by
      intro hw b h1 h2
      rw [frame_used_eq]
      have e1 : b / 32 = i := by omega
      rw [e1]
      exact hw _ (by omega)
    have hrec : (∀ t, t < 32 → (frames i).testBit t = true) →
        first_frame_loop frames i (n + 1) = first_frame_loop frames (i + 1) n →
        (first_frame_loop frames i (n + 1) = 0xFFFFFFFF ∧
          ∀ b, 32 * i ≤ b → b < 32 * (i + (n + 1)) → frame_used frames b = true) ∨
        (∃ k, first_frame_loop frames i (n + 1) = k ∧ 32 * i ≤ k ∧ k < 32 * (i + (n + 1)) ∧
          frame_used frames k = false ∧
          ∀ b, 32 * i ≤ b → b < k → frame_used frames b = true) := by
      intro hw he
      rcases ih (i + 1) with ⟨h1, h2⟩ | ⟨k, h1, h2, h3, h4, h5⟩
      · left
        refine ⟨by rw [he, h1], ?_⟩
        intro b hb1 hb2
        by_cases hlt : b < 32 * (i + 1)
        · exact hword hw b hb1 hlt
        · exact h2 b (by omega) (by omega)
      · right
        refine ⟨k, by rw [he, h1], by omega, by omega, h4, ?_⟩
        intro b hb1 hb2
        by_cases hlt : b < 32 * (i + 1)
        · exact hword hw b hb1 hlt
        · exact h5 b (by omega) hb2
    by_cases hfull : frames i = 0xFFFFFFFF
    · apply hrec
      · intro t ht
        rw [hfull]
        have : (0xFFFFFFFF : Nat) = 2 ^ 32 - 1 := by norm_num
        rw [this, Nat.testBit_two_pow_sub_one]
        simpa using ht
      · rw [first_frame_loop]; simp [hfull]
    · cases hb : first_frame_bits (frames i) 0 32 with
      | none =>
        apply hrec
        · intro t ht
          exact first_frame_bits_none (frames i) 32 0 hb t (Nat.zero_le _) (by omega)
        · rw [first_frame_loop]; simp [hfull, hb]
      | some j =>
        obtain ⟨_, h2, h3, h4⟩ := first_frame_bits_some (frames i) 32 0 j hb
        right
        refine ⟨i * 0x20 + j, ?_, by omega, by omega, ?_, ?_⟩
        · rw [first_frame_loop]; simp [hfull, hb]
        · rw [frame_used_eq]
          have e1 : (i * 0x20 + j) / 32 = i := by omega
          have e2 : (i * 0x20 + j) % 32 = j := by omega
          rw [e1, e2]; exact h3
        · intro b hb1 hb2
          rw [frame_used_eq]
          have e1 : b / 32 = i := by omega
          rw [e1]
          exact h4 _ (Nat.zero_le _) (by omega)

/-- The call `set_frame(f * 0x1000)` sets bit `f` and no other bit. -/
theorem frame_used_set_frame (frames : Nat → Nat) (f b : Nat) :
    frame_used (set_frame frames (f * 0x1000)) b = (decide (b = f) || frame_used frames b) := by
  have e : f * 0x1000 / 0x1000 = f := by omega
  simp only [frame_used_eq, set_frame, INDEX_FROM_BIT, OFFSET_FROM_BIT, e,
    Function.update_apply]
  by_cases hw : b / 32 = f / 32
  · rw [if_pos hw, Nat.testBit_or, Nat.one_shiftLeft, Nat.testBit_two_pow, hw]
    by_cases hb : b = f
    · subst hb; simp
    · have : ¬ (f % 32 = b % 32) := by omega
      simp [hb, this, Bool.or_comm]
  · rw [if_neg hw]
    have hb : ¬ (b = f) := by rintro rfl; exact hw rfl
    simp [hb]

/-- The call `clear_frame(a)` clears bit `a / 0x1000` and no other bit. -/
theorem frame_used_clear_frame (frames : Nat → Nat) (a b : Nat) :
    frame_used (clear_frame frames a) b =
      (!decide (b = a / 0x1000) && frame_used frames b) := by
  simp only [frame_used_eq, clear_frame, INDEX_FROM_BIT, OFFSET_FROM_BIT,
    Function.update_apply]
  by_cases hw : b / 32 = a / 0x1000 / 32
  · rw [if_pos hw, Nat.testBit_and, Nat.testBit_xor, Nat.one_shiftLeft, Nat.testBit_two_pow, hw]
    have hm : (0xFFFFFFFF : Nat) = 2 ^ 32 - 1 := by norm_num
    rw [hm, Nat.testBit_two_pow_sub_one]
    have hlt : b % 32 < 32 := Nat.mod_lt _ (by norm_num)
    by_cases hb : b = a / 0x1000
    · subst hb; simp [hlt]
    · have : ¬ (a / 0x1000 % 32 = b % 32) := by omega
      simp [hb, this, hlt, Bool.and_comm]
  · rw [if_neg hw]
    have hb : ¬ (b = a / 0x1000) := by rintro rfl; exact hw rfl
    simp [hb]

/-! ## The result of the scan -/

/-- The two possible results of `first_frame`: the sentinel after a scan of
whole words that are all used, or the lowest free frame of the scanned words. -/
theorem first_frame_cases (frames : Nat → Nat) (nframes : Nat) :
    (first_frame frames nframes = 0xFFFFFFFF ∧
        ∀ b, b < 32 * (nframes / 32) → frame_used frames b = true) ∨
    (∃ k, first_frame frames nframes = k ∧ k < 32 * (nframes / 32) ∧
        frame_used frames k = false ∧ ∀ b, b < k → frame_used frames b = true) := by
  unfold first_frame INDEX_FROM_BIT
  rcases first_frame_loop_spec frames (nframes / 0x20) 0 with ⟨h1, h2⟩ | ⟨k, h1, _, h3, h4, h5⟩
  · left
    exact ⟨h1, fun b hb => h2 b (by omega) (by omega)⟩
  · right
    exact ⟨k, h1, by omega, h4, fun b hb => h5 b (by omega) hb⟩

/-- The scan returns the lowest free frame when that frame lies in a scanned
word. -/
theorem first_frame_eq_of_lowest_free (frames : Nat → Nat) (nframes k : Nat)
    (hk : k < 32 * (nframes / 32)) (hfree : frame_used frames k = false)
    (hused : ∀ b, b < k → frame_used frames b = true) :
    first_frame frames nframes = k := by
  rcases first_frame_cases frames nframes with ⟨_, h2⟩ | ⟨k', h1, _, h3, h4⟩
  · rw [h2 k hk] at hfree; cases hfree
  · rw [h1]
    rcases Nat.lt_trichotomy k' k with h | h | h
    · rw [hused k' h] at h3; cases h3
    · exact h
    · rw [h4 k h] at hfree; cases hfree

/-- The scan of a bitmap whose frames are all used returns the sentinel. -/
theorem first_frame_full (frames : Nat → Nat) (nframes : Nat)
    (hfull : ∀ b, b < nframes → frame_used frames b = true) :
    first_frame frames nframes = 0xFFFFFFFF := by
  have hle : 32 * (nframes / 32) ≤ nframes := Nat.mul_div_le nframes 32
  rcases first_frame_cases frames nframes with ⟨h1, _⟩ | ⟨k, _, h2, h3, _⟩
  · exact h1
  · rw [hfull k (by omega)] at h3; cases h3

/-! ## Frame uniqueness -/

/-- A page owns its frame when it is present and its frame index is not 0. -/
theorem owns_iff (p : page_t) : p.owns = true ↔ p.present = 1 ∧ p.frame ≠ 0 := by
  simp [page_t.owns]

/-- Rewriting the permission bits of a page keeps the ownership invariant. -/
theorem frameInv_update_same (s : State) (i : Nat) (p : page_t) (hinv : FrameInv s)
    (hf : p.frame = (s.pages i).frame) (hp : p.present = (s.pages i).present) :
    FrameInv { s with pages := Function.update s.pages i p } := by
  have kf : ∀ j, (Function.update s.pages i p j).frame = (s.pages j).frame := by
    intro j
    by_cases e : j = i
    · subst e; simp [hf]
    · simp [Function.update_apply, e]
  have ko : ∀ j, (Function.update s.pages i p j).owns = (s.pages j).owns := by
    intro j
    by_cases e : j = i
    · subst e; simp [page_t.owns, hf, hp]
    · simp [Function.update_apply, e]
  constructor
  · exact hinv.addressable
  · intro j hj; simp only [kf, ko]; exact hinv.in_range j hj
  · intro b h1 h2; simp only [kf, ko]; exact hinv.used_iff b h1 h2
  · intro j1 j2 h1 h2; simp only [kf, ko]; exact hinv.unique j1 j2 h1 h2

/-- Giving a free frame to an unmapped page, and marking it used, keeps the
ownership invariant. -/
theorem frameInv_alloc_new (s : State) (i f r u : Nat) (hinv : FrameInv s)
    (hi : i < s.npages) (hz : (s.pages i).frame = 0)
    (hf : f < s.nframes) (hfree : frame_used s.frames f = false) :
    FrameInv { s with
      frames := set_frame s.frames (f * 0x1000)
      pages := Function.update s.pages i { present := 1, rw := r, user := u, frame := f } } := by
  have hold : (s.pages i).owns = false := by simp [page_t.owns, hz]
  have knew : ∀ j, j ≠ i → Function.update s.pages i
      { present := 1, rw := r, user := u, frame := f } j = s.pages j := by
    intro j e
    simp [Function.update_apply, e]
  have kself : Function.update s.pages i
      { present := 1, rw := r, user := u, frame := f } i =
      { present := 1, rw := r, user := u, frame := f } := by simp
  have hnone : ∀ j, j < s.npages → (s.pages j).owns = true → 1 ≤ f → (s.pages j).frame ≠ f := by
    intro j hj ho h1 e
    have := (hinv.used_iff f h1 hf).2 ⟨j, hj, ho, e⟩
    rw [hfree] at this; cases this
  constructor
  · exact hinv.addressable
  · intro j hj
    show (Function.update s.pages i _ j).owns = true →
      (Function.update s.pages i _ j).frame < s.nframes
    by_cases e : j = i
    · rw [e, kself]; intro _; exact hf
    · rw [knew j e]; exact hinv.in_range j hj
  · intro b h1 h2
    show frame_used (set_frame s.frames (f * 0x1000)) b = true ↔
      ∃ j, j < s.npages ∧ (Function.update s.pages i _ j).owns = true ∧
        (Function.update s.pages i _ j).frame = b
    rw [frame_used_set_frame]
    by_cases hb : b = f
    · subst hb
      simp only [decide_True, Bool.true_or, true_iff]
      refine ⟨i, hi, ?_⟩
      rw [kself]
      exact ⟨(owns_iff _).2 ⟨rfl, by show b ≠ 0; omega⟩, rfl⟩
    · simp only [hb, decide_False, Bool.false_or]
      rw [hinv.used_iff b h1 h2]
      constructor
      · rintro ⟨j, hj, ho, e⟩
        have hji : j ≠ i := by rintro rfl; rw [hold] at ho; cases ho
        exact ⟨j, hj, by rw [knew j hji]; exact ⟨ho, e⟩⟩
      · rintro ⟨j, hj, ho, e⟩
        by_cases hji : j = i
        · rw [hji, kself] at e; exact absurd e.symm hb
        · rw [knew j hji] at ho e; exact ⟨j, hj, ho, e⟩
  · intro j1 j2 h1 h2
    show (Function.update s.pages i _ j1).owns = true →
      (Function.update s.pages i _ j2).owns = true →
      (Function.update s.pages i _ j1).frame = (Function.update s.pages i _ j2).frame → j1 = j2
    by_cases e1 : j1 = i <;> by_cases e2 : j2 = i
    · intro _ _ _; rw [e1, e2]
    · rw [e1, kself, knew j2 e2]
      intro ho1 ho2 heq
      have hf0 : f ≠ 0 := ((owns_iff _).1 ho1).2
      exact absurd heq.symm (hnone j2 h2 ho2 (by omega))
    · rw [e2, kself, knew j1 e1]
      intro ho1 ho2 heq
      have hf0 : f ≠ 0 := ((owns_iff _).1 ho2).2
      exact absurd heq (hnone j1 h1 ho1 (by omega))
    · rw [knew j1 e1, knew j2 e2]
      exact hinv.unique j1 j2 h1 h2

/-- One `alloc_frame` call keeps the ownership invariant, whether it returns or
halts. -/
theorem frameInv_call_step (s : State) (c : Call) (hc : c.isAlloc = true)
    (hinv : FrameInv s) : FrameInv (call_step s c).state := by
  cases c with
  | free i => simp [Call.isAlloc] at hc
  | alloc i k w =>
    simp only [call_step]
    by_cases hi : i < s.npages
    · rw [if_pos hi]
      by_cases hz : (s.pages i).frame = 0
      · rcases first_frame_cases s.frames s.nframes with ⟨h1, _⟩ | ⟨f, h1, h2, h3, _⟩
        · simp only [alloc_frame, hz, h1]
          simpa [Outcome.state] using hinv
        · by_cases hs : f = 0xFFFFFFFF
          · simp only [alloc_frame, hz, h1, hs]
            simpa [Outcome.state] using hinv
          · have hle : 32 * (s.nframes / 32) ≤ s.nframes := Nat.mul_div_le s.nframes 32
            have hadd := hinv.addressable
            have hmod : f * 0x1000 % 2 ^ 32 = f * 0x1000 := Nat.mod_eq_of_lt (by omega)
            simp only [alloc_frame, hz, h1, hmod]
            simp only [ne_eq, not_true_eq_false, if_false, hs, Outcome.state]
            exact frameInv_alloc_new s i f _ _ hinv hi hz (by omega) h3
      · simp only [alloc_frame, ne_eq, hz, not_false_eq_true, if_true, Outcome.state]
        exact frameInv_update_same s i _ hinv rfl rfl
    · rw [if_neg hi]
      exact hinv

/-- A sequence of `alloc_frame` calls keeps the ownership invariant. -/
theorem frameInv_run_calls (calls : List Call) : ∀ s : State, FrameInv s →
    (∀ c ∈ calls, c.isAlloc = true) → FrameInv (run_calls s calls).state := by
  induction calls with
  | nil => intro s hinv _; exact hinv
  | cons c cs ih =>
    intro s hinv hall
    have hstep := frameInv_call_step s c (hall c (List.mem_cons_self _ _)) hinv
    simp only [run_calls]
    cases hc : call_step s c with
    | returned s' =>
      rw [hc] at hstep
      exact ih s' hstep (fun d hd => hall d (List.mem_cons_of_mem _ hd))
    | halted s' =>
      rw [hc] at hstep
      exact hstep

/-- Under the ownership invariant the set bits other than bit 0 are as many as
the pages that own a frame. -/
theorem count_used_eq_count_owning (s : State) (hinv : FrameInv s) :
    count_used s.frames 1 s.nframes = count_owning s := by
  unfold count_used count_owning
  have hd1 : ((List.range' 1 (s.nframes - 1)).filter
      (fun b => frame_used s.frames b)).Nodup :=
    (List.nodup_range' 1 (s.nframes - 1)).filter _
  have hd0 : ((List.range s.npages).filter (fun i => (s.pages i).owns)).Nodup :=
    (List.nodup_range s.npages).filter _
  have hd2 : (((List.range s.npages).filter (fun i => (s.pages i).owns)).map
      (fun i => (s.pages i).frame)).Nodup := by
    apply List.Nodup.map_on _ hd0
    intro x hx y hy hxy
    simp only [List.mem_filter, List.mem_range] at hx hy
    exact hinv.unique x y hx.1 hy.1 hx.2 hy.2 hxy
  have hperm : ((List.range' 1 (s.nframes - 1)).filter (fun b => frame_used s.frames b)).Perm
      (((List.range s.npages).filter (fun i => (s.pages i).owns)).map
        (fun i => (s.pages i).frame)) := by
    rw [List.perm_ext_iff_of_nodup hd1 hd2]
    intro b
    simp only [List.mem_filter, List.mem_range'_1, List.mem_map, List.mem_range]
    constructor
    · rintro ⟨⟨h1, h2⟩, h3⟩
      obtain ⟨i, hi, ho, e⟩ := (hinv.used_iff b h1 (by omega)).1 h3
      exact ⟨i, ⟨hi, ho⟩, e⟩
    · rintro ⟨i, ⟨hi, ho⟩, e⟩
      have hne := ((owns_iff _).1 ho).2
      have hlt := hinv.in_range i hi ho
      refine ⟨⟨by omega, by omega⟩, ?_⟩
      exact (hinv.used_iff b (by omega) (by omega)).2 ⟨i, hi, ho, e⟩
  rw [hperm.length_eq, List.length_map]

/-- The set bits of `three_page_state`. -/
theorem frame_used_three_page_state (b : Nat) :
    frame_used three_page_state.frames b = true ↔ b = 1 ∨ b = 4096 := by
  rw [frame_used_eq]
  have h2 : (2 : Nat) = 2 ^ 1 := by norm_num
  have h1 : (1 : Nat) = 2 ^ 0 := by norm_num
  by_cases e0 : b / 32 = 0
  · simp only [three_page_state, e0, if_true]
    rw [h2, Nat.testBit_two_pow]
    simp only [decide_eq_true_eq]
    omega
  · by_cases e1 : b / 32 = 128
    · simp only [three_page_state, e1]
      simp only [Nat.reduceEqDiff, if_false, if_true]
      rw [h1, Nat.testBit_two_pow]
      simp only [decide_eq_true_eq]
      omega
    · simp only [three_page_state, e0, e1, if_false, Nat.zero_testBit]
      constructor
      · intro h; cases h
      · intro h; omega

/-- The frames of `three_page_state` that have exactly one owner. -/
theorem owners_three_page_state (b : Nat) :
    (owners three_page_state b).length = 1 ↔ b = 1 ∨ b = 4096 := by
  by_cases e1 : b = 1
  · subst e1; simp; decide
  · by_cases e2 : b = 4096
    · subst e2; simp; decide
    · have : owners three_page_state b = [] := by
        simp only [owners, three_page_state, List.filter_eq_nil_iff, List.mem_range]
        intro i hi
        interval_cases i
        · simp [page_t.owns]; omega
        · simp [page_t.owns]; omega
        · simp [page_t.owns, unmapped_page]
      rw [this]
      simp [e1, e2]

/-- The state `reserved_state` satisfies the ownership invariant. -/
theorem frameInv_reserved_state : FrameInv reserved_state := by
  have hown : ∀ i, (reserved_state.pages i).owns = false := fun _ => rfl
  constructor
  · decide
  · intro i _ h; rw [hown] at h; cases h
  · intro b h1 h2
    have hb : frame_used reserved_state.frames b = false := by
      have : ∀ c, c < 64 → 1 ≤ c → frame_used reserved_state.frames c = false := by decide
      exact this b h2 h1
    rw [hb]
    constructor
    · intro h; cases h
    · rintro ⟨i, _, h, _⟩
      rw [hown] at h; cases h
  · intro i j _ _ h; rw [hown] at h; cases h

/-- The set bits of `high_memory_state`. -/
theorem frame_used_high_memory_state (b : Nat) :
    frame_used high_memory_state.frames b = true ↔ 1 ≤ b ∧ b < 1048576 := by
  rw [frame_used_eq]
  have hm : (0xFFFFFFFF : Nat) = 2 ^ 32 - 1 := by norm_num
  have hlt : b % 32 < 32 := Nat.mod_lt _ (by norm_num)
  by_cases e0 : b / 32 = 0
  · simp only [high_memory_state, e0, if_true]
    have hw : ∀ t, t < 32 → (Nat.testBit 0xFFFFFFFE t = true ↔ 1 ≤ t) := by decide
    rw [hw _ hlt]
    omega
  · by_cases e1 : b / 32 < 32768
    · simp only [high_memory_state, e0, e1, if_false, if_true]
      rw [hm, Nat.testBit_two_pow_sub_one]
      simp only [decide_eq_true_eq]
      omega
    · simp only [high_memory_state, e0, e1, if_false, Nat.zero_testBit]
      constructor
      · intro h; cases h
      · intro h; omega

/-- The frames of `high_memory_state` that have exactly one owner. -/
theorem owners_high_memory_state (b : Nat) :
    (owners high_memory_state b).length = 1 ↔ 1 ≤ b ∧ b < 1048576 := by
  by_cases hb : 1 ≤ b ∧ b < 1048576
  · have hcongr : owners high_memory_state b =
        (List.range 1048577).filter (fun i => i == b - 1) := by
      apply List.filter_congr
      intro i _
      by_cases hi : i < 1048575
      · simp only [high_memory_state, hi, if_true, page_t.owns]
        by_cases e : i + 1 = b
        · have : i = b - 1 := by omega
          simp [e, this]
          omega
        · have : ¬ (i = b - 1) := by omega
          simp [e, this]
      · have : ¬ (i = b - 1) := by omega
        simp [high_memory_state, hi, page_t.owns, unmapped_page, this]
    have hcount : ((List.range 1048577).filter (fun i => i == b - 1)).length = 1 := by
      rw [← List.countP_eq_length_filter]
      exact List.count_eq_one_of_mem (List.nodup_range _) (List.mem_range.2 (by omega))
    rw [hcongr, hcount]
    simp [hb]
  · have hnil : owners high_memory_state b = [] := by
      simp only [owners, List.filter_eq_nil_iff, List.mem_range]
      intro i _
      by_cases hi : i < 1048575
      · have : ¬ (i + 1 = b) := by omega
        simp [high_memory_state, hi, this]
      · simp [high_memory_state, hi, page_t.owns, unmapped_page]
    rw [hnil]
    simp [hb]

/-- Marking the frame at address 0 sets bit 0 and no other bit. -/
theorem frame_used_set_frame_zero (frames : Nat → Nat) (b : Nat) :
    frame_used (set_frame frames 0) b = (decide (b = 0) || frame_used frames b) := by
  have := frame_used_set_frame frames 0 b
  simpa using this

/-- The effect of an `alloc_frame` call that finds frame `f` for an unmapped
page. -/
theorem call_step_alloc_unmapped (s : State) (i : Nat) (k w : Int) (f : Nat)
    (hi : i < s.npages) (hz : (s.pages i).frame = 0)
    (hff : first_frame s.frames s.nframes = f) (hne : f ≠ 0xFFFFFFFF) :
    ∃ s', call_step s (Call.alloc i k w) = .returned s' ∧
      s'.frames = set_frame s.frames (f * 0x1000 % 2 ^ 32) ∧
      s'.nframes = s.nframes ∧ s'.npages = s.npages ∧
      (s'.pages i).present = 1 ∧ (s'.pages i).frame = f ∧
      ∀ j, j ≠ i → s'.pages j = s.pages j := by
  refine ⟨{ s with
      frames := set_frame s.frames (f * 0x1000 % 2 ^ 32)
      pages := Function.update s.pages i
        { present := 1
          rw := if w = 1 then 1 else 0
          user := if k = 1 then 0 else 1
          frame := f } }, ?_, rfl, rfl, rfl, by simp, by simp, ?_⟩
  · simp only [call_step, if_pos hi, alloc_frame, hz, hff]
    simp [hne]
  · intro j hj
    simp [Function.update_apply, hj]

/-- A call that returns is followed by the rest of the sequence. -/
theorem run_calls_cons_returned (s s' : State) (c : Call) (cs : List Call)
    (h : call_step s c = .returned s') : run_calls s (c :: cs) = run_calls s' cs := by
  simp only [run_calls, h]

/-- From `high_memory_state` the three calls leave pages `2 ^ 20 - 1` and
`2 ^ 20` both owning frame `2 ^ 20`, whose bit is never set. -/
theorem run_calls_high_memory_state :
    ((run_calls high_memory_state high_memory_calls).state.pages 1048575).owns = true ∧
    ((run_calls high_memory_state high_memory_calls).state.pages 1048576).owns = true ∧
    ((run_calls high_memory_state high_memory_calls).state.pages 1048575).frame = 1048576 ∧
    ((run_calls high_memory_state high_memory_calls).state.pages 1048576).frame = 1048576 := by
  have hu0 := frame_used_high_memory_state
  have hscan : ∀ fr : Nat → Nat, (∀ b, frame_used fr b = true ↔ b < 1048576) →
      first_frame fr 1048608 = 1048576 := by
    intro fr hfr
    apply first_frame_eq_of_lowest_free _ _ 1048576 (by decide)
    · cases h : frame_used fr 1048576
      · rfl
      · have := (hfr 1048576).1 h; omega
    · intro b hb; exact (hfr b).2 hb
  have ff0 : first_frame high_memory_state.frames high_memory_state.nframes = 0 :=
    first_frame_eq_of_lowest_free _ _ 0 (by decide) (by decide) (fun b hb => by omega)
  obtain ⟨s1, e1, hf1, hn1, hm1, _, hz1, ho1⟩ :=
    call_step_alloc_unmapped high_memory_state 1048575 1 1 0 (by decide) rfl ff0 (by decide)
  have hu1 : ∀ b, frame_used s1.frames b = true ↔ b < 1048576 := by
    intro b
    rw [hf1]
    have : 0 * 0x1000 % 2 ^ 32 = 0 := by norm_num
    rw [this, frame_used_set_frame_zero, Bool.or_eq_true, hu0 b, decide_eq_true_eq]
    omega
  have hn1' : s1.nframes = 1048608 := hn1
  have hm1' : s1.npages = 1048577 := hm1
  obtain ⟨s2, e2, hf2, hn2, hm2, hp2, hz2, ho2⟩ :=
    call_step_alloc_unmapped s1 1048575 1 1 1048576 (by omega) hz1
      (by rw [hn1']; exact hscan _ hu1) (by decide)
  have hu2 : ∀ b, frame_used s2.frames b = true ↔ b < 1048576 := by
    intro b
    rw [hf2]
    have : 1048576 * 0x1000 % 2 ^ 32 = 0 := by norm_num
    rw [this, frame_used_set_frame_zero, Bool.or_eq_true, hu1 b, decide_eq_true_eq]
    omega
  have hn2' : s2.nframes = 1048608 := hn2.trans hn1'
  have hm2' : s2.npages = 1048577 := hm2.trans hm1'
  have hq : (s2.pages 1048576).frame = 0 := by
    rw [ho2 1048576 (by decide), ho1 1048576 (by decide)]
    rfl
  obtain ⟨s3, e3, _, _, _, hp3, hz3, ho3⟩ :=
    call_step_alloc_unmapped s2 1048576 1 1 1048576 (by omega) hq
      (by rw [hn2']; exact hscan _ hu2) (by decide)
  have hrun : run_calls high_memory_state high_memory_calls = .returned s3 := by
    unfold high_memory_calls
    rw [run_calls_cons_returned _ _ _ _ e1, run_calls_cons_returned _ _ _ _ e2,
      run_calls_cons_returned _ _ _ _ e3]
    rfl
  have hP : s3.pages 1048575 = s2.pages 1048575 := ho3 1048575 (by decide)
  rw [hrun]
  simp only [Outcome.state, owns_iff, hP, hp2, hz2, hp3, hz3]
  decide

/-- Claim C1, as stated, fails.  Each start state below has a bit set exactly
when its frame has exactly one owner.  First, from an all-clear bitmap and one
unmapped page, a single `alloc_frame` hands out frame 0: one bit is set and no
page has `present && frame != 0`.  Second, where page 0 owns frame 1 and page 1
owns frame 4096, `free_frame` on page 1 clears bit 1, and two `alloc_frame`
calls on the unmapped page 2 then give it frame 1: pages 0 and 2 are both
present and both hold frame 1.  Third, with `2 ^ 20 + 32` frames of which
`1 .. 2 ^ 20 - 1` are owned, frame `2 ^ 20` is handed out without its bit being
set (`index * 0x1000` wraps to 0), and two pages end up owning it. -/
theorem frame_uniqueness_counterexample :
    ((∀ b, frame_used fresh_state.frames b = true ↔ (owners fresh_state b).length = 1) ∧
      count_used (run_calls fresh_state [Call.alloc 0 1 1]).state.frames 0 32 = 1 ∧
      count_owning (run_calls fresh_state [Call.alloc 0 1 1]).state = 0) ∧
    ((∀ b, frame_used three_page_state.frames b = true ↔
        (owners three_page_state b).length = 1) ∧
      ((run_calls three_page_state free_then_allocs).state.pages 0).owns = true ∧
      ((run_calls three_page_state free_then_allocs).state.pages 2).owns = true ∧
      ((run_calls three_page_state free_then_allocs).state.pages 0).frame = 1 ∧
      ((run_calls three_page_state free_then_allocs).state.pages 2).frame = 1) ∧
    ((∀ b, frame_used high_memory_state.frames b = true ↔
        (owners high_memory_state b).length = 1) ∧
      ((run_calls high_memory_state high_memory_calls).state.pages 1048575).owns = true ∧
      ((run_calls high_memory_state high_memory_calls).state.pages 1048576).owns = true ∧
      ((run_calls high_memory_state high_memory_calls).state.pages 1048575).frame = 1048576 ∧
      ((run_calls high_memory_state high_memory_calls).state.pages 1048576).frame =
        1048576) := by
  refine ⟨⟨?_, by decide, by decide⟩, ⟨?_, by decide, by decide, by decide, by decide⟩,
    ⟨?_, run_calls_high_memory_state⟩⟩
  · intro b
    have h1 : frame_used fresh_state.frames b = false := by
      simp [frame_used, fresh_state, clear_bitmap]
    have h2 : owners fresh_state b = [] := by
      simp [owners, fresh_state, unmapped_page, page_t.owns]
    rw [h1, h2]
    simp
  · intro b
    rw [frame_used_three_page_state, owners_three_page_state]
  · intro b
    rw [frame_used_high_memory_state, owners_high_memory_state]

/-- Claim C1, amended: from a state that satisfies the ownership invariant
`FrameInv` (at most `2 ^ 20` frames, every owned frame below `nframes`, every
bit other than bit 0 set exactly when a page owns that frame, no frame owned by
two pages), after every finite sequence of `alloc_frame` calls on any pages,
run to its end or to a halt, no two distinct pages with
`present && frame != 0` hold the same frame index, and the number of set bitmap
bits other than bit 0 equals the number of pages with
`present && frame != 0`. -/
theorem frame_uniqueness_alloc (s : State) (calls : List Call) (hinv : FrameInv s)
    (halloc : ∀ c ∈ calls, c.isAlloc = true) :
    (∀ i j, i < (run_calls s calls).state.npages → j < (run_calls s calls).state.npages →
      i ≠ j → ((run_calls s calls).state.pages i).owns = true →
      ((run_calls s calls).state.pages j).owns = true →
      ((run_calls s calls).state.pages i).frame ≠ ((run_calls s calls).state.pages j).frame) ∧
    count_used (run_calls s calls).state.frames 1 (run_calls s calls).state.nframes =
      count_owning (run_calls s calls).state := by
  have h := frameInv_run_calls calls s hinv halloc
  refine ⟨?_, count_used_eq_count_owning _ h⟩
  intro i j hi hj hij hoi hoj heq
  exact hij (h.unique i j hi hj hoi hoj heq)

/-- Claim C1, amended, at three calls on two pages over a bitmap with frame 0
marked used. -/
theorem frame_uniqueness_alloc_witness :
    FrameInv reserved_state ∧ (∀ c ∈ three_allocs, c.isAlloc = true) ∧
    ((∀ i j, i < (run_calls reserved_state three_allocs).state.npages →
        j < (run_calls reserved_state three_allocs).state.npages → i ≠ j →
        ((run_calls reserved_state three_allocs).state.pages i).owns = true →
        ((run_calls reserved_state three_allocs).state.pages j).owns = true →
        ((run_calls reserved_state three_allocs).state.pages i).frame ≠
          ((run_calls reserved_state three_allocs).state.pages j).frame) ∧
      count_used (run_calls reserved_state three_allocs).state.frames 1
          (run_calls reserved_state three_allocs).state.nframes =
        count_owning (run_calls reserved_state three_allocs).state) :=
  ⟨frameInv_reserved_state, by decide,
    frame_uniqueness_alloc reserved_state three_allocs frameInv_reserved_state (by decide)⟩

/-! ## `free_frame` -/

/-- What `free_frame` does to the bitmap: for a page with frame index `f`, not
0, it clears bit `f / 0x1000` and leaves every other bit, the bit of frame `f`
among them, as it was. -/
theorem free_frame_effect (frames : Nat → Nat) (page : page_t) (hpage : page.frame ≠ 0) :
    (free_frame frames page).2.frame = 0 ∧
    frame_used (free_frame frames page).1 page.frame = frame_used frames page.frame ∧
    ∀ b, frame_used (free_frame frames page).1 b =
      (!decide (b = page.frame / 0x1000) && frame_used frames b) := by
  have hne : ¬ (page.frame = page.frame / 0x1000) := by omega
  simp only [free_frame, if_neg hpage, frame_used_clear_frame]
  refine ⟨trivial, ?_, fun b => trivial⟩
  simp [hne]

/-- Claim C2 fails on the code.  `free_frame` passes the frame index, not the
frame address, to `clear_frame`, which divides it by `0x1000` again.  For a page
that owns frame 5, over a bitmap with frames 0 and 5 marked used, the call
clears the frame field, leaves the bit of frame 5 set
(`test_frame(5 * 0x1000)` is still `0x20`) and clears the bit of frame 0. -/
theorem free_frame_clears_wrong_bit :
    (free_frame frames_0_and_5 { present := 1, rw := 1, user := 0, frame := 5 }).2.frame = 0 ∧
    test_frame (free_frame frames_0_and_5
      { present := 1, rw := 1, user := 0, frame := 5 }).1 (5 * 0x1000) = 0x20 ∧
    test_frame frames_0_and_5 (0 * 0x1000) = 0x1 ∧
    test_frame (free_frame frames_0_and_5
      { present := 1, rw := 1, user := 0, frame := 5 }).1 (0 * 0x1000) = 0 := by
  decide

/-! ## `alloc_frame` on an unmapped page -/

/-- Every frame below `2 ^ 20` is marked used in `low_4GiB_used`. -/
theorem low_4GiB_used_below (b : Nat) (hb : b < 1048576) :
    frame_used low_4GiB_used b = true := by
  rw [frame_used_eq]
  have h1 : b / 32 < 32768 := by omega
  have hm : (0xFFFFFFFF : Nat) = 2 ^ 32 - 1 := by norm_num
  simp only [low_4GiB_used, if_pos h1]
  rw [hm, Nat.testBit_two_pow_sub_one]
  have : b % 32 < 32 := Nat.mod_lt _ (by norm_num)
  simpa using this

/-- Claim C3, as stated, fails for a frame whose address does not fit 32 bits.
With `2 ^ 20 + 32` frames of which the first `2 ^ 20` are used, `first_frame`
finds frame `2 ^ 20`; `index * 0x1000` wraps to 0, so `set_frame` marks frame 0,
and the bit of frame `2 ^ 20`, which the page now holds, stays clear. -/
theorem alloc_frame_high_frame_counterexample :
    unmapped_page.frame = 0 ∧
    first_frame low_4GiB_used 1048608 = 1048576 ∧
    ∃ fr p, alloc_frame low_4GiB_used 1048608 unmapped_page 1 1 = .returned (fr, p) ∧
      p.frame = 1048576 ∧ frame_used fr 1048576 = false := by
  have hff : first_frame low_4GiB_used 1048608 = 1048576 :=
    first_frame_eq_of_lowest_free low_4GiB_used 1048608 1048576 (by decide) (by decide)
      low_4GiB_used_below
  refine ⟨rfl, hff, set_frame low_4GiB_used 0,
    { present := 1, rw := 1, user := 0, frame := 1048576 }, ?_, rfl, by decide⟩
  simp [alloc_frame, unmapped_page, hff]

/-- Claim C3, amended: `alloc_frame` on an unmapped page (`frame == 0`), when
`first_frame` finds a free frame `f` whose address fits 32 bits (`f < 2 ^ 20`),
returns normally; afterwards bit `f` is set and every other bitmap bit is
unchanged, `present == 1`, `frame == f`, `rw == 1` exactly when `is_writeable`
was passed as 1 and `user == 0` exactly when `is_kernel` was passed as 1. -/
theorem alloc_frame_unmapped (frames : Nat → Nat) (nframes : Nat) (page : page_t)
    (is_kernel is_writeable : Int) (f : Nat)
    (hpage : page.frame = 0) (hret : first_frame frames nframes = f)
    (hfound : f ≠ 0xFFFFFFFF) (haddr : f < 2 ^ 20) :
    ∃ fr p, alloc_frame frames nframes page is_kernel is_writeable = .returned (fr, p) ∧
      frame_used fr f = true ∧ (∀ b, b ≠ f → frame_used fr b = frame_used frames b) ∧
      p.present = 1 ∧ p.frame = f ∧
      (p.rw = 1 ↔ is_writeable = 1) ∧ (p.user = 0 ↔ is_kernel = 1) := by
  have hmod : f * 0x1000 % 2 ^ 32 = f * 0x1000 := Nat.mod_eq_of_lt (by omega)
  refine ⟨set_frame frames (f * 0x1000),
    { present := 1
      rw := if is_writeable = 1 then 1 else 0
      user := if is_kernel = 1 then 0 else 1
      frame := f }, ?_, ?_, ?_, rfl, rfl, ?_, ?_⟩
  · simp only [alloc_frame, hpage, hret, hmod]
    simp [hfound]
  · rw [frame_used_set_frame]; simp
  · intro b hb
    rw [frame_used_set_frame]; simp [hb]
  · by_cases h : is_writeable = 1 <;> simp [h]
  · by_cases h : is_kernel = 1 <;> simp [h]

/-- Claim C3, amended, at a bitmap whose lowest free frame is 32, for a
read-only kernel mapping. -/
theorem alloc_frame_unmapped_witness :
    unmapped_page.frame = 0 ∧ first_frame first_word_full 64 = 32 ∧
    (32 : Nat) ≠ 0xFFFFFFFF ∧ (32 : Nat) < 2 ^ 20 ∧
    ∃ fr p, alloc_frame first_word_full 64 unmapped_page 1 0 = .returned (fr, p) ∧
      frame_used fr 32 = true ∧ (∀ b, b ≠ 32 → frame_used fr b = frame_used first_word_full b) ∧
      p.present = 1 ∧ p.frame = 32 ∧
      (p.rw = 1 ↔ (0 : Int) = 1) ∧ (p.user = 0 ↔ (1 : Int) = 1) :=
  ⟨rfl, by decide, by decide, by decide,
    alloc_frame_unmapped first_word_full 64 unmapped_page 1 0 32 rfl (by decide)
      (by decide) (by decide)⟩

/-! ## `alloc_frame` on a mapped page -/

/-- Claim C4: for every page with `frame != 0`, every bitmap and all flags,
`alloc_frame` returns with the bitmap, the frame field and the present bit
unchanged and with `rw` and `user` set from the flags; a second call with the
same flags returns the very same bitmap and page. -/
theorem alloc_frame_idempotent (frames : Nat → Nat) (nframes : Nat) (page : page_t)
    (is_kernel is_writeable : Int) (hpage : page.frame ≠ 0) :
    ∃ p, alloc_frame frames nframes page is_kernel is_writeable = .returned (frames, p) ∧
      p.frame = page.frame ∧ p.present = page.present ∧
      p.rw = (if is_writeable = 1 then 1 else 0) ∧
      p.user = (if is_kernel = 1 then 0 else 1) ∧
      alloc_frame frames nframes p is_kernel is_writeable = .returned (frames, p) := by
  refine ⟨{ page with
      rw := if is_writeable = 1 then 1 else 0
      user := if is_kernel = 1 then 0 else 1 }, ?_, rfl, rfl, rfl, rfl, ?_⟩
  · simp [alloc_frame, hpage]
  · simp [alloc_frame, hpage]

/-- Claim C4 at a page that owns frame 7. -/
theorem alloc_frame_idempotent_witness :
    (7 : Nat) ≠ 0 ∧
    ∃ p, alloc_frame clear_bitmap 64 { present := 1, rw := 0, user := 1, frame := 7 } 1 1 =
        .returned (clear_bitmap, p) ∧
      p.frame = 7 ∧ p.present = 1 ∧
      p.rw = (if (1 : Int) = 1 then 1 else 0) ∧
      p.user = (if (1 : Int) = 1 then 0 else 1) ∧
      alloc_frame clear_bitmap 64 p 1 1 = .returned (clear_bitmap, p) :=
  ⟨by decide, alloc_frame_idempotent clear_bitmap 64
    { present := 1, rw := 0, user := 1, frame := 7 } 1 1 (by decide)⟩

/-! ## `first_frame` -/

/-- Claim C5: whenever `first_frame` returns an index `k` other than the
sentinel `(uint32_t)-1`, bit `k` of the bitmap is clear and every bit `j < k`
is set. -/
theorem first_frame_first_fit (frames : Nat → Nat) (nframes k : Nat)
    (hret : first_frame frames nframes = k) (hk : k ≠ 0xFFFFFFFF) :
    frame_used frames k = false ∧ ∀ j, j < k → frame_used frames j = true := by
  rcases first_frame_cases frames nframes with ⟨h1, _⟩ | ⟨k', h1, _, h3, h4⟩
  · exact absurd (hret.symm.trans h1) hk
  · have e : k' = k := h1.symm.trans hret
    subst e
    exact ⟨h3, h4⟩

/-- Claim C5 at a bitmap of 64 frames whose first word is full. -/
theorem first_frame_first_fit_witness :
    first_frame first_word_full 64 = 32 ∧ (32 : Nat) ≠ 0xFFFFFFFF ∧
      (frame_used first_word_full 32 = false ∧
        ∀ j, j < 32 → frame_used first_word_full j = true) :=
  ⟨by decide, by decide,
    first_frame_first_fit first_word_full 64 32 (by decide) (by decide)⟩

/-- Claim C6, as stated, fails when the free frame lies in the trailing word
of the bitmap: with 33 frames of which only frame 32 is free, the scan covers
`33 / 32 = 1` word and returns the sentinel. -/
theorem first_frame_trailing_word_counterexample :
    (32 : Nat) < 33 ∧
    (∀ b, b < 33 → (frame_used only_frame_32_free b = true ↔ b ≠ 32)) ∧
    first_frame only_frame_32_free 33 = 0xFFFFFFFF := by
  refine ⟨by decide, by decide, by decide⟩

/-- Claim C6, amended: for every `nframes` and every frame index `k` in one of
the `nframes / 32` whole words of the bitmap (`k < 32 * (nframes / 32)`), if
every frame in `0 .. nframes - 1` is marked used except frame `k`, then
`first_frame` returns `k`. -/
theorem first_frame_complete (frames : Nat → Nat) (nframes k : Nat)
    (hk : k < 32 * (nframes / 32))
    (hmap : ∀ b, b < nframes → (frame_used frames b = true ↔ b ≠ k)) :
    first_frame frames nframes = k := by
  have hle : 32 * (nframes / 32) ≤ nframes := Nat.mul_div_le nframes 32
  apply first_frame_eq_of_lowest_free frames nframes k hk
  · cases h : frame_used frames k
    · rfl
    · exact absurd rfl ((hmap k (by omega)).1 h)
  · intro b hb
    exact (hmap b (by omega)).2 (by omega)

/-- Claim C6, amended, at 64 frames of which only frame 32 is free. -/
theorem first_frame_complete_witness :
    (32 : Nat) < 32 * (64 / 32) ∧
    (∀ b, b < 64 → (frame_used only_frame_32_free b = true ↔ b ≠ 32)) ∧
    first_frame only_frame_32_free 64 = 32 :=
  ⟨by decide, by decide, first_frame_complete only_frame_32_free 64 32 (by decide) (by decide)⟩

/-! ## Out of frames -/

/-- Claim C7: for every bitmap in which all frames `0 .. nframes - 1` are
marked used, `first_frame` returns the sentinel `(uint32_t)-1`, and
`alloc_frame` on an unmapped page halts with the bitmap and the page exactly as
they were. -/
theorem alloc_frame_out_of_frames (frames : Nat → Nat) (nframes : Nat) (page : page_t)
    (is_kernel is_writeable : Int)
    (hfull : ∀ b, b < nframes → frame_used frames b = true) (hpage : page.frame = 0) :
    first_frame frames nframes = 0xFFFFFFFF ∧
      alloc_frame frames nframes page is_kernel is_writeable = .halted (frames, page) := by
  have h := first_frame_full frames nframes hfull
  refine ⟨h, ?_⟩
  simp [alloc_frame, hpage, h]

/-- Claim C7 at a full bitmap of 64 frames. -/
theorem alloc_frame_out_of_frames_witness :
    (∀ b, b < 64 → frame_used full_bitmap b = true) ∧ unmapped_page.frame = 0 ∧
    (first_frame full_bitmap 64 = 0xFFFFFFFF ∧
      alloc_frame full_bitmap 64 unmapped_page 1 1 = .halted (full_bitmap, unmapped_page)) :=
  ⟨by decide, rfl, alloc_frame_out_of_frames full_bitmap 64 unmapped_page 1 1 (by decide) rfl⟩

/-! ## The placement allocator before the heap is installed -/

/-- An unaligned call before the heap is installed returns the cursor and
advances it by `size`. -/
theorem kmalloc_real_unaligned (ext : HeapExt) (c size : Nat) (p : Bool) :
    kmalloc_real ext { placement_pointer := c, heap_end := 0 } size 0 p =
      { address := c, phys := if p then some c else none,
        st := { placement_pointer := (c + size) % 2 ^ 32, heap_end := 0 } } := by
  simp [kmalloc_real]

/-- Unaligned requests of nonzero size that fit below `2 ^ 32` are served from
the cursor upwards, each region ending where the next begins or before. -/
theorem kmalloc_seq_bounds (ext : HeapExt) (reqs : List Request) : ∀ c : Nat,
    (∀ r ∈ reqs, r.align = 0) → (∀ r ∈ reqs, 0 < r.size) →
    c + (reqs.map (fun r => r.size)).sum ≤ 2 ^ 32 →
    (∀ x ∈ kmalloc_seq ext { placement_pointer := c, heap_end := 0 } reqs,
        c ≤ x.1 ∧ x.1 + x.2 ≤ c + (reqs.map (fun r => r.size)).sum) ∧
    (kmalloc_seq ext { placement_pointer := c, heap_end := 0 } reqs).Pairwise
      (fun x y => x.1 < y.1 ∧ x.1 + x.2 ≤ y.1) := by
  induction reqs with
  | nil => intro c _ _ _; simp [kmalloc_seq]
  | cons r rs ih =>
    intro c halign hsize hfit
    have ha : r.align = 0 := halign r (List.mem_cons_self _ _)
    have hs : 0 < r.size := hsize r (List.mem_cons_self _ _)
    simp only [List.map_cons, List.sum_cons] at hfit ⊢
    simp only [kmalloc_seq, ha, kmalloc_real_unaligned]
    cases rs with
    | nil =>
      simp [kmalloc_seq]
    | cons r2 rs2 =>
      have hs2 : 0 < r2.size := hsize r2 (List.mem_cons_of_mem _ (List.mem_cons_self _ _))
      have hsum : r2.size ≤ ((r2 :: rs2).map (fun r => r.size)).sum := by
        simp only [List.map_cons, List.sum_cons]; omega
      have hlt : c + r.size < 2 ^ 32 := by omega
      rw [Nat.mod_eq_of_lt hlt]
      obtain ⟨hb, hp⟩ := ih (c + r.size)
        (fun q hq => halign q (List.mem_cons_of_mem _ hq))
        (fun q hq => hsize q (List.mem_cons_of_mem _ hq)) (by omega)
      refine ⟨?_, ?_⟩
      · intro x hx
        rcases List.mem_cons.1 hx with e | hx
        · subst e; simp only; omega
        · have := hb x hx; omega
      · rw [List.pairwise_cons]
        refine ⟨?_, hp⟩
        intro y hy
        have := hb y hy
        simp only; omega

/-- Claim C9, as stated, fails in three ways, each shown on two calls before
the heap is installed: two requests of size 0 return the same address; a
request that carries the cursor past `2 ^ 32` is followed by a lower address;
an aligned request at the unaligned cursor `0x1008` is served at `0x1000`, the
address just handed out. -/
theorem kmalloc_seq_counterexample :
    (kmalloc_seq no_heap { placement_pointer := 0x1000, heap_end := 0 }
        [{ size := 0, align := 0, want_phys := false },
         { size := 0, align := 0, want_phys := false }] = [(0x1000, 0), (0x1000, 0)] ∧
      ¬ (kmalloc_seq no_heap { placement_pointer := 0x1000, heap_end := 0 }
        [{ size := 0, align := 0, want_phys := false },
         { size := 0, align := 0, want_phys := false }]).Pairwise
          (fun x y => x.1 < y.1 ∧ x.1 + x.2 ≤ y.1)) ∧
    (kmalloc_seq no_heap { placement_pointer := 0xFFFFFFF0, heap_end := 0 }
        [{ size := 0x20, align := 0, want_phys := false },
         { size := 0x20, align := 0, want_phys := false }] =
        [(0xFFFFFFF0, 0x20), (0x10, 0x20)] ∧
      ¬ (kmalloc_seq no_heap { placement_pointer := 0xFFFFFFF0, heap_end := 0 }
        [{ size := 0x20, align := 0, want_phys := false },
         { size := 0x20, align := 0, want_phys := false }]).Pairwise
          (fun x y => x.1 < y.1 ∧ x.1 + x.2 ≤ y.1)) ∧
    (kmalloc_seq no_heap { placement_pointer := 0x1000, heap_end := 0 }
        [{ size := 8, align := 0, want_phys := false },
         { size := 8, align := 1, want_phys := false }] = [(0x1000, 8), (0x1000, 8)] ∧
      ¬ (kmalloc_seq no_heap { placement_pointer := 0x1000, heap_end := 0 }
        [{ size := 8, align := 0, want_phys := false },
         { size := 8, align := 1, want_phys := false }]).Pairwise
          (fun x y => x.1 < y.1 ∧ x.1 + x.2 ≤ y.1)) := by
  refine ⟨⟨by decide, ?_⟩, ⟨by decide, ?_⟩, ⟨by decide, ?_⟩⟩
  · have e : kmalloc_seq no_heap { placement_pointer := 0x1000, heap_end := 0 }
        [{ size := 0, align := 0, want_phys := false },
         { size := 0, align := 0, want_phys := false }] = [(0x1000, 0), (0x1000, 0)] := by
      decide
    rw [e]
    simp
  · have e : kmalloc_seq no_heap { placement_pointer := 0xFFFFFFF0, heap_end := 0 }
        [{ size := 0x20, align := 0, want_phys := false },
         { size := 0x20, align := 0, want_phys := false }] =
        [(0xFFFFFFF0, 0x20), (0x10, 0x20)] := by
      decide
    rw [e]
    simp
  · have e : kmalloc_seq no_heap { placement_pointer := 0x1000, heap_end := 0 }
        [{ size := 8, align := 0, want_phys := false },
         { size := 8, align := 1, want_phys := false }] = [(0x1000, 8), (0x1000, 8)] := by
      decide
    rw [e]
    simp

/-- Claim C9, amended: before the heap is installed, for every start cursor
`c` and every sequence of unaligned `kmalloc_real` calls with nonzero sizes
that add up to at most `2 ^ 32 - c`, the returned addresses are strictly
increasing and every returned region ends at or before the start of every
later one. -/
theorem kmalloc_seq_increasing (ext : HeapExt) (c : Nat) (reqs : List Request)
    (halign : ∀ r ∈ reqs, r.align = 0) (hsize : ∀ r ∈ reqs, 0 < r.size)
    (hfit : c + (reqs.map (fun r => r.size)).sum ≤ 2 ^ 32) :
    (kmalloc_seq ext { placement_pointer := c, heap_end := 0 } reqs).Pairwise
      (fun x y => x.1 < y.1 ∧ x.1 + x.2 ≤ y.1) :=
  (kmalloc_seq_bounds ext reqs c halign hsize hfit).2

/-- Claim C9, amended, at three requests from the cursor `0x100000`. -/
theorem kmalloc_seq_increasing_witness :
    (∀ r ∈ boot_requests, r.align = 0) ∧ (∀ r ∈ boot_requests, 0 < r.size) ∧
    0x100000 + (boot_requests.map (fun r => r.size)).sum ≤ 2 ^ 32 ∧
    (kmalloc_seq no_heap { placement_pointer := 0x100000, heap_end := 0 }
      boot_requests).Pairwise (fun x y => x.1 < y.1 ∧ x.1 + x.2 ≤ y.1) :=
  ⟨by decide, by decide, by decide,
    kmalloc_seq_increasing no_heap 0x100000 boot_requests (by decide) (by decide) (by decide)⟩

/-- An aligned call before the heap is installed never returns an address
above the cursor. -/
theorem kmalloc_real_aligned_le (ext : HeapExt) (c size : Nat) (p : Bool) :
    (kmalloc_real ext { placement_pointer := c, heap_end := 0 } size 1 p).address ≤ c := by
  simp only [kmalloc_real]
  by_cases h : c &&& 0xFFFFF000 ≠ 0
  · simp [h]
    exact Nat.and_le_left
  · simp [h]

/-- Claim C10 fails on the code.  An aligned request rounds the cursor down,
not up: from the cursor `0x1001` the call `kmalloc_real(16, 1, phys)` returns
`0x1000`, below the cursor, stores `0x1000` through `phys` and leaves the
cursor at `0x1010`. -/
theorem kmalloc_real_aligned_rounds_down (ext : HeapExt) :
    kmalloc_real ext { placement_pointer := 0x1001, heap_end := 0 } 16 1 true =
      { address := 0x1000, phys := some 0x1000,
        st := { placement_pointer := 0x1010, heap_end := 0 } } := by
  simp [kmalloc_real]
  decide

/-! ## Addresses and frame boundaries -/

/-- Masking with `0xFFFFF000` keeps the bits 12 to 31. -/
theorem and_frame_mask (x : Nat) : x &&& 0xFFFFF000 = x / 0x1000 % 2 ^ 20 * 0x1000 := by
  apply Nat.eq_of_testBit_eq
  intro i
  have hm : (0xFFFFF000 : Nat) = 2 ^ 12 * (2 ^ 20 - 1) := by norm_num
  have hp : (0x1000 : Nat) = 2 ^ 12 := by norm_num
  rw [Nat.testBit_and, hm, Nat.testBit_mul_pow_two, Nat.testBit_two_pow_sub_one, hp,
    Nat.mul_comm, Nat.testBit_mul_pow_two, Nat.testBit_mod_two_pow, ← Nat.shiftRight_eq_div_pow,
    Nat.testBit_shiftRight]
  by_cases h : i ≥ 12
  · have e : 12 + (i - 12) = i := by omega
    simp [h, e, Bool.and_comm]
  · simp [h]

/-- A masked address is frame-aligned. -/
theorem and_frame_mask_mod (x : Nat) : (x &&& 0xFFFFF000) % 0x1000 = 0 := by
  rw [and_frame_mask]; omega

/-- Masking a 32-bit address rounds it down to a frame boundary. -/
theorem and_frame_mask_of_lt (x : Nat) (hx : x < 2 ^ 32) :
    x &&& 0xFFFFF000 = x / 0x1000 * 0x1000 := by
  rw [and_frame_mask]
  have : x / 0x1000 < 2 ^ 20 := by omega
  rw [Nat.mod_eq_of_lt this]

/-- A masked address is a 32-bit value. -/
theorem and_frame_mask_lt (x : Nat) : x &&& 0xFFFFF000 < 2 ^ 32 := by
  rw [and_frame_mask]
  have : x / 0x1000 % 2 ^ 20 < 2 ^ 20 := Nat.mod_lt _ (by norm_num)
  omega

/-! ## Page lookup -/

/-- A lookup whose table is present returns its page and changes nothing. -/
theorem get_page_present (ext : HeapExt) (K : Kernel) (address : Nat) (make : Int)
    (h : K.dir.tables (address / 0x1000 / 1024) ≠ 0) :
    get_page ext K address make =
      (K, some (K.dir.tables (address / 0x1000 / 1024), address / 0x1000 % 1024)) := by
  simp [get_page, h]

/-- A creating lookup whose table is absent places a cleared table with
`kvmalloc_p` and records it in both arrays of the directory. -/
theorem get_page_make (ext : HeapExt) (K : Kernel) (address : Nat)
    (hempty : K.dir.tables (address / 0x1000 / 1024) = 0) :
    get_page ext K address 1 =
      ({ K with
          cur := (kvmalloc_p ext K.cur sizeof_page_table_t).st
          dir := { K.dir with
            tables := Function.update K.dir.tables (address / 0x1000 / 1024)
              (kvmalloc_p ext K.cur sizeof_page_table_t).address
            physical_tables := Function.update K.dir.physical_tables (address / 0x1000 / 1024)
              ((kvmalloc_p ext K.cur sizeof_page_table_t).phys.getD 0 ||| 0x7) }
          tmem := Function.update K.tmem (kvmalloc_p ext K.cur sizeof_page_table_t).address
            (fun _ => unmapped_page) },
        some ((kvmalloc_p ext K.cur sizeof_page_table_t).address, address / 0x1000 % 1024)) := by
  simp [get_page, hempty]

/-- Where `kvmalloc_p` cannot return address 0. -/
theorem kvmalloc_p_address_ne_zero (ext : HeapExt) (st : Cursor) (size : Nat)
    (h : (st.heap_end = 0 ∧ st.placement_pointer ≠ 0) ∨
      (st.heap_end ≠ 0 ∧ ext.valloc size ≠ 0)) :
    (kvmalloc_p ext st size).address ≠ 0 := by
  rcases h with ⟨h1, h2⟩ | ⟨h1, h2⟩
  · by_cases hm : st.placement_pointer &&& 0xFFFFF000 = 0
    · simp [kvmalloc_p, kmalloc_real, h1, hm, h2]
    · simp [kvmalloc_p, kmalloc_real, h1, hm]
  · simp [kvmalloc_p, kmalloc_real, h1, h2]

/-! ## `sbrk` and `heap_install` -/

/-- No call of `kmalloc_real` changes `heap_end`. -/
theorem kmalloc_real_heap_end (ext : HeapExt) (st : Cursor) (size : Nat) (align : Int)
    (p : Bool) : (kmalloc_real ext st size align p).st.heap_end = st.heap_end := by
  unfold kmalloc_real
  split <;> rfl

/-- No call of `get_page` changes `heap_end`. -/
theorem get_page_heap_end (ext : HeapExt) (K : Kernel) (address : Nat) (make : Int) :
    (get_page ext K address make).1.cur.heap_end = K.cur.heap_end := by
  unfold get_page
  simp only
  split
  · rfl
  · split
    · exact kmalloc_real_heap_end ext K.cur _ 1 true
    · rfl

/-- No call of `alloc_frame` changes the allocator globals. -/
theorem alloc_frame_at_cur (K : Kernel) (slot : Nat × Nat) (k w : Int) :
    (alloc_frame_at K slot k w).state.cur = K.cur := by
  unfold alloc_frame_at
  split <;> rfl

/-- The loop of `sbrk` ends, by a return or by the out-of-frames halt, and
leaves `heap_end` alone, when at most `n` frame steps separate `i` from
`heap_end` and the fuel exceeds `n`. -/
theorem sbrk_loop_total (ext : HeapExt) : ∀ (n fuel : Nat) (K : Kernel) (i : Nat),
    K.cur.heap_end % 0x1000 = 0 → K.cur.heap_end < 2 ^ 32 → i % 0x1000 = 0 →
    K.cur.heap_end ≤ i + n * 0x1000 → n < fuel →
    ∃ r, sbrk_loop ext fuel K i = some r ∧ r.state.cur.heap_end = K.cur.heap_end := by
  intro n
  induction n with
  | zero =>
    intro fuel K i _ _ _ hle hf
    obtain ⟨f, rfl⟩ : ∃ f, fuel = f + 1 := ⟨fuel - 1, by omega⟩
    refine ⟨.returned K, ?_, rfl⟩
    have : ¬ i < K.cur.heap_end := by omega
    simp [sbrk_loop, this]
  | succ n ih =>
    intro fuel K i hH hlt hi hle hf
    obtain ⟨f, rfl⟩ : ∃ f, fuel = f + 1 := ⟨fuel - 1, by omega⟩
    by_cases hc : i < K.cur.heap_end
    · simp only [sbrk_loop, if_pos hc]
      have hcur := alloc_frame_at_cur
        (get_page ext (get_page ext K i 1).1 i 1).1
        (deref (get_page ext (get_page ext K i 1).1 i 1).2) 0 1
      have hhe : (get_page ext (get_page ext K i 1).1 i 1).1.cur.heap_end = K.cur.heap_end := by
        rw [get_page_heap_end, get_page_heap_end]
      cases hr : alloc_frame_at (get_page ext (get_page ext K i 1).1 i 1).1
          (deref (get_page ext (get_page ext K i 1).1 i 1).2) 0 1 with
      | returned K2 =>
        rw [hr] at hcur
        have h2 : K2.cur.heap_end = K.cur.heap_end := by
          have : K2.cur = (get_page ext (get_page ext K i 1).1 i 1).1.cur := hcur
          rw [this, hhe]
        have hnw : (i + 0x1000) % 2 ^ 32 = i + 0x1000 := Nat.mod_eq_of_lt (by omega)
        simp only [hnw]
        obtain ⟨r, e, he⟩ := ih f K2 (i + 0x1000) (by rw [h2]; exact hH) (by rw [h2]; exact hlt)
          (by omega) (by rw [h2]; omega) (by omega)
        exact ⟨r, e, by rw [he, h2]⟩
      | halted K2 =>
        rw [hr] at hcur
        refine ⟨.halted K2, rfl, ?_⟩
        have : K2.cur = (get_page ext (get_page ext K i 1).1 i 1).1.cur := hcur
        show K2.cur.heap_end = _
        rw [this, hhe]
    · refine ⟨.returned K, ?_, rfl⟩
      simp [sbrk_loop, hc]

/-- With both assertions true `sbrk` ends by returning the old `heap_end` or by
the out-of-frames halt, and `heap_end` has advanced by the increment in 32
bits. -/
theorem sbrk_aligned (ext : HeapExt) (K : Kernel) (increment : Nat)
    (hinc : increment % 0x1000 = 0) (hend : K.cur.heap_end % 0x1000 = 0) :
    ∃ res, sbrk ext K increment = some res ∧
      ((∃ K2, res = .returned K.cur.heap_end K2) ∨ (∃ K2, res = .out_of_frames K2)) ∧
      res.kernel.cur.heap_end = (K.cur.heap_end + increment) % 2 ^ 32 := by
  have hlt : (K.cur.heap_end + increment) % 2 ^ 32 < 2 ^ 32 := Nat.mod_lt _ (by norm_num)
  have hal : (K.cur.heap_end + increment) % 2 ^ 32 % 0x1000 = 0 := by omega
  obtain ⟨r, e, he⟩ := sbrk_loop_total ext 0x100000 loop_fuel
    { K with cur := { K.cur with heap_end := (K.cur.heap_end + increment) % 2 ^ 32 } }
    K.cur.heap_end hal hlt hend
    (by show (K.cur.heap_end + increment) % 2 ^ 32 ≤ _; omega) (by decide)
  simp only [sbrk, hinc, hend, ne_eq, not_true_eq_false, if_false, e]
  cases r with
  | returned K2 => exact ⟨_, rfl, Or.inl ⟨K2, rfl⟩, he⟩
  | halted K2 => exact ⟨_, rfl, Or.inr ⟨K2, rfl⟩, he⟩

/-- The call `sbrk(0)` returns `heap_end` and changes nothing. -/
theorem sbrk_zero (ext : HeapExt) (K : Kernel) (hend : K.cur.heap_end % 0x1000 = 0)
    (hlt : K.cur.heap_end < 2 ^ 32) :
    sbrk ext K 0 = some (.returned K.cur.heap_end K) := by
  have hm : (K.cur.heap_end + 0) % 2 ^ 32 = K.cur.heap_end := by
    rw [Nat.add_zero, Nat.mod_eq_of_lt hlt]
  simp only [sbrk, hend, hm]
  simp [sbrk_loop, loop_fuel]

/-- The call `heap_install()` leaves `heap_end` frame-aligned. -/
theorem heap_install_aligned (K : Kernel) : (heap_install K).cur.heap_end % 0x1000 = 0 := by
  simp only [heap_install]
  exact and_frame_mask_mod _

/-- In a sequence of `sbrk` calls with aligned increments from an aligned
`heap_end`, every call ends by a return or by the out-of-frames halt and leaves
`heap_end` aligned. -/
theorem sbrk_seq_aligned (ext : HeapExt) (incs : List Nat) : ∀ K : Kernel,
    K.cur.heap_end % 0x1000 = 0 → (∀ inc ∈ incs, inc % 0x1000 = 0) →
    ∀ r ∈ sbrk_seq ext K incs, ∃ res, r = some res ∧
      ((∃ a K2, res = .returned a K2) ∨ (∃ K2, res = .out_of_frames K2)) ∧
      res.kernel.cur.heap_end % 0x1000 = 0 := by
  induction incs with
  | nil => intro K _ _ r hr; simp [sbrk_seq] at hr
  | cons inc rest ih =>
    intro K hend hal r hr
    have hinc := hal inc (List.mem_cons_self _ _)
    obtain ⟨res, e, hres, hhe⟩ := sbrk_aligned ext K inc hinc hend
    have hal2 : res.kernel.cur.heap_end % 0x1000 = 0 := by rw [hhe]; omega
    rcases hres with ⟨K2, rfl⟩ | ⟨K2, rfl⟩
    · simp only [sbrk_seq, e, List.mem_cons] at hr
      rcases hr with rfl | hr
      · exact ⟨_, rfl, Or.inl ⟨_, K2, rfl⟩, hal2⟩
      · exact ih K2 hal2 (fun x hx => hal x (List.mem_cons_of_mem _ hx)) r hr
    · simp only [sbrk_seq, e, List.mem_singleton] at hr
      subst hr
      exact ⟨_, rfl, Or.inr ⟨K2, rfl⟩, hal2⟩

/-! ## Negative and repeated lookups -/

/-- Claim C11: for every directory and address whose table slot
`(address / 4096) / 1024` is empty, `get_page(address, 0, dir)` returns the null
pointer and leaves the directory, the cursor and the frame bitmap, the whole
state, unchanged. -/
theorem get_page_negative_lookup (ext : HeapExt) (K : Kernel) (address : Nat)
    (hempty : K.dir.tables (address / 0x1000 / 1024) = 0) :
    get_page ext K address 0 = (K, none) := by
  simp [get_page, hempty]

/-- Claim C11 at a cleared directory and the address `0x5000`. -/
theorem get_page_negative_lookup_witness :
    zero_kernel.dir.tables (0x5000 / 0x1000 / 1024) = 0 ∧
    get_page no_heap zero_kernel 0x5000 0 = (zero_kernel, none) :=
  ⟨rfl, get_page_negative_lookup no_heap zero_kernel 0x5000 rfl⟩

/-- Claim C12, as stated, fails when the table is placed at address 0: from a
cleared directory with the cursor at 0 the first creating lookup of address 0
places the table at 0, which reads as an absent table, so the second lookup
places another table, at `0x1000`, returns a different page and moves the
cursor again. -/
theorem get_page_twice_counterexample :
    zero_kernel.dir.tables (0 / 0x1000 / 1024) = 0 ∧
    (get_page no_heap zero_kernel 0 1).2 = some (0, 0) ∧
    (get_page no_heap zero_kernel 0 1).1.cur.placement_pointer = 0x1000 ∧
    (get_page no_heap (get_page no_heap zero_kernel 0 1).1 0 1).2 = some (0x1000, 0) ∧
    (get_page no_heap (get_page no_heap zero_kernel 0 1).1 0 1).1.cur.placement_pointer =
      0x2000 := by
  decide

/-- Claim C12, amended: for every directory and address whose table is present
or would be placed at a nonzero address (before the heap is installed: the
cursor is not 0; afterwards: `valloc` does not return 0), two calls of
`get_page(address, 1, dir)` return the same page, entry
`(address / 4096) % 1024` of table `(address / 4096) / 1024`, and the second
call leaves the whole state, cursor and directory included, as the first call
left it. -/
theorem get_page_twice (ext : HeapExt) (K : Kernel) (address : Nat)
    (h : K.dir.tables (address / 0x1000 / 1024) ≠ 0 ∨
      (K.cur.heap_end = 0 ∧ K.cur.placement_pointer ≠ 0) ∨
      (K.cur.heap_end ≠ 0 ∧ ext.valloc sizeof_page_table_t ≠ 0)) :
    (get_page ext K address 1).2 =
      some ((get_page ext K address 1).1.dir.tables (address / 0x1000 / 1024),
        address / 0x1000 % 1024) ∧
    get_page ext (get_page ext K address 1).1 address 1 =
      ((get_page ext K address 1).1, (get_page ext K address 1).2) := by
  by_cases hp : K.dir.tables (address / 0x1000 / 1024) = 0
  · have ha : (kvmalloc_p ext K.cur sizeof_page_table_t).address ≠ 0 := by
      apply kvmalloc_p_address_ne_zero
      rcases h with h | h
      · exact absurd hp h
      · exact h
    have h1 := get_page_make ext K address hp
    rw [h1]
    refine ⟨by simp, ?_⟩
    rw [get_page_present]
    · simp
    · simpa using ha
  · rw [get_page_present ext K address 1 hp]
    exact ⟨rfl, get_page_present ext K address 1 hp⟩


/-- Claim C12, amended, at a cleared directory with the cursor at `0x100000`. -/
theorem get_page_twice_witness :
    ((kernel_at 0x100000).dir.tables (0x5000 / 0x1000 / 1024) ≠ 0 ∨
      ((kernel_at 0x100000).cur.heap_end = 0 ∧ (kernel_at 0x100000).cur.placement_pointer ≠ 0) ∨
      ((kernel_at 0x100000).cur.heap_end ≠ 0 ∧ no_heap.valloc sizeof_page_table_t ≠ 0)) ∧
    ((get_page no_heap (kernel_at 0x100000) 0x5000 1).2 =
      some ((get_page no_heap (kernel_at 0x100000) 0x5000 1).1.dir.tables (0x5000 / 0x1000 / 1024),
        0x5000 / 0x1000 % 1024) ∧
    get_page no_heap (get_page no_heap (kernel_at 0x100000) 0x5000 1).1 0x5000 1 =
      ((get_page no_heap (kernel_at 0x100000) 0x5000 1).1,
        (get_page no_heap (kernel_at 0x100000) 0x5000 1).2)) :=
  ⟨Or.inr (Or.inl ⟨rfl, by decide⟩),
    get_page_twice no_heap (kernel_at 0x100000) 0x5000 (Or.inr (Or.inl ⟨rfl, by decide⟩))⟩

/-! ## Heap growth: addresses -/

/-- Claim C15, as stated, fails when the sum leaves 32 bits: with `heap_end` at
`0xFFFFF000` the call `sbrk(0x2000)` returns and leaves `heap_end` at `0x1000`. -/
theorem sbrk_wraps_counterexample :
    0xFFFFF000 % 0x1000 = 0 ∧ 0x2000 % 0x1000 = 0 ∧
    sbrk no_heap (kernel_with_heap_end 0xFFFFF000) 0x2000 =
      some (.returned 0xFFFFF000 (kernel_with_heap_end 0x1000)) ∧
    (kernel_with_heap_end 0x1000).cur.heap_end <
      (kernel_with_heap_end 0xFFFFF000).cur.heap_end := by
  refine ⟨by decide, by decide, ?_, by decide⟩
  simp [sbrk, kernel_with_heap_end, sbrk_loop, zero_kernel, loop_fuel]

/-- Claim C15, amended: for every frame-aligned `heap_end` and frame-aligned
increment whose sum stays below `2 ^ 32`, `sbrk(increment)` ends, by a return
or by the out-of-frames halt, with `heap_end` greater than or equal to what it
was before the call. -/
theorem sbrk_never_shrinks (ext : HeapExt) (K : Kernel) (increment : Nat)
    (hinc : increment % 0x1000 = 0) (hend : K.cur.heap_end % 0x1000 = 0)
    (hfit : K.cur.heap_end + increment < 2 ^ 32) :
    ∃ res, sbrk ext K increment = some res ∧ K.cur.heap_end ≤ res.kernel.cur.heap_end := by
  obtain ⟨res, e, _, he⟩ := sbrk_aligned ext K increment hinc hend
  refine ⟨res, e, ?_⟩
  rw [he, Nat.mod_eq_of_lt hfit]
  omega

/-- Claim C15, amended, at `heap_end = 0x5000` and the increment `0x2000`. -/
theorem sbrk_never_shrinks_witness :
    0x2000 % 0x1000 = 0 ∧ (kernel_with_heap_end 0x5000).cur.heap_end % 0x1000 = 0 ∧
    (kernel_with_heap_end 0x5000).cur.heap_end + 0x2000 < 2 ^ 32 ∧
    ∃ res, sbrk no_heap (kernel_with_heap_end 0x5000) 0x2000 = some res ∧
      (kernel_with_heap_end 0x5000).cur.heap_end ≤ res.kernel.cur.heap_end :=
  ⟨by decide, by decide, by decide,
    sbrk_never_shrinks no_heap (kernel_with_heap_end 0x5000) 0x2000 (by decide) (by decide)
      (by decide)⟩

/-- Claim C16, as stated, fails when no frame is free: with every frame used
and the page at `heap_end` unmapped, `sbrk(0x1000)` ends in the out-of-frames
halt and returns nothing. -/
theorem sbrk_out_of_frames_counterexample :
    0x1000 % 0x1000 = 0 ∧ full_heap_kernel.cur.heap_end % 0x1000 = 0 ∧
    (sbrk no_heap full_heap_kernel 0x1000).map SbrkResult.returns = some false := by
  decide

/-- Claim C16, amended: for every frame-aligned `heap_end` `h` and frame-aligned
increment, `sbrk(increment)` ends either by returning `h` or by the
out-of-frames halt, and in both cases leaves `heap_end == h + increment`, a
32-bit sum; `sbrk(0)` returns `h` and leaves the whole state unchanged, so any
number of `sbrk(0)` calls in a row all return `h`. -/
theorem sbrk_returns_heap_end (ext : HeapExt) (K : Kernel) (increment : Nat)
    (hinc : increment % 0x1000 = 0) (hend : K.cur.heap_end % 0x1000 = 0)
    (hlt : K.cur.heap_end < 2 ^ 32) :
    (∃ res, sbrk ext K increment = some res ∧
      ((∃ K2, res = .returned K.cur.heap_end K2) ∨ (∃ K2, res = .out_of_frames K2)) ∧
      res.kernel.cur.heap_end = (K.cur.heap_end + increment) % 2 ^ 32) ∧
    sbrk ext K 0 = some (.returned K.cur.heap_end K) ∧
    ∀ n, sbrk_seq ext K (List.replicate n 0) =
      List.replicate n (some (.returned K.cur.heap_end K)) := by
  have hz := sbrk_zero ext K hend hlt
  refine ⟨sbrk_aligned ext K increment hinc hend, hz, ?_⟩
  intro n
  induction n with
  | zero => rfl
  | succ n ih => simp only [List.replicate_succ, sbrk_seq, hz, ih]

/-- Claim C16, amended, at `heap_end = 0x5000` and the increment `0x2000`. -/
theorem sbrk_returns_heap_end_witness :
    0x2000 % 0x1000 = 0 ∧ (kernel_with_heap_end 0x5000).cur.heap_end % 0x1000 = 0 ∧
    (kernel_with_heap_end 0x5000).cur.heap_end < 2 ^ 32 ∧
    ((∃ res, sbrk no_heap (kernel_with_heap_end 0x5000) 0x2000 = some res ∧
      ((∃ K2, res = .returned (kernel_with_heap_end 0x5000).cur.heap_end K2) ∨
        (∃ K2, res = .out_of_frames K2)) ∧
      res.kernel.cur.heap_end = ((kernel_with_heap_end 0x5000).cur.heap_end + 0x2000) % 2 ^ 32) ∧
    sbrk no_heap (kernel_with_heap_end 0x5000) 0 =
      some (.returned (kernel_with_heap_end 0x5000).cur.heap_end (kernel_with_heap_end 0x5000)) ∧
    ∀ n, sbrk_seq no_heap (kernel_with_heap_end 0x5000) (List.replicate n 0) =
      List.replicate n (some (.returned (kernel_with_heap_end 0x5000).cur.heap_end
        (kernel_with_heap_end 0x5000)))) :=
  ⟨by decide, by decide, by decide,
    sbrk_returns_heap_end no_heap (kernel_with_heap_end 0x5000) 0x2000 (by decide) (by decide)
      (by decide)⟩

/-- Claim C17 fails on the code.  For 16 MiB of memory (`memsize = 16384`,
4096 frames) `paging_install` asks `kmalloc` for `INDEX_FROM_BIT(nframes)` = 128
bytes, the number of 32-bit words of the bitmap used as a byte count: 1024 bits
for 4096 frames, the cursor moving by 128. -/
theorem bitmap_bytes_quarter :
    bitmap_bytes 16384 = 128 ∧ 16384 / 4 = 4096 ∧ bitmap_bytes 16384 * 8 < 16384 / 4 ∧
    (paging_install_setup no_heap layout_32 (kernel_at 0x100000) 16384).1.nframes = 4096 ∧
    (kmalloc no_heap { placement_pointer := 0x100000, heap_end := 0 }
      (bitmap_bytes 16384)).st.placement_pointer = 0x100000 + 128 := by
  decide

/-- For every memory size with at least one frame the bytes reserved for the
bitmap hold fewer bits than there are frames. -/
theorem bitmap_bytes_lt (memsize : Nat) (h : 4 ≤ memsize) :
    bitmap_bytes memsize * 8 < memsize / 4 := by
  unfold bitmap_bytes INDEX_FROM_BIT
  omega

/-- Claim C20: `heap_install` leaves `heap_end` a multiple of 4096 for every
cursor value, and in every sequence `heap_install, sbrk(i1), ..., sbrk(in)` with
frame-aligned increments each `sbrk` reached ends by a return or by the
out-of-frames halt, never by a failed assertion, and leaves `heap_end` a
multiple of 4096. -/
theorem heap_end_stays_aligned (ext : HeapExt) (K : Kernel) (incs : List Nat)
    (hal : ∀ inc ∈ incs, inc % 0x1000 = 0) :
    (heap_install K).cur.heap_end % 0x1000 = 0 ∧
    ∀ r ∈ sbrk_seq ext (heap_install K) incs, ∃ res, r = some res ∧
      ((∃ a K2, res = .returned a K2) ∨ (∃ K2, res = .out_of_frames K2)) ∧
      res.kernel.cur.heap_end % 0x1000 = 0 :=
  ⟨heap_install_aligned K, sbrk_seq_aligned ext incs (heap_install K) (heap_install_aligned K) hal⟩

/-- Claim C20 at three calls after `heap_install` on `zero_kernel`. -/
theorem heap_end_stays_aligned_witness :
    (∀ inc ∈ [0x2000, 0, 0x1000], inc % 0x1000 = 0) ∧
    ((heap_install zero_kernel).cur.heap_end % 0x1000 = 0 ∧
    ∀ r ∈ sbrk_seq no_heap (heap_install zero_kernel) [0x2000, 0, 0x1000], ∃ res, r = some res ∧
      ((∃ a K2, res = .returned a K2) ∨ (∃ K2, res = .out_of_frames K2)) ∧
      res.kernel.cur.heap_end % 0x1000 = 0) :=
  ⟨by decide, heap_end_stays_aligned no_heap zero_kernel [0x2000, 0, 0x1000] (by decide)⟩

/-! ## Directory consistency -/

/-- A frame-aligned 32-bit address tagged with the flags `0x7` gives the
address back under the frame mask and `0x7` under the flag mask. -/
theorem or_flags_of_aligned (a : Nat) (ha : a % 0x1000 = 0) (hlt : a < 2 ^ 32) :
    (a ||| 0x7) &&& 0xFFFFF000 = a ∧ (a ||| 0x7) &&& 0xFFF = 0x7 := by
  obtain ⟨q, rfl⟩ : ∃ q, a = 2 ^ 12 * q := ⟨a / 0x1000, by omega⟩
  have h7 : (0x7 : Nat) = 2 ^ 3 - 1 := by norm_num
  have hF : (0xFFF : Nat) = 2 ^ 12 - 1 := by norm_num
  have hM : (0xFFFFF000 : Nat) = 2 ^ 12 * (2 ^ 20 - 1) := by norm_num
  have hq : q < 2 ^ 20 := by omega
  constructor
  · apply Nat.eq_of_testBit_eq
    intro i
    rw [Nat.testBit_and, Nat.testBit_or, hM, h7, Nat.testBit_mul_pow_two,
      Nat.testBit_mul_pow_two, Nat.testBit_two_pow_sub_one, Nat.testBit_two_pow_sub_one]
    by_cases h : 12 ≤ i
    · have h3 : ¬ i < 3 := by omega
      by_cases h20 : i - 12 < 20
      · simp [h, h3, h20]
      · have : q.testBit (i - 12) = false :=
          Nat.testBit_lt_two_pow (lt_of_lt_of_le hq (Nat.pow_le_pow_right (by norm_num) (by omega)))
        simp [h, h3, h20, this]
    · simp [h]
  · apply Nat.eq_of_testBit_eq
    intro i
    rw [Nat.testBit_and, Nat.testBit_or, hF, h7, Nat.testBit_mul_pow_two,
      Nat.testBit_two_pow_sub_one, Nat.testBit_two_pow_sub_one]
    by_cases h : 12 ≤ i
    · have h3 : ¬ i < 3 := by omega
      have h12 : ¬ i < 12 := by omega
      simp [h3, h12]
    · have h12 : i < 12 := by omega
      simp [h, h12]

/-- Before the heap is installed `kvmalloc_p` at a cursor of `0x1000` or more
returns the cursor rounded down to a frame boundary. -/
theorem kvmalloc_p_preheap (ext : HeapExt) (p size : Nat) (hp : 0x1000 ≤ p)
    (hlt : p < 2 ^ 32) :
    kvmalloc_p ext { placement_pointer := p, heap_end := 0 } size =
      { address := p / 0x1000 * 0x1000, phys := some (p / 0x1000 * 0x1000),
        st := { placement_pointer := (p / 0x1000 * 0x1000 + size) % 2 ^ 32, heap_end := 0 } } := by
  have hm := and_frame_mask_of_lt p hlt
  have hne : ¬ (p / 0x1000 = 0) := by omega
  simp [kvmalloc_p, kmalloc_real, hm, hne]

/-- Filling an empty slot of the directory adds one to the table count. -/
theorem table_count_update (K : Kernel) (ti a : Nat) (hti : ti < 1024)
    (hz : K.dir.tables ti = 0) (ha : a ≠ 0) (K2 : Kernel)
    (h2 : K2.dir.tables = Function.update K.dir.tables ti a) :
    table_count K2 = table_count K + 1 := by
  unfold table_count
  have : (Finset.range 1024).filter (fun m => K2.dir.tables m ≠ 0) =
      insert ti ((Finset.range 1024).filter (fun m => K.dir.tables m ≠ 0)) := by
    ext m
    simp only [Finset.mem_filter, Finset.mem_range, Finset.mem_insert, h2, Function.update_apply]
    by_cases e : m = ti
    · subst e; simp [hti, ha]
    · simp [e]
  rw [this, Finset.card_insert_of_not_mem]
  simp [hz]

/-- A directory has at most 1024 tables. -/
theorem table_count_le (K : Kernel) : table_count K ≤ 1024 := by
  unfold table_count
  calc _ ≤ (Finset.range 1024).card := Finset.card_filter_le _ _
    _ = 1024 := Finset.card_range 1024

/-- One `get_page` call keeps the directory invariant. -/
theorem dirInv_get_page (ext : HeapExt) (c : Nat) (K : Kernel) (address : Nat) (make : Int)
    (hc : 0x1000 ≤ c) (hroom : c + 0x400000 < 2 ^ 32) (haddr : address < 2 ^ 32)
    (hinv : DirInv c K) : DirInv c (get_page ext K address make).1 := by
  by_cases hp : K.dir.tables (address / 0x1000 / 1024) = 0
  · by_cases hm : make = 0
    · subst hm
      have : get_page ext K address 0 = (K, none) := by simp [get_page, hp]
      rw [this]
      exact hinv
    · have hti : address / 0x1000 / 1024 < 1024 := by omega
      have hcur : K.cur = { placement_pointer := K.cur.placement_pointer, heap_end := 0 } := by
        rw [← hinv.preheap]
      -- the cursor and the address of the new table
      have hcnt_le := table_count_le K
      have hpp : 0x1000 ≤ K.cur.placement_pointer ∧ K.cur.placement_pointer < 2 ^ 32 ∧
          K.cur.placement_pointer / 0x1000 * 0x1000 =
            c / 0x1000 * 0x1000 + table_count K * 0x1000 := by
        rw [hinv.cursor]
        split
        · rename_i h0; rw [h0]; omega
        · omega
      obtain ⟨hp1, hp2, hp3⟩ := hpp
      have hkv := kvmalloc_p_preheap ext K.cur.placement_pointer sizeof_page_table_t hp1 hp2
      rw [← hcur] at hkv
      have hgp : get_page ext K address make = get_page ext K address 1 := by
        simp [get_page, hp, hm]
      rw [hgp, get_page_make ext K address hp, hkv]
      simp only [Option.getD_some]
      set a := K.cur.placement_pointer / 0x1000 * 0x1000 with ha
      have ha0 : a ≠ 0 := by omega
      have hcnt : table_count { K with
          cur := { placement_pointer := (a + sizeof_page_table_t) % 2 ^ 32, heap_end := 0 }
          dir := { K.dir with
            tables := Function.update K.dir.tables (address / 0x1000 / 1024) a
            physical_tables := Function.update K.dir.physical_tables (address / 0x1000 / 1024)
              (a ||| 0x7) }
          tmem := Function.update K.tmem a (fun _ => unmapped_page) } = table_count K + 1 :=
        table_count_update K _ a hti hp ha0 _ rfl
      have hcnt2 := table_count_le { K with
          cur := { placement_pointer := (a + sizeof_page_table_t) % 2 ^ 32, heap_end := 0 }
          dir := { K.dir with
            tables := Function.update K.dir.tables (address / 0x1000 / 1024) a
            physical_tables := Function.update K.dir.physical_tables (address / 0x1000 / 1024)
              (a ||| 0x7) }
          tmem := Function.update K.tmem a (fun _ => unmapped_page) }
      constructor
      · rfl
      · rw [hcnt]
        show (a + sizeof_page_table_t) % 2 ^ 32 = _
        have : sizeof_page_table_t = 0x1000 := rfl
        rw [this, if_neg (by omega), Nat.mod_eq_of_lt (by omega)]
        omega
      · intro m hm
        show Function.update K.dir.tables _ a m = 0
        rw [Function.update_apply, if_neg (by omega)]
        exact hinv.bounded m hm
      · intro m
        show Function.update K.dir.tables _ a m ≠ 0 →
          Function.update K.dir.tables _ a m % 0x1000 = 0 ∧
          Function.update K.dir.tables _ a m < 2 ^ 32 ∧
          Function.update K.dir.physical_tables _ (a ||| 0x7) m =
            Function.update K.dir.tables _ a m ||| 0x7
        by_cases e : m = address / 0x1000 / 1024
        · subst e
          simp only [Function.update_same]
          intro _
          exact ⟨by omega, by omega, trivial⟩
        · simp only [Function.update_apply, if_neg e]
          exact hinv.present m
      · intro m
        show Function.update K.dir.tables _ a m = 0 →
          Function.update K.dir.physical_tables _ (a ||| 0x7) m = 0
        by_cases e : m = address / 0x1000 / 1024
        · subst e
          simp only [Function.update_same]
          intro h; exact absurd h ha0
        · simp only [Function.update_apply, if_neg e]
          exact hinv.absent m
  · rw [get_page_present ext K address make hp]
    exact hinv

/-- A sequence of `get_page` calls keeps the directory invariant. -/
theorem dirInv_get_page_seq (ext : HeapExt) (c : Nat) (hc : 0x1000 ≤ c)
    (hroom : c + 0x400000 < 2 ^ 32) (calls : List (Nat × Int)) : ∀ K : Kernel,
    (∀ x ∈ calls, x.1 < 2 ^ 32) → DirInv c K → DirInv c (get_page_seq ext K calls) := by
  induction calls with
  | nil => intro K _ h; exact h
  | cons x xs ih =>
    intro K hx h
    simp only [get_page_seq]
    exact ih _ (fun y hy => hx y (List.mem_cons_of_mem _ hy))
      (dirInv_get_page ext c K x.1 x.2 hc hroom (hx x (List.mem_cons_self _ _)) h)

/-- A cleared directory satisfies the directory invariant at its cursor. -/
theorem dirInv_zero (K : Kernel) (hpre : K.cur.heap_end = 0)
    (ht : ∀ m, K.dir.tables m = 0) (hpt : ∀ m, K.dir.physical_tables m = 0) :
    DirInv K.cur.placement_pointer K := by
  have h0 : table_count K = 0 := by
    unfold table_count
    simp [ht]
  constructor
  · exact hpre
  · rw [h0]; rfl
  · intro m _; exact ht m
  · intro m h; exact absurd (ht m) h
  · intro m _; exact hpt m

/-- Claim C18, as stated, fails for three start cursors, each with a cleared
directory.  From the cursor `0x10` the table is placed at `0x10`, unaligned,
and `physical_tables[0]` is `0x17`.  From the cursor 0 the table is placed at
address 0, so `tables[0]` reads as absent while `physical_tables[0]` is 7.  From
the cursor `0xFFFFF000` the cursor wraps to 0 after the first table and the
second table is placed at address 0. -/
theorem directory_consistency_counterexample :
    ((get_page_seq no_heap (kernel_at 0x10) [(0, 1)]).dir.tables 0 = 0x10 ∧
      (get_page_seq no_heap (kernel_at 0x10) [(0, 1)]).dir.physical_tables 0 = 0x17 ∧
      0x17 &&& 0xFFFFF000 ≠ 0x10 ∧ 0x17 &&& 0xFFF ≠ 0x7) ∧
    ((get_page_seq no_heap (kernel_at 0) [(0, 1)]).dir.tables 0 = 0 ∧
      (get_page_seq no_heap (kernel_at 0) [(0, 1)]).dir.physical_tables 0 = 0x7) ∧
    ((get_page_seq no_heap (kernel_at 0xFFFFF000) [(0, 1), (0x400000, 1)]).dir.tables 1 = 0 ∧
      (get_page_seq no_heap (kernel_at 0xFFFFF000)
        [(0, 1), (0x400000, 1)]).dir.physical_tables 1 = 0x7) := by
  decide

/-- Claim C18, amended: starting from a cleared directory and a cursor `c` with
`0x1000 <= c` and 4 MiB of room below `2 ^ 32`, after any sequence of
`get_page` calls on 32-bit addresses made before the heap is installed, for
every index `i` with `tables[i]` present, `physical_tables[i]` under the frame
mask equals the address of `tables[i]` and its flag bits are `0x7`; for every
`i` with `tables[i]` absent, `physical_tables[i]` is 0. -/
theorem directory_consistency (ext : HeapExt) (K : Kernel) (calls : List (Nat × Int))
    (hpre : K.cur.heap_end = 0) (htab : ∀ m, K.dir.tables m = 0)
    (hphys : ∀ m, K.dir.physical_tables m = 0)
    (hc : 0x1000 ≤ K.cur.placement_pointer)
    (hroom : K.cur.placement_pointer + 0x400000 < 2 ^ 32)
    (haddr : ∀ x ∈ calls, x.1 < 2 ^ 32) :
    ∀ i,
      ((get_page_seq ext K calls).dir.tables i ≠ 0 →
        (get_page_seq ext K calls).dir.physical_tables i &&& 0xFFFFF000 =
          (get_page_seq ext K calls).dir.tables i ∧
        (get_page_seq ext K calls).dir.physical_tables i &&& 0xFFF = 0x7) ∧
      ((get_page_seq ext K calls).dir.tables i = 0 →
        (get_page_seq ext K calls).dir.physical_tables i = 0) := by
  have hinv := dirInv_get_page_seq ext K.cur.placement_pointer hc hroom calls K haddr
    (dirInv_zero K hpre htab hphys)
  intro i
  refine ⟨?_, hinv.absent i⟩
  intro hne
  obtain ⟨h1, h2, h3⟩ := hinv.present i hne
  rw [h3]
  exact or_flags_of_aligned _ h1 h2

/-- Claim C18, amended, at four lookups from the cursor `0x100000`. -/
theorem directory_consistency_witness :
    (kernel_at 0x100000).cur.heap_end = 0 ∧ (∀ m, (kernel_at 0x100000).dir.tables m = 0) ∧
    (∀ m, (kernel_at 0x100000).dir.physical_tables m = 0) ∧
    0x1000 ≤ (kernel_at 0x100000).cur.placement_pointer ∧
    (kernel_at 0x100000).cur.placement_pointer + 0x400000 < 2 ^ 32 ∧
    (∀ x ∈ [((0 : Nat), (1 : Int)), (0x400000, 1), (0x1000, 0), (0x800000, 0)], x.1 < 2 ^ 32) ∧
    ∀ i,
      ((get_page_seq no_heap (kernel_at 0x100000)
          [(0, 1), (0x400000, 1), (0x1000, 0), (0x800000, 0)]).dir.tables i ≠ 0 →
        (get_page_seq no_heap (kernel_at 0x100000)
          [(0, 1), (0x400000, 1), (0x1000, 0), (0x800000, 0)]).dir.physical_tables i &&&
            0xFFFFF000 =
          (get_page_seq no_heap (kernel_at 0x100000)
            [(0, 1), (0x400000, 1), (0x1000, 0), (0x800000, 0)]).dir.tables i ∧
        (get_page_seq no_heap (kernel_at 0x100000)
          [(0, 1), (0x400000, 1), (0x1000, 0), (0x800000, 0)]).dir.physical_tables i &&&
            0xFFF = 0x7) ∧
      ((get_page_seq no_heap (kernel_at 0x100000)
          [(0, 1), (0x400000, 1), (0x1000, 0), (0x800000, 0)]).dir.tables i = 0 →
        (get_page_seq no_heap (kernel_at 0x100000)
          [(0, 1), (0x400000, 1), (0x1000, 0), (0x800000, 0)]).dir.physical_tables i = 0) :=
  ⟨rfl, fun _ => rfl, fun _ => rfl, by decide, by decide, by decide,
    directory_consistency no_heap (kernel_at 0x100000)
      [(0, 1), (0x400000, 1), (0x1000, 0), (0x800000, 0)] rfl (fun _ => rfl) (fun _ => rfl)
      (by decide) (by decide) (by decide)⟩

/-! ## The memory manager on memory as bytes -/

namespace Flat

/-! ### Loads and stores -/

/-- A byte is below 256. -/
theorem load8_lt (m : Nat → Nat) (a : Nat) : load8 m a < 256 := Nat.mod_lt _ (by norm_num)

/-- A word read from memory is a 32-bit value. -/
theorem load32_lt (m : Nat → Nat) (a : Nat) : load32 m a < 2 ^ 32 := by
  have h0 := load8_lt m a
  have h1 := load8_lt m (a + 1)
  have h2 := load8_lt m (a + 2)
  have h3 := load8_lt m (a + 3)
  unfold load32
  omega

/-- A store leaves the bytes outside its four bytes as they were. -/
theorem load8_store32_out (m : Nat → Nat) (a v x : Nat) (ha : a + 3 < 2 ^ 32) (hx : x < 2 ^ 32)
    (hd : x < a ∨ a + 4 ≤ x) : load8 (store32 m a v) x = load8 m x := by
  unfold load8 store32
  rw [Nat.mod_eq_of_lt hx, Nat.mod_eq_of_lt (by omega : a < 2 ^ 32),
    Nat.mod_eq_of_lt (by omega : a + 1 < 2 ^ 32), Nat.mod_eq_of_lt (by omega : a + 2 < 2 ^ 32),
    Nat.mod_eq_of_lt ha]
  rw [if_neg (by omega), if_neg (by omega), if_neg (by omega), if_neg (by omega)]

/-- A word read where it was stored is the value stored, in 32 bits. -/
theorem load32_store32_same (m : Nat → Nat) (a v : Nat) (ha : a + 3 < 2 ^ 32) :
    load32 (store32 m a v) a = v % 2 ^ 32 := by
  unfold load32 load8 store32
  rw [Nat.mod_eq_of_lt (by omega : a < 2 ^ 32),
    Nat.mod_eq_of_lt (by omega : a + 1 < 2 ^ 32), Nat.mod_eq_of_lt (by omega : a + 2 < 2 ^ 32),
    Nat.mod_eq_of_lt ha]
  rw [if_pos rfl, if_neg (by omega), if_pos rfl, if_neg (by omega), if_neg (by omega), if_pos rfl,
    if_neg (by omega), if_neg (by omega), if_neg (by omega), if_pos rfl]
  omega

/-- A store leaves a word that lies apart from it as it was. -/
theorem load32_store32_ne (m : Nat → Nat) (a v b : Nat) (ha : a + 3 < 2 ^ 32)
    (hb : b + 3 < 2 ^ 32) (hd : b + 4 ≤ a ∨ a + 4 ≤ b) :
    load32 (store32 m a v) b = load32 m b := by
  unfold load32
  rw [load8_store32_out m a v b ha (by omega) (by omega),
    load8_store32_out m a v (b + 1) ha (by omega) (by omega),
    load8_store32_out m a v (b + 2) ha (by omega) (by omega),
    load8_store32_out m a v (b + 3) ha (by omega) (by omega)]

/-- A byte inside the range of a `memset` is the byte written. -/
theorem load8_memset_in (m : Nat → Nat) (s c n x : Nat) (hs : s + n ≤ 2 ^ 32)
    (h1 : s ≤ x) (h2 : x < s + n) : load8 (memset m s c n) x = c % 256 := by
  unfold load8 memset
  rw [Nat.mod_eq_of_lt (by omega : x < 2 ^ 32), Nat.mod_eq_of_lt (by omega : s < 2 ^ 32)]
  have e : (x + 2 ^ 32 - s) % 2 ^ 32 = x - s := by omega
  rw [e, if_pos (by omega)]
  omega

/-- A `memset` leaves the bytes outside its range as they were. -/
theorem load8_memset_out (m : Nat → Nat) (s c n x : Nat) (hs : s + n ≤ 2 ^ 32)
    (hx : x < 2 ^ 32) (hd : x < s ∨ s + n ≤ x) : load8 (memset m s c n) x = load8 m x := by
  unfold load8 memset
  by_cases hn : n = 0
  · subst hn; simp
  rw [Nat.mod_eq_of_lt hx, Nat.mod_eq_of_lt (by omega : s < 2 ^ 32)]
  have e : ¬ (x + 2 ^ 32 - s) % 2 ^ 32 < n := by omega
  rw [if_neg e]

/-- A word inside a range cleared by `memset` is 0. -/
theorem load32_memset_in (m : Nat → Nat) (s n b : Nat) (hs : s + n ≤ 2 ^ 32)
    (h1 : s ≤ b) (h2 : b + 4 ≤ s + n) : load32 (memset m s 0 n) b = 0 := by
  unfold load32
  rw [load8_memset_in m s 0 n b hs (by omega) (by omega),
    load8_memset_in m s 0 n (b + 1) hs (by omega) (by omega),
    load8_memset_in m s 0 n (b + 2) hs (by omega) (by omega),
    load8_memset_in m s 0 n (b + 3) hs (by omega) (by omega)]
  norm_num

/-- A `memset` leaves a word outside its range as it was. -/
theorem load32_memset_out (m : Nat → Nat) (s c n b : Nat) (hs : s + n ≤ 2 ^ 32)
    (hb : b + 3 < 2 ^ 32) (hd : b + 4 ≤ s ∨ s + n ≤ b) :
    load32 (memset m s c n) b = load32 m b := by
  unfold load32
  rw [load8_memset_out m s c n b hs (by omega) (by omega),
    load8_memset_out m s c n (b + 1) hs (by omega) (by omega),
    load8_memset_out m s c n (b + 2) hs (by omega) (by omega),
    load8_memset_out m s c n (b + 3) hs (by omega) (by omega)]

/-- A word read from memory is made of its four bytes: byte `q` is the word
shifted right by `8 * q` bits, modulo 256. -/
theorem load8_of_load32 (m : Nat → Nat) (a q : Nat) (hq : q < 4) :
    load8 m (a + q) = load32 m a / 2 ^ (8 * q) % 256 := by
  have h0 := load8_lt m a
  have h1 := load8_lt m (a + 1)
  have h2 := load8_lt m (a + 2)
  have h3 := load8_lt m (a + 3)
  unfold load32
  have : q = 0 ∨ q = 1 ∨ q = 2 ∨ q = 3 := by omega
  rcases this with h | h | h | h <;> subst h <;> norm_num <;> omega

/-- Two memories that agree on the four bytes of a word agree on the word. -/
theorem load32_congr (m1 m2 : Nat → Nat) (a : Nat)
    (h : ∀ q, q < 4 → load8 m1 (a + q) = load8 m2 (a + q)) : load32 m1 a = load32 m2 a := by
  unfold load32
  have := h 0 (by omega)
  rw [Nat.add_zero] at this
  rw [this, h 1 (by omega), h 2 (by omega), h 3 (by omega)]

/-- Frame `b` is marked used in the bitmap at `c` exactly when bit `b % 8` of
the byte at `c + b / 8` is set: a bit of the bitmap lives in one byte. -/
theorem frame_used_bitmap_byte (mem : Nat → Nat) (c b : Nat) :
    frame_used (bitmap mem c) b = (load8 mem (c + b / 8)).testBit (b % 8) := by
  rw [frame_used_eq]
  unfold bitmap
  have e : c + b / 8 = c + 4 * (b / 32) + b % 32 / 8 := by omega
  rw [e, load8_of_load32 _ _ _ (by omega), ← Nat.shiftRight_eq_div_pow,
    show (256 : Nat) = 2 ^ 8 from rfl, Nat.testBit_mod_two_pow, Nat.testBit_shiftRight]
  have e2 : 8 * (b % 32 / 8) + b % 8 = b % 32 := by omega
  rw [e2]
  simp
  omega

/-- The bytes of a stored word, read back. -/
theorem load8_store32_in (m : Nat → Nat) (a v q : Nat) (ha : a + 3 < 2 ^ 32) (hq : q < 4) :
    load8 (store32 m a v) (a + q) = v / 2 ^ (8 * q) % 256 := by
  unfold load8 store32
  rw [Nat.mod_eq_of_lt (by omega : a + q < 2 ^ 32), Nat.mod_eq_of_lt (by omega : a < 2 ^ 32),
    Nat.mod_eq_of_lt (by omega : a + 1 < 2 ^ 32), Nat.mod_eq_of_lt (by omega : a + 2 < 2 ^ 32),
    Nat.mod_eq_of_lt ha]
  have : q = 0 ∨ q = 1 ∨ q = 2 ∨ q = 3 := by omega
  rcases this with h | h | h | h <;> subst h <;> simp

/-- Setting bit `j` of the word at `a`, as `set_frame` does, changes no byte
other than the byte at `a + j / 8`. -/
theorem load8_store32_or_bit (m : Nat → Nat) (a j y : Nat) (ha : a + 3 < 2 ^ 32)
    (hy : y < 2 ^ 32) (hne : y ≠ a + j / 8) :
    load8 (store32 m a (load32 m a ||| (1 <<< j))) y = load8 m y := by
  by_cases hout : y < a ∨ a + 4 ≤ y
  · exact load8_store32_out _ _ _ _ ha hy hout
  · obtain ⟨q, hq, rfl⟩ : ∃ q, q < 4 ∧ y = a + q := ⟨y - a, by omega, by omega⟩
    rw [load8_store32_in _ _ _ _ ha hq, load8_of_load32 _ _ _ hq]
    apply Nat.eq_of_testBit_eq
    intro i
    rw [← Nat.shiftRight_eq_div_pow, ← Nat.shiftRight_eq_div_pow,
      show (256 : Nat) = 2 ^ 8 from rfl, Nat.testBit_mod_two_pow, Nat.testBit_mod_two_pow,
      Nat.testBit_shiftRight, Nat.testBit_shiftRight, Nat.testBit_or, Nat.one_shiftLeft,
      Nat.testBit_two_pow]
    by_cases hi : i < 8
    · have : ¬ (j = 8 * q + i) := by omega
      simp [this]
    · simp [hi]

/-! ### Page entries and `alloc_frame` -/

/-- The fields of the entry that holds frame `j` with `rw = r`, `user = u` and
`present = 1`. -/
theorem page_fields_of_flags (j r u : Nat) (hj : j < 2 ^ 20) (hr : r < 2) (hu : u < 2) :
    page_present (j * 0x1000 + (u * 4 + r * 2 + 1)) = 1 ∧
    page_rw (j * 0x1000 + (u * 4 + r * 2 + 1)) = r ∧
    page_user (j * 0x1000 + (u * 4 + r * 2 + 1)) = u ∧
    page_frame (j * 0x1000 + (u * 4 + r * 2 + 1)) = j := by
  unfold page_present page_rw page_user page_frame
  refine ⟨by omega, by omega, by omega, by omega⟩

/-- The four field assignments of `alloc_frame` on a cleared entry: the entry
holds the low 20 bits of `k` as its frame, and the flags. -/
theorem with_fields_zero (k r u : Nat) (hr : r < 2) (hu : u < 2) :
    with_frame (with_user (with_rw (with_present 0 1 % 2 ^ 32) r % 2 ^ 32) u % 2 ^ 32) k % 2 ^ 32 =
      k % 2 ^ 20 * 0x1000 + (u * 4 + r * 2 + 1) := by
  unfold with_frame with_user with_rw with_present
  omega

/-- What `alloc_frame` does to memory on an unmapped, cleared page entry at
`p` when `first_frame` finds frame `k`. -/
theorem alloc_frame_effect (M : Machine) (p k : Nat) (ik iw : Int)
    (hp : p + 3 < 2 ^ 32) (hw : load32 M.mem p = 0)
    (hk : first_frame M = k) (hk2 : k < 2 ^ 20)
    (hq : M.frames + 4 * (k / 32) + 3 < 2 ^ 32)
    (hd : p + 4 ≤ M.frames + 4 * (k / 32) ∨ M.frames + 4 * (k / 32) + 4 ≤ p) :
    ∃ m2, alloc_frame M p ik iw = .returned { M with mem := m2 } ∧
      load32 m2 (M.frames + 4 * (k / 32)) =
        load32 M.mem (M.frames + 4 * (k / 32)) ||| (1 <<< (k % 32)) ∧
      load32 m2 p = k * 0x1000 +
        ((if ik = 1 then 0 else 1) * 4 + (if iw = 1 then 1 else 0) * 2 + 1) ∧
      (∀ b, b + 3 < 2 ^ 32 →
        (b + 4 ≤ M.frames + 4 * (k / 32) ∨ M.frames + 4 * (k / 32) + 4 ≤ b) →
        (b + 4 ≤ p ∨ p + 4 ≤ b) → load32 m2 b = load32 M.mem b) ∧
      ∀ y, y < 2 ^ 32 → y ≠ M.frames + k / 8 → (y < p ∨ p + 4 ≤ y) →
        load8 m2 y = load8 M.mem y := by
  have hmul : k * 0x1000 % 2 ^ 32 = k * 0x1000 := Nat.mod_eq_of_lt (by omega)
  have hdiv : k * 0x1000 / 0x1000 = k := by omega
  have hne : k ≠ 0xFFFFFFFF := by omega
  have hor : (load32 M.mem (M.frames + 4 * (k / 32)) ||| (1 <<< (k % 32))) < 2 ^ 32 := by
    apply Nat.or_lt_two_pow (load32_lt _ _)
    rw [Nat.one_shiftLeft]
    exact Nat.pow_lt_pow_right (by norm_num) (by omega)
  have hpf : page_frame (load32 M.mem p) = 0 := by rw [hw]; rfl
  -- the memory after set_frame
  have hs0 : load32 (set_frame M.mem M.frames (k * 0x1000)) p = 0 := by
    unfold set_frame INDEX_FROM_BIT OFFSET_FROM_BIT
    simp only [hdiv]
    rw [load32_store32_ne _ _ _ _ hq hp (by omega), hw]
  unfold alloc_frame
  rw [if_neg (by rw [hpf]; simp)]
  simp only [hk, if_neg hne, hmul]
  refine ⟨_, rfl, ?_, ?_, ?_, ?_⟩
  · simp only [load32_store32_same _ _ _ hp]
    rw [load32_store32_ne _ _ _ _ hp hq (by omega), load32_store32_ne _ _ _ _ hp hq (by omega),
      load32_store32_ne _ _ _ _ hp hq (by omega), load32_store32_ne _ _ _ _ hp hq (by omega)]
    unfold set_frame INDEX_FROM_BIT OFFSET_FROM_BIT
    simp only [hdiv]
    rw [load32_store32_same _ _ _ hq, Nat.mod_eq_of_lt hor]
  · simp only [load32_store32_same _ _ _ hp, hs0]
    have hr : (if iw = 1 then (1 : Nat) else 0) < 2 := by split <;> omega
    have hu : (if ik = 1 then (0 : Nat) else 1) < 2 := by split <;> omega
    rw [with_fields_zero k _ _ hr hu, Nat.mod_eq_of_lt hk2]
  · intro b hb h1 h2
    rw [load32_store32_ne _ _ _ _ hp hb (by omega), load32_store32_ne _ _ _ _ hp hb (by omega),
      load32_store32_ne _ _ _ _ hp hb (by omega), load32_store32_ne _ _ _ _ hp hb (by omega)]
    unfold set_frame INDEX_FROM_BIT OFFSET_FROM_BIT
    simp only [hdiv]
    rw [load32_store32_ne _ _ _ _ hq hb (by omega)]
  · intro y hy h1 h2
    rw [load8_store32_out _ _ _ _ hp hy h2, load8_store32_out _ _ _ _ hp hy h2,
      load8_store32_out _ _ _ _ hp hy h2, load8_store32_out _ _ _ _ hp hy h2]
    unfold set_frame INDEX_FROM_BIT OFFSET_FROM_BIT
    simp only [hdiv]
    exact load8_store32_or_bit _ _ _ _ hq hy (by omega)

/-! ### Page lookup on memory -/

/-- What creating a table does to memory: the directory entry points to the
table, the table is clear, and every word and every byte apart from the table
and the two directory entries written is as before. -/
theorem create_table_effect (mem : Nat → Nat) (d ti a temp : Nat)
    (hti : ti < 1024) (hd : d + 0x2000 ≤ 2 ^ 32) (ha : a + 0x1000 ≤ 2 ^ 32)
    (hsep : a + 0x1000 ≤ d ∨ d + 0x2000 ≤ a) :
    load32 (table_created mem d ti a temp) (d + 4 * ti) = a ∧
    (∀ b, a ≤ b → b + 4 ≤ a + 0x1000 → load32 (table_created mem d ti a temp) b = 0) ∧
    (∀ b, b + 3 < 2 ^ 32 → (b + 4 ≤ a ∨ a + 0x1000 ≤ b) →
      (b + 4 ≤ d + 4 * ti ∨ d + 4 * ti + 4 ≤ b) →
      (b + 4 ≤ d + 0x1000 + 4 * ti ∨ d + 0x1000 + 4 * ti + 4 ≤ b) →
      load32 (table_created mem d ti a temp) b = load32 mem b) ∧
    (∀ y, y < 2 ^ 32 → (y < a ∨ a + 0x1000 ≤ y) →
      (y < d + 4 * ti ∨ d + 4 * ti + 4 ≤ y) →
      (y < d + 0x1000 + 4 * ti ∨ d + 0x1000 + 4 * ti + 4 ≤ y) →
      load8 (table_created mem d ti a temp) y = load8 mem y) := by
  have e1 : load32 (store32 mem (d + 4 * ti) a) (d + 4 * ti) = a := by
    rw [load32_store32_same _ _ _ (by omega), Nat.mod_eq_of_lt (by omega)]
  have hp : d + offsetof_physical_tables + 4 * ti + 3 < 2 ^ 32 := by
    unfold offsetof_physical_tables; omega
  unfold table_created
  unfold offsetof_physical_tables at hp ⊢
  rw [e1]
  refine ⟨?_, ?_, ?_, ?_⟩
  · rw [load32_store32_ne _ _ _ _ hp (by omega) (by omega),
      load32_memset_out _ _ _ _ _ (by omega) (by omega) (by omega), e1]
  · intro b h1 h2
    rw [load32_store32_ne _ _ _ _ hp (by omega) (by omega),
      load32_memset_in _ _ _ _ (by omega) h1 h2]
  · intro b hb h1 h2 h3
    rw [load32_store32_ne _ _ _ _ hp hb (by omega),
      load32_memset_out _ _ _ _ _ (by omega) hb (by omega),
      load32_store32_ne _ _ _ _ (by omega) hb (by omega)]
  · intro y hy h1 h2 h3
    rw [load8_store32_out _ _ _ _ hp hy (by omega),
      load8_memset_out _ _ _ _ _ (by omega) hy (by omega),
      load8_store32_out _ _ _ _ (by omega) hy (by omega)]

/-- A lookup of a page whose table is present returns the page and changes
nothing. -/
theorem get_page_table_present (ext : HeapCalls) (M : Machine) (address : Nat) (make : Int)
    (dir t : Nat) (ht : load32 M.mem (dir + 4 * (address / 0x1000 / 1024)) = t) (h0 : t ≠ 0) :
    get_page ext M address make dir =
      some (M, (t + 4 * (address / 0x1000 % 1024)) % 2 ^ 32) := by
  unfold get_page
  simp only [ht]
  rw [if_pos h0]

/-- A lookup with `make == 0` of a page whose table is absent returns the null
pointer. -/
theorem get_page_absent (ext : HeapCalls) (M : Machine) (address dir : Nat)
    (ht : load32 M.mem (dir + 4 * (address / 0x1000 / 1024)) = 0) :
    get_page ext M address 0 dir = some (M, 0) := by
  unfold get_page
  simp [ht]

/-- The creating branch of `get_page` before the heap is installed, with the
cursor at `0x1000` or above: the table is placed at the cursor rounded down. -/
theorem get_page_create_preheap (ext : HeapCalls) (M : Machine) (address dir : Nat)
    (hh : M.heap_end = 0) (hc : 0x1000 ≤ M.placement_pointer)
    (hc2 : M.placement_pointer < 2 ^ 32)
    (ht : load32 M.mem (dir + 4 * (address / 0x1000 / 1024)) = 0) :
    get_page ext M address 1 dir =
      some ({ M with
          placement_pointer := (M.placement_pointer / 0x1000 * 0x1000 + 0x1000) % 2 ^ 32
          mem := table_created M.mem dir (address / 0x1000 / 1024)
            (M.placement_pointer / 0x1000 * 0x1000) (M.placement_pointer / 0x1000 * 0x1000) },
        (load32 (table_created M.mem dir (address / 0x1000 / 1024)
            (M.placement_pointer / 0x1000 * 0x1000) (M.placement_pointer / 0x1000 * 0x1000))
          (dir + 4 * (address / 0x1000 / 1024)) + 4 * (address / 0x1000 % 1024)) % 2 ^ 32) := by
  have hm : M.placement_pointer &&& 0xFFFFF000 = M.placement_pointer / 0x1000 * 0x1000 :=
    and_frame_mask_of_lt _ hc2
  have hne : M.placement_pointer / 0x1000 * 0x1000 ≠ 0 := by omega
  unfold get_page table_created
  simp only [ht]
  simp [kvmalloc_p, kmalloc_real, hh, hm, hne, sizeof_page_table_t]

/-! ### The mapping invariant -/

/-- Two memories that agree on the byte of frame `b` agree on frame `b`. -/
theorem frame_used_congr (m1 m2 : Nat → Nat) (c b : Nat)
    (h : load8 m1 (c + b / 8) = load8 m2 (c + b / 8)) :
    frame_used (bitmap m1 c) b = frame_used (bitmap m2 c) b := by
  rw [frame_used_bitmap_byte, frame_used_bitmap_byte, h]

/-- Page entries of different pages lie four bytes apart or more. -/
theorem entry_apart (L : Places) (T : Nat) (hA : Apart L T) (j j2 : Nat)
    (hj : j / 1024 < T) (hj2 : j2 / 1024 < T) (hne : j ≠ j2) :
    L.table (j / 1024) + 4 * (j % 1024) + 4 ≤ L.table (j2 / 1024) + 4 * (j2 % 1024) ∨
    L.table (j2 / 1024) + 4 * (j2 % 1024) + 4 ≤ L.table (j / 1024) + 4 * (j % 1024) := by
  by_cases h : j / 1024 = j2 / 1024
  · rw [h]; omega
  · have := hA.table_table _ _ hj hj2 h
    omega

/-- Creating the table of index `t` keeps the invariant, with one more table. -/
theorem mapInv_create (L : Places) (T lo fl : Nat) (M M2 : Machine) (k t temp : Nat)
    (hA : Apart L T) (hI : MapInv L lo fl M k t) (ht : t < T) (ht2 : t < 1024)
    (hk : k ≤ 1024 * t)
    (hf : M2.frames = M.frames) (hd : M2.kernel_directory = M.kernel_directory)
    (hn : M2.nframes = M.nframes)
    (hm : M2.mem = table_created M.mem L.dir t (L.table t) temp) :
    MapInv L lo fl M2 k (t + 1) := by
  obtain ⟨e1, e2, e3, e4⟩ := create_table_effect M.mem L.dir t (L.table t) temp ht2 hA.dir_end
    (hA.table_end t ht) (hA.table_dir t ht)
  rw [← hm] at e1 e2 e3 e4
  have hb := hA.bitmap_end
  have hbd := hA.bitmap_dir
  have htb := hA.table_bitmap t ht
  have htd := hA.table_dir t ht
  have hte := hA.table_end t ht
  have hde := hA.dir_end
  refine ⟨hf.trans hI.frames, hd.trans hI.dir, by rw [hn]; exact hI.scanned, ?_, ?_, ?_⟩
  · intro m hm1
    by_cases h : m = t
    · subst h
      rw [e1, if_pos (by omega)]
    · rw [e3 _ (by omega) (by omega) (by omega) (by omega), hI.tables m hm1]
      by_cases h2 : m < t
      · rw [if_pos h2, if_pos (by omega)]
      · rw [if_neg h2, if_neg (by omega)]
  · intro b hb1
    rw [← hI.bits b hb1]
    apply frame_used_congr
    exact e4 _ (by omega) (by omega) (by omega) (by omega)
  · intro j hj1 hj2
    by_cases h : j / 1024 = t
    · rw [h, e2 _ (by omega) (by omega), if_neg (by omega)]
    · have hjt : j / 1024 < t := by omega
      have h1 := hA.table_table _ _ (by omega : j / 1024 < T) ht h
      have h2 := hA.table_dir _ (by omega : j / 1024 < T)
      have h3 := hA.table_end _ (by omega : j / 1024 < T)
      rw [e3 _ (by omega) (by omega) (by omega) (by omega), hI.entries j hj1 (by omega)]

/-- One `alloc_frame` call on the page `k` keeps the invariant, with one more
page mapped. -/
theorem mapInv_alloc (L : Places) (T lo : Nat) (M : Machine) (k t : Nat) (ik iw : Int)
    (hA : Apart L T)
    (hI : MapInv L lo ((if ik = 1 then 0 else 1) * 4 + (if iw = 1 then 1 else 0) * 2 + 1) M k t)
    (ht : t ≤ T) (hkt : k / 1024 < t) (hlo : lo ≤ k) (hkw : k < 8 * L.bytes)
    (hk2 : k < 2 ^ 20) :
    ∃ m2, alloc_frame M (L.table (k / 1024) + 4 * (k % 1024)) ik iw =
        .returned { M with mem := m2 } ∧
      MapInv L lo ((if ik = 1 then 0 else 1) * 4 + (if iw = 1 then 1 else 0) * 2 + 1)
        { M with mem := m2 } (k + 1) t := by
  have hb := hA.bitmap_end
  have hbd := hA.bitmap_dir
  have htb := hA.table_bitmap _ (by omega : k / 1024 < T)
  have htd := hA.table_dir _ (by omega : k / 1024 < T)
  have hte := hA.table_end _ (by omega : k / 1024 < T)
  have hde := hA.dir_end
  have hff : first_frame M = k := by
    unfold first_frame
    rw [hI.frames]
    apply first_frame_eq_of_lowest_free
    · have := hI.scanned; omega
    · rw [hI.bits k hkw]; simp
    · intro b hb1
      rw [hI.bits b (by omega)]; simp [hb1]
  have hw : load32 M.mem (L.table (k / 1024) + 4 * (k % 1024)) = 0 := by
    rw [hI.entries k hlo (by omega), if_neg (by omega)]
  obtain ⟨m2, e0, e1, e2, e3, e4⟩ := alloc_frame_effect M (L.table (k / 1024) + 4 * (k % 1024)) k
    ik iw (by omega) hw hff hk2 (by rw [hI.frames]; omega) (by rw [hI.frames]; omega)
  rw [hI.frames] at e1 e3 e4
  refine ⟨m2, e0, hI.frames, hI.dir, hI.scanned, ?_, ?_, ?_⟩
  · intro m hm1
    show load32 m2 (L.dir + 4 * m) = _
    rw [← hI.tables m hm1]
    apply load32_congr
    intro q hq
    exact e4 _ (by omega) (by omega) (by omega)
  · intro b hb1
    show frame_used (bitmap m2 L.frames) b = _
    have hold := hI.bits b hb1
    rw [frame_used_eq] at hold ⊢
    unfold bitmap at hold ⊢
    by_cases hwd : b / 32 = k / 32
    · rw [hwd, e1, Nat.testBit_or, Nat.one_shiftLeft, Nat.testBit_two_pow, ← hwd, hold]
      by_cases hbk : b < k
      · simp [hbk]; omega
      · by_cases hbe : b = k
        · subst hbe; simp
        · have h1 : ¬ (k % 32 = b % 32) := by omega
          have h2 : ¬ b < k + 1 := by omega
          simp [hbk, h1, h2]
    · rw [e3 _ (by omega) (by omega) (by omega), hold]
      have : (b < k) ↔ (b < k + 1) := by
        constructor
        · intro h; omega
        · intro h
          by_contra hc
          have : b = k := by omega
          exact hwd (by rw [this])
      simp [this]
  · intro j hj1 hj2
    show load32 m2 (L.table (j / 1024) + 4 * (j % 1024)) = _
    by_cases hjk : j = k
    · rw [hjk, e2, if_pos (by omega : k < k + 1)]
    · have hap := entry_apart L T hA j k (by omega) (by omega) hjk
      have h2 := hA.table_bitmap _ (by omega : j / 1024 < T)
      have h3 := hA.table_end _ (by omega : j / 1024 < T)
      rw [e3 _ (by omega) (by omega) (by omega), hI.entries j hj1 hj2]
      by_cases h : j < k
      · rw [if_pos h, if_pos (by omega : j < k + 1)]
      · rw [if_neg h, if_neg (by omega : ¬ j < k + 1)]

/-! ### The loop of `paging_install` -/

/-- The objects of `paging_install` lie apart when the bitmap ends on a frame
boundary and there is room below `2 ^ 32`. -/
theorem apart_install (c n : Nat) (hroom : c + n + 0x403000 < 2 ^ 32) :
    Apart (install_places c n) 1024 := by
  constructor <;> simp only [install_places] <;> intros <;> omega

/-- Under the invariant of the loop of `paging_install` the cursor plus one
frame is a 32-bit value and at most `2 ^ 20` pages are mapped. -/
theorem installInv_bound (c n q : Nat) (hroom : c + n + 0x403000 < 2 ^ 32)
    (hal : (c + n) % 0x1000 = 0) (M : Machine) (k : Nat) (hI : InstallInv c n q M k) :
    M.placement_pointer + 0x1000 < 2 ^ 32 ∧ k ≤ 2 ^ 20 := by
  have hcur := hI.cursor
  have := hI.tight
  unfold tcount at this hcur
  rw [hcur]
  split <;> omega

/-- One iteration of the loop of `paging_install`: the page `k` is looked up,
its table being created if `k` is the first page of a table, and mapped to
frame `k`; the loop goes on from page `k + 1` with the invariant kept. -/
theorem install_step (ext : HeapCalls) (c n q : Nat)
    (hal : (c + n) % 0x1000 = 0) (hd : 0x1000 ≤ c + n) (hroom : c + n + 0x403000 < 2 ^ 32)
    (hcover : (c + n) / 0x1000 + 3 + tcount (8 * n) ≤ 8 * n)
    (M : Machine) (k : Nat) (hI : InstallInv c n q M k)
    (hcond : k * 0x1000 < M.placement_pointer + 0x1000) :
    ∃ M2, InstallInv c n q M2 (k + 1) ∧
      ∀ fuel, paging_install_loop ext (fuel + 1) M (k * 0x1000) =
        paging_install_loop ext fuel M2 ((k + 1) * 0x1000) := by
  have hA := apart_install c n hroom
  have hcur := hI.cursor
  have hcl := (installInv_bound c n q hroom hal M k hI).1
  have hkB : k < 8 * n := by
    rw [hcur] at hcond
    unfold tcount at hcond hcover
    split at hcond <;> omega
  have hk20 : k < 2 ^ 20 := by omega
  have hdiv : k * 0x1000 / 0x1000 = k := by omega
  have hdir := hI.map.dir
  simp only [install_places] at hdir
  -- the lookup
  have hget : ∃ M1, get_page ext M (k * 0x1000) 1 M.kernel_directory =
      some (M1, (install_places c n).table (k / 1024) + 4 * (k % 1024)) ∧
      MapInv (install_places c n) 0 5 M1 k (tcount (k + 1)) ∧ M1.heap_end = 0 ∧
      M1.heap_calls = q ∧
      M1.placement_pointer = c + n + 0x2000 + 0x1000 * tcount (k + 1) := by
    by_cases hk : k % 1024 = 0
    · -- the table is absent
      have ht : k / 1024 = tcount k := by unfold tcount; omega
      have ht1 : tcount (k + 1) = tcount k + 1 := by unfold tcount; omega
      have htl : tcount k < 1024 := by unfold tcount; omega
      have habs : load32 M.mem (M.kernel_directory + 4 * (k * 0x1000 / 0x1000 / 1024)) = 0 := by
        rw [hdiv, hdir, ht]
        have := hI.map.tables (tcount k) htl
        simp only [install_places] at this
        rw [this, if_neg (by omega)]
      have hpp : M.placement_pointer / 0x1000 * 0x1000 = c + n + 0x2000 + 0x1000 * tcount k := by
        rw [hcur]
        split
        · rename_i h0; rw [h0]; unfold tcount; omega
        · omega
      have hc1 : 0x1000 ≤ M.placement_pointer := by rw [hcur]; split <;> omega
      rw [get_page_create_preheap ext M _ _ hI.preheap hc1 (by omega) habs]
      rw [hdiv, hdir, hpp, ht]
      have e1 := (create_table_effect M.mem (c + n) (tcount k)
        (c + n + 0x2000 + 0x1000 * tcount k) (c + n + 0x2000 + 0x1000 * tcount k) htl
        (by omega) (by omega) (by omega)).1
      rw [e1]
      have hlt : c + n + 0x2000 + 0x1000 * tcount k + 4 * (k % 1024) < 2 ^ 32 := by omega
      have hlt2 : c + n + 0x2000 + 0x1000 * tcount k + 0x1000 < 2 ^ 32 := by omega
      rw [Nat.mod_eq_of_lt hlt, Nat.mod_eq_of_lt hlt2]
      refine ⟨{ M with
        placement_pointer := c + n + 0x2000 + 0x1000 * tcount k + 0x1000
        kernel_directory := c + n
        mem := table_created M.mem (c + n) (tcount k) (c + n + 0x2000 + 0x1000 * tcount k)
          (c + n + 0x2000 + 0x1000 * tcount k) }, rfl, ?_, hI.preheap, hI.calls, ?_⟩
      · rw [ht1]
        exact mapInv_create (install_places c n) 1024 0 5 M _ k (tcount k)
          (c + n + 0x2000 + 0x1000 * tcount k) hA hI.map htl htl (by omega) rfl hdir.symm
          rfl rfl
      · show c + n + 0x2000 + 0x1000 * tcount k + 0x1000 = _
        rw [ht1]; omega
    · -- the table is present
      have hk0 : k ≠ 0 := by rintro rfl; simp at hk
      have ht : k / 1024 < tcount k := by unfold tcount; omega
      have ht1 : tcount (k + 1) = tcount k := by unfold tcount; omega
      have htl : k / 1024 < 1024 := by omega
      have hpres : load32 M.mem (M.kernel_directory + 4 * (k * 0x1000 / 0x1000 / 1024)) =
          (install_places c n).table (k / 1024) := by
        rw [hdiv, hdir]
        have := hI.map.tables (k / 1024) htl
        simp only [install_places] at this ⊢
        rw [this, if_pos ht]
      have hne : (install_places c n).table (k / 1024) ≠ 0 := hA.table_ne _ htl
      have hte := hA.table_end _ htl
      rw [get_page_table_present ext M _ _ _ _ hpres hne, hdiv]
      refine ⟨M, ?_, ?_, hI.preheap, hI.calls, ?_⟩
      · rw [Nat.mod_eq_of_lt (by omega)]
      · rw [ht1]; exact hI.map
      · rw [hcur, if_neg hk0, ht1]
  obtain ⟨M1, hg, hmap, hph, hcalls, hcur1⟩ := hget
  have hmap2 : MapInv (install_places c n) 0
      ((if (0 : Int) = 1 then 0 else 1) * 4 + (if (0 : Int) = 1 then 1 else 0) * 2 + 1) M1 k
      (tcount (k + 1)) := hmap
  obtain ⟨m2, ha, hI2⟩ := mapInv_alloc (install_places c n) 1024 0 M1 k (tcount (k + 1)) 0 0
    hA hmap2 (by unfold tcount; omega) (by unfold tcount; omega) (Nat.zero_le _) hkB hk20
  have hi : (k * 0x1000 + 0x1000) % 2 ^ 32 = (k + 1) * 0x1000 := by
    have : (k + 1) * 0x1000 < 2 ^ 32 := by
      by_cases hk0 : k = 0
      · subst hk0; norm_num
      · rw [hcur, if_neg hk0] at hcond hcl; omega
    omega
  refine ⟨{ M1 with mem := m2 }, ⟨hI2, hph, hcalls, ?_, ?_⟩, ?_⟩
  · show M1.placement_pointer = _
    rw [hcur1, if_neg (by omega)]
  · right
    rw [hcur] at hcond
    unfold tcount at hcond ⊢
    split at hcond <;> omega
  · intro fuel
    rw [paging_install_loop, Nat.mod_eq_of_lt hcl, if_pos hcond, hg]
    dsimp only
    rw [ha]
    dsimp only
    rw [hi]

/-- The loop of `paging_install` stops where the cursor plus one frame is
reached. -/
theorem install_exit (ext : HeapCalls) (c n q : Nat) (hroom : c + n + 0x403000 < 2 ^ 32)
    (hal : (c + n) % 0x1000 = 0) (M : Machine) (k : Nat) (hI : InstallInv c n q M k)
    (hcond : ¬ k * 0x1000 < M.placement_pointer + 0x1000) (fuel : Nat) :
    paging_install_loop ext (fuel + 1) M (k * 0x1000) = some (.returned (M, k * 0x1000)) := by
  have hcl := (installInv_bound c n q hroom hal M k hI).1
  rw [paging_install_loop, Nat.mod_eq_of_lt hcl, if_neg hcond]

/-- The loop of `paging_install`, when it runs to its end, has kept its
invariant and stops at the first page past the cursor plus one frame. -/
theorem install_loop_spec (ext : HeapCalls) (c n q : Nat)
    (hal : (c + n) % 0x1000 = 0) (hd : 0x1000 ≤ c + n) (hroom : c + n + 0x403000 < 2 ^ 32)
    (hcover : (c + n) / 0x1000 + 3 + tcount (8 * n) ≤ 8 * n) :
    ∀ (fuel : Nat) (M : Machine) (k : Nat) (M2 : Machine) (e : Nat),
      InstallInv c n q M k →
      paging_install_loop ext fuel M (k * 0x1000) = some (.returned (M2, e)) →
      ∃ N, k ≤ N ∧ e = N * 0x1000 ∧ InstallInv c n q M2 N ∧
        M2.placement_pointer + 0x1000 ≤ N * 0x1000 := by
  intro fuel
  induction fuel with
  | zero => intro M k M2 e _ h; simp [paging_install_loop] at h
  | succ fuel ih =>
    intro M k M2 e hI h
    by_cases hcond : k * 0x1000 < M.placement_pointer + 0x1000
    · obtain ⟨M1, hI1, hstep⟩ := install_step ext c n q hal hd hroom hcover M k hI hcond
      rw [hstep fuel] at h
      obtain ⟨N, h1, h2, h3, h4⟩ := ih M1 (k + 1) M2 e hI1 h
      exact ⟨N, by omega, h2, h3, h4⟩
    · rw [install_exit ext c n q hroom hal M k hI hcond fuel] at h
      simp only [Option.some.injEq, Run.returned.injEq, Prod.mk.injEq] at h
      obtain ⟨h1, h2⟩ := h
      subst h1
      exact ⟨k, le_refl _, h2.symm, hI, by omega⟩

/-- The loop of `paging_install` runs to its end on enough fuel: it neither
runs out of frames nor dereferences a null pointer. -/
theorem install_loop_returns (ext : HeapCalls) (c n q : Nat)
    (hal : (c + n) % 0x1000 = 0) (hd : 0x1000 ≤ c + n) (hroom : c + n + 0x403000 < 2 ^ 32)
    (hcover : (c + n) / 0x1000 + 3 + tcount (8 * n) ≤ 8 * n) :
    ∀ (fuel : Nat) (M : Machine) (k : Nat), InstallInv c n q M k → 2 ^ 20 < fuel + k →
      ∃ r, paging_install_loop ext fuel M (k * 0x1000) = some (.returned r) := by
  intro fuel
  induction fuel with
  | zero =>
    intro M k hI hf
    have := (installInv_bound c n q hroom hal M k hI).2
    omega
  | succ fuel ih =>
    intro M k hI hf
    by_cases hcond : k * 0x1000 < M.placement_pointer + 0x1000
    · obtain ⟨M1, hI1, hstep⟩ := install_step ext c n q hal hd hroom hcover M k hI hcond
      rw [hstep fuel]
      exact ih M1 (k + 1) hI1 (by omega)
    · exact ⟨_, install_exit ext c n q hroom hal M k hI hcond fuel⟩

/-- A frame whose byte of the bitmap is 0 is free. -/
theorem frame_used_of_byte_zero (mem : Nat → Nat) (c b : Nat) (h : load8 mem (c + b / 8) = 0) :
    frame_used (bitmap mem c) b = false := by
  rw [frame_used_bitmap_byte, h]; simp

/-- The statements of `paging_install` before its loop, entered before the heap
is installed with the bitmap ending on a frame boundary: the bitmap is at the
cursor, the directory right after it, and the loop invariant holds at page 0. -/
theorem paging_install_setup_spec (ext : HeapCalls) (M : Machine) (memsize : Nat)
    (hpre : M.heap_end = 0)
    (hal : (M.placement_pointer + INDEX_FROM_BIT (memsize / 4)) % 0x1000 = 0)
    (hd : 0x1000 ≤ M.placement_pointer + INDEX_FROM_BIT (memsize / 4))
    (hroom : M.placement_pointer + INDEX_FROM_BIT (memsize / 4) + 0x403000 < 2 ^ 32) :
    ∃ M1, paging_install_setup ext M memsize = some M1 ∧
      InstallInv M.placement_pointer (INDEX_FROM_BIT (memsize / 4)) M.heap_calls M1 0 := by
  have hm : (M.placement_pointer + INDEX_FROM_BIT (memsize / 4)) &&& 0xFFFFF000 =
      M.placement_pointer + INDEX_FROM_BIT (memsize / 4) := by
    rw [and_frame_mask_of_lt _ (by omega)]; omega
  have hne : M.placement_pointer + INDEX_FROM_BIT (memsize / 4) ≠ 0 := by omega
  have hmod1 : (M.placement_pointer + INDEX_FROM_BIT (memsize / 4)) % 4294967296 =
      M.placement_pointer + INDEX_FROM_BIT (memsize / 4) := Nat.mod_eq_of_lt (by omega)
  have hmod2 : (M.placement_pointer + INDEX_FROM_BIT (memsize / 4) + 8196) % 4294967296 =
      M.placement_pointer + INDEX_FROM_BIT (memsize / 4) + 8196 := Nat.mod_eq_of_lt (by omega)
  refine ⟨{ M with
      nframes := memsize / 4
      frames := M.placement_pointer
      kernel_directory := M.placement_pointer + INDEX_FROM_BIT (memsize / 4)
      placement_pointer := M.placement_pointer + INDEX_FROM_BIT (memsize / 4) + 0x2004
      mem := memset (memset M.mem M.placement_pointer 0 (INDEX_FROM_BIT (memsize / 4)))
        (M.placement_pointer + INDEX_FROM_BIT (memsize / 4)) 0 0x2004 }, ?_, ?_⟩
  · simp [paging_install_setup, kmalloc, kvmalloc_p, kmalloc_real, hpre, hmod1, hm, hne, hmod2,
      sizeof_page_directory_t]
  · refine ⟨⟨rfl, rfl, ?_, ?_, ?_, ?_⟩, hpre, rfl, ?_, Or.inl rfl⟩
    · show 8 * INDEX_FROM_BIT (memsize / 4) ≤ 32 * (memsize / 4 / 32)
      unfold INDEX_FROM_BIT; omega
    · intro m hm1
      simp only [install_places]
      rw [load32_memset_in _ _ _ _ (by omega) (by omega) (by omega)]
      simp [tcount]
    · intro b hb
      simp only [install_places] at hb ⊢
      rw [frame_used_of_byte_zero]
      · simp
      · rw [load8_memset_out _ _ _ _ _ (by omega) (by omega) (by omega),
          load8_memset_in _ _ _ _ _ (by omega) (by omega) (by omega)]
    · intro j _ hj
      simp [tcount] at hj
    · simp

/-- A return of `paging_install` entered before the heap is installed with the
bitmap ending on a frame boundary, room below `2 ^ 32`, and a bit in the bytes
reserved for the bitmap for every page the loop maps: `N` pages were mapped,
the cursor plus one frame is the end of page `N - 1`, and every page from 1 on
is mapped read-only to its own frame. -/
theorem paging_install_spec (ext : HeapCalls) (M : Machine) (memsize : Nat) (M2 : Machine)
    (hpre : M.heap_end = 0)
    (hal : (M.placement_pointer + INDEX_FROM_BIT (memsize / 4)) % 0x1000 = 0)
    (hd : 0x1000 ≤ M.placement_pointer + INDEX_FROM_BIT (memsize / 4))
    (hroom : M.placement_pointer + INDEX_FROM_BIT (memsize / 4) + 0x403000 < 2 ^ 32)
    (hcover : (M.placement_pointer + INDEX_FROM_BIT (memsize / 4)) / 0x1000 + 3 +
      tcount (8 * INDEX_FROM_BIT (memsize / 4)) ≤ 8 * INDEX_FROM_BIT (memsize / 4))
    (hret : paging_install ext M memsize = some (.returned M2)) :
    ∃ N, 1 ≤ N ∧ M2.placement_pointer + 0x1000 = N * 0x1000 ∧
      M2.placement_pointer = M.placement_pointer + INDEX_FROM_BIT (memsize / 4) + 0x2000 +
        0x1000 * tcount N ∧
      M2.heap_end = 0 ∧ M2.heap_calls = M.heap_calls ∧
      MapInv (install_places M.placement_pointer (INDEX_FROM_BIT (memsize / 4))) 1 5 M2 N
        (tcount N) := by
  obtain ⟨M1, hs, hI0⟩ := paging_install_setup_spec ext M memsize hpre hal hd hroom
  unfold paging_install at hret
  rw [hs] at hret
  dsimp only at hret
  split at hret
  · simp at hret
  · rename_i r hl
    simp only [Option.some.injEq, Run.returned.injEq] at hret
    have hl2 : paging_install_loop ext loop_fuel M1 (0 * 0x1000) = some (.returned (r.1, r.2)) := by
      rw [Nat.zero_mul]; exact hl
    obtain ⟨N, _, _, hI, hexit⟩ := install_loop_spec ext _ _ _ hal hd hroom hcover loop_fuel M1 0
      r.1 r.2 hI0 hl2
    have hA := apart_install M.placement_pointer (INDEX_FROM_BIT (memsize / 4)) hroom
    have hcur := hI.cursor
    have hN : 1 ≤ N := by
      by_contra h0
      have : N = 0 := by omega
      subst this
      rw [hcur] at hexit
      simp at hexit
    rw [if_neg (by omega)] at hcur
    have htight := hI.tight
    have hdir := hI.map.dir
    simp only [install_places] at hdir
    refine ⟨N, hN, ?_, ?_, ?_, ?_, ?_⟩
    · rw [← hret]
      show r.1.placement_pointer + 0x1000 = _
      rw [hcur] at hexit ⊢
      unfold tcount at hexit htight ⊢
      omega
    · rw [← hret]; exact hcur
    · rw [← hret]; exact hI.preheap
    · rw [← hret]; exact hI.calls
    · rw [← hret]
      have htn : tcount N ≤ 1024 := by
        rw [hcur] at hexit
        unfold tcount at hexit htight ⊢
        omega
      have hfr : ∀ b, b + 3 < 2 ^ 32 →
          (b + 4 ≤ M.placement_pointer + INDEX_FROM_BIT (memsize / 4) + 0x2000 ∨
            M.placement_pointer + INDEX_FROM_BIT (memsize / 4) + 0x2000 + 4 ≤ b) →
          load32 (store32 r.1.mem (r.1.kernel_directory + offsetof_physical_address)
            ((r.1.kernel_directory + offsetof_physical_tables) % 2 ^ 32)) b = load32 r.1.mem b := by
        intro b hb hb2
        rw [hdir]
        unfold offsetof_physical_address
        exact load32_store32_ne _ _ _ _ (by omega) hb (by omega)
      refine ⟨hI.map.frames, hI.map.dir, hI.map.scanned, ?_, ?_, ?_⟩
      · intro m hm1
        show load32 (store32 _ _ _) _ = _
        simp only [install_places]
        rw [hfr _ (by omega) (by omega)]
        have := hI.map.tables m hm1
        simp only [install_places] at this
        exact this
      · intro b hb
        rw [← hI.map.bits b hb]
        apply frame_used_congr
        simp only [install_places] at hb ⊢
        rw [hdir]
        unfold offsetof_physical_address
        exact load8_store32_out _ _ _ _ (by omega) (by omega) (by omega)
      · intro j hj1 hj2
        show load32 (store32 _ _ _) _ = _
        have := hI.map.entries j (Nat.zero_le _) hj2
        simp only [install_places] at this ⊢
        rw [hfr _ (by omega) (by omega)]
        exact this
  · simp at hret
  · simp at hret
  · simp at hret

/-- Under the same conditions `paging_install` returns: the loop neither runs
out of frames nor out of fuel. -/
theorem paging_install_returns (ext : HeapCalls) (M : Machine) (memsize : Nat)
    (hpre : M.heap_end = 0)
    (hal : (M.placement_pointer + INDEX_FROM_BIT (memsize / 4)) % 0x1000 = 0)
    (hd : 0x1000 ≤ M.placement_pointer + INDEX_FROM_BIT (memsize / 4))
    (hroom : M.placement_pointer + INDEX_FROM_BIT (memsize / 4) + 0x403000 < 2 ^ 32)
    (hcover : (M.placement_pointer + INDEX_FROM_BIT (memsize / 4)) / 0x1000 + 3 +
      tcount (8 * INDEX_FROM_BIT (memsize / 4)) ≤ 8 * INDEX_FROM_BIT (memsize / 4)) :
    ∃ M2, paging_install ext M memsize = some (.returned M2) := by
  obtain ⟨M1, hs, hI0⟩ := paging_install_setup_spec ext M memsize hpre hal hd hroom
  obtain ⟨r, hr⟩ := install_loop_returns ext _ _ _ hal hd hroom hcover loop_fuel M1 0 hI0
    (by unfold loop_fuel; norm_num)
  rw [Nat.zero_mul] at hr
  unfold paging_install
  rw [hs]
  dsimp only
  rw [hr]
  exact ⟨_, rfl⟩

/-! ### What `paging_install` maps -/

/-- Claim C13, as stated, fails on the user bit: `paging_install` calls
`alloc_frame(page, 0, 0)`, with `is_kernel` 0.  After `kmalloc_startat(0xFFC);
paging_install(512)` the cursor is at `0x4000` and the page of address `0x1000`,
the entry at `0x3004`, is present and read-only with `user == 1`.  Three more
things go wrong.  In the same run the first page table is placed at `0x3000`,
on the `physical_address` field of the directory, and the store to that field
leaves the page of address 0 not present.  After `kmalloc_startat(0x1000);
paging_install(256)` the directory is placed on the bitmap, because the aligned
`kmalloc_real` rounds the cursor down; `set_frame` changes `tables[0]`, and the
page of address `0x1000` is looked up at `0x3023` and is not present.  After
`kmalloc_startat(0x4FFF); paging_install(128)` the one byte reserved for the
bitmap, at `0x4FFF`, holds 8 bits and the loop maps 9 pages; `set_frame` for
frame 8 sets bit 0 of `tables[0]`, at `0x5000`, which ends as `0x7001`, and the
page of address `0x1000` is looked up at `0x7005` and is not present. -/
theorem paging_install_user_counterexample :
    (Run.value (paging_install quiet_heap (boot_machine 0xFFC) 512)).map
      (fun M => (M.placement_pointer,
        (get_page quiet_heap M 0x1000 0 M.kernel_directory).map Prod.snd,
        load32 M.mem 0x3004, page_present (load32 M.mem 0x3004), page_rw (load32 M.mem 0x3004),
        page_user (load32 M.mem 0x3004))) =
      some (0x4000, some 0x3004, 0x1005, 1, 0, 1) ∧
    (Run.value (paging_install quiet_heap (boot_machine 0xFFC) 512)).map
      (fun M => ((get_page quiet_heap M 0 0 M.kernel_directory).map Prod.snd,
        page_present (load32 M.mem 0x3000))) = some (some 0x3000, 0) ∧
    (Run.value (paging_install quiet_heap (boot_machine 0x1000) 256)).map
      (fun M => (M.placement_pointer,
        (get_page quiet_heap M 0x1000 0 M.kernel_directory).map Prod.snd,
        page_present (load32 M.mem 0x3023))) = some (0x4000, some 0x3023, 0) ∧
    (Run.value (paging_install quiet_heap (boot_machine 0x4FFF) 128)).map
      (fun M => (M.placement_pointer, M.frames, M.kernel_directory, load32 M.mem 0x5000,
        (get_page quiet_heap M 0x1000 0 M.kernel_directory).map Prod.snd,
        page_present (load32 M.mem 0x7005))) =
      some (0x8000, 0x4FFF, 0x5000, 0x7001, some 0x7005, 0) := by
  refine ⟨by decide!, by decide!, by decide!, by decide!⟩

/-- In a state that satisfies the mapping invariant, the lookup of a mapped
page returns its entry, and the entry holds the frame of the page and the flag
bits. -/
theorem mapInv_lookup (ext : HeapCalls) (L : Places) (T lo fl : Nat) (M : Machine) (k t j : Nat)
    (hA : Apart L T) (hI : MapInv L lo fl M k t) (ht : t ≤ T) (ht2 : t ≤ 1024)
    (hlo : lo ≤ j) (hjk : j < k) (hjt : j / 1024 < t) :
    get_page ext M (j * 0x1000) 0 M.kernel_directory =
        some (M, L.table (j / 1024) + 4 * (j % 1024)) ∧
      L.table (j / 1024) + 4 * (j % 1024) ≠ 0 ∧
      load32 M.mem (L.table (j / 1024) + 4 * (j % 1024)) = j * 0x1000 + fl := by
  have hdiv : j * 0x1000 / 0x1000 = j := by omega
  have hne := hA.table_ne _ (by omega : j / 1024 < T)
  have hte := hA.table_end _ (by omega : j / 1024 < T)
  have hpres : load32 M.mem (M.kernel_directory + 4 * (j * 0x1000 / 0x1000 / 1024)) =
      L.table (j / 1024) := by
    rw [hdiv, hI.dir, hI.tables _ (by omega), if_pos hjt]
  refine ⟨?_, by omega, ?_⟩
  · rw [get_page_table_present ext M _ _ _ _ hpres hne, hdiv, Nat.mod_eq_of_lt (by omega)]
  · rw [hI.entries j hlo (by omega), if_pos hjk]

/-- Claim C13, amended: when `paging_install` is called before the heap is
installed, with the bitmap ending on a frame boundary (the cursor plus
`INDEX_FROM_BIT(nframes)` is a multiple of `0x1000`), with room below `2 ^ 32`
for the directory, 1024 page tables and one frame, and with a bit in the
`INDEX_FROM_BIT(nframes)` bytes reserved for the bitmap for every page the loop
maps (`d / 0x1000 + 3` pages, `d` being the address of the directory, and one
for each page table), it returns, and every frame-aligned address from `0x1000`
up to the cursor plus one frame resolves through `get_page(addr, 0,
kernel_directory)` to a page that is present, has `rw == 0` and has
`user == 1`. -/
theorem paging_install_maps (ext : HeapCalls) (M : Machine) (memsize : Nat)
    (hpre : M.heap_end = 0)
    (hal : (M.placement_pointer + INDEX_FROM_BIT (memsize / 4)) % 0x1000 = 0)
    (hroom : M.placement_pointer + INDEX_FROM_BIT (memsize / 4) + 0x403000 < 2 ^ 32)
    (hcover : (M.placement_pointer + INDEX_FROM_BIT (memsize / 4)) / 0x1000 + 3 +
      tcount (8 * INDEX_FROM_BIT (memsize / 4)) ≤ 8 * INDEX_FROM_BIT (memsize / 4)) :
    ∃ M2, paging_install ext M memsize = some (.returned M2) ∧
      ∀ a, a % 0x1000 = 0 → 0x1000 ≤ a → a < M2.placement_pointer + 0x1000 →
        ∃ p, get_page ext M2 a 0 M2.kernel_directory = some (M2, p) ∧ p ≠ 0 ∧
          page_present (load32 M2.mem p) = 1 ∧ page_rw (load32 M2.mem p) = 0 ∧
          page_user (load32 M2.mem p) = 1 := by
  have hd : 0x1000 ≤ M.placement_pointer + INDEX_FROM_BIT (memsize / 4) := by
    unfold tcount at hcover; omega
  obtain ⟨M2, hret⟩ := paging_install_returns ext M memsize hpre hal hd hroom hcover
  obtain ⟨N, hN, hend, hcur, _, _, hI⟩ :=
    paging_install_spec ext M memsize M2 hpre hal hd hroom hcover hret
  have hA := apart_install M.placement_pointer (INDEX_FROM_BIT (memsize / 4)) hroom
  refine ⟨M2, hret, ?_⟩
  intro a ha1 ha2 ha3
  have hj : a / 0x1000 * 0x1000 = a := by omega
  have htn : tcount N ≤ 1024 := by unfold tcount at hcur ⊢; omega
  obtain ⟨h1, h2, h3⟩ := mapInv_lookup ext _ 1024 1 5 M2 N (tcount N) (a / 0x1000) hA hI htn htn
    (by omega) (by omega) (by unfold tcount; omega)
  rw [hj] at h1
  refine ⟨_, h1, h2, ?_⟩
  rw [h3]
  have := page_fields_of_flags (a / 0x1000) 0 1 (by omega) (by omega) (by omega)
  exact ⟨this.1, this.2.1, this.2.2.1⟩

/-- Claim C13, amended, at `kmalloc_startat(0x100000); paging_install(0x100000)`:
the cursor at 1 MiB and 1 GiB of memory. -/
theorem paging_install_maps_witness :
    (boot_machine 0x100000).heap_end = 0 ∧
    ((boot_machine 0x100000).placement_pointer + INDEX_FROM_BIT (0x100000 / 4)) % 0x1000 = 0 ∧
    (boot_machine 0x100000).placement_pointer + INDEX_FROM_BIT (0x100000 / 4) + 0x403000 <
      2 ^ 32 ∧
    ((boot_machine 0x100000).placement_pointer + INDEX_FROM_BIT (0x100000 / 4)) / 0x1000 + 3 +
      tcount (8 * INDEX_FROM_BIT (0x100000 / 4)) ≤ 8 * INDEX_FROM_BIT (0x100000 / 4) ∧
    ∃ M2, paging_install quiet_heap (boot_machine 0x100000) 0x100000 = some (.returned M2) ∧
      ∀ a, a % 0x1000 = 0 → 0x1000 ≤ a → a < M2.placement_pointer + 0x1000 →
        ∃ p, get_page quiet_heap M2 a 0 M2.kernel_directory = some (M2, p) ∧ p ≠ 0 ∧
          page_present (load32 M2.mem p) = 1 ∧ page_rw (load32 M2.mem p) = 0 ∧
          page_user (load32 M2.mem p) = 1 :=
  ⟨rfl, by decide, by decide, by decide,
    paging_install_maps quiet_heap (boot_machine 0x100000) 0x100000 rfl (by decide) (by decide)
      (by decide)⟩

/-! ### The loop of `sbrk` -/

/-- The creating branch of `get_page` once the heap is installed: the table is
the block `valloc` hands out, whose page the lookup for its physical address
must find. -/
theorem get_page_create_postheap (ext : HeapCalls) (M : Machine) (address dir : Nat)
    (hh : M.heap_end ≠ 0)
    (ht : load32 M.mem (dir + 4 * (address / 0x1000 / 1024)) = 0)
    (hl : get_page_lookup M.mem (ext.valloc M.heap_calls sizeof_page_table_t)
      M.kernel_directory ≠ 0) :
    ∃ temp, get_page ext M address 1 dir =
      some ({ M with
          heap_calls := M.heap_calls + 1
          mem := table_created M.mem dir (address / 0x1000 / 1024)
            (ext.valloc M.heap_calls sizeof_page_table_t) temp },
        (load32 (table_created M.mem dir (address / 0x1000 / 1024)
            (ext.valloc M.heap_calls sizeof_page_table_t) temp)
          (dir + 4 * (address / 0x1000 / 1024)) + 4 * (address / 0x1000 % 1024)) % 2 ^ 32) := by
  refine ⟨(page_frame (load32 M.mem (get_page_lookup M.mem
    (ext.valloc M.heap_calls sizeof_page_table_t) M.kernel_directory)) * 0x1000 +
    (ext.valloc M.heap_calls sizeof_page_table_t &&& 0xFFF)) % 2 ^ 32, ?_⟩
  unfold get_page table_created
  simp only [ht]
  simp [kvmalloc_p, kmalloc_real, hh, hl]

/-- The objects lie apart once the heap grows, when the blocks of `valloc` are
as `FreshTables` says. -/
theorem apart_heap (ext : HeapCalls) (c n q tN T : Nat)
    (hroom : c + n + 0x403000 < 2 ^ 32) (htN : tN ≤ 1024)
    (hF : FreshTables ext c n q tN T) : Apart (heap_places ext c n q tN) T := by
  have key : ∀ m, m < T → ¬ m < tN →
      ext.valloc (q + (m - tN)) sizeof_page_table_t ≠ 0 ∧
      ext.valloc (q + (m - tN)) sizeof_page_table_t + 0x1000 ≤ 2 ^ 32 ∧
      (ext.valloc (q + (m - tN)) sizeof_page_table_t + 0x1000 ≤ c ∨
        c + n + 0x2000 + 0x1000 * tN ≤ ext.valloc (q + (m - tN)) sizeof_page_table_t) := by
    intro m hm h
    have e : tN + (m - tN) < T := by omega
    exact ⟨hF.ne _ e, hF.bound _ e, hF.apart _ e⟩
  constructor
  · simp only [heap_places]; omega
  · simp only [heap_places]; omega
  · simp only [heap_places]; omega
  · intro m hm
    simp only [heap_places]
    split
    · omega
    · rename_i h; exact (key m hm h).1
  · intro m hm
    simp only [heap_places]
    split
    · omega
    · rename_i h; exact (key m hm h).2.1
  · intro m hm
    simp only [heap_places]
    split
    · omega
    · rename_i h; have := (key m hm h).2.2; omega
  · intro m hm
    simp only [heap_places]
    split
    · omega
    · rename_i h; have := (key m hm h).2.2; omega
  · intro m m2 hm hm2 hne
    simp only [heap_places]
    split <;> split
    · omega
    · rename_i h1 h2; have := (key m2 hm2 h2).2.2; omega
    · rename_i h1 h2; have := (key m hm h1).2.2; omega
    · rename_i h1 h2
      exact hF.distinct (m - tN) (m2 - tN) (by omega) (by omega) (by omega)

/-- One iteration of the loop of `sbrk`: the page `k` is looked up twice, its
table being created by the first lookup if `k` is the first page of a table,
and mapped to frame `k`; the loop goes on from page `k + 1` with the invariant
kept. -/
theorem grow_step (ext : HeapCalls) (c n q N E : Nat)
    (hroom : c + n + 0x403000 < 2 ^ 32) (hN : 1 ≤ N)
    (hE : E * 0x1000 < 2 ^ 32) (hcover : E ≤ 8 * n)
    (hF : FreshTables ext c n q (tcount N) (tcount E))
    (M : Machine) (k : Nat) (hI : GrowInv ext c n q N (E * 0x1000) M k)
    (hk1 : N ≤ k) (hkE : k < E) :
    ∃ M2, GrowInv ext c n q N (E * 0x1000) M2 (k + 1) ∧
      ∀ fuel, sbrk_loop ext (fuel + 1) M (k * 0x1000) =
        sbrk_loop ext fuel M2 ((k + 1) * 0x1000) := by
  have htN : tcount N ≤ 1024 := by unfold tcount; omega
  have htE : tcount E ≤ 1024 := by unfold tcount; omega
  have hA := apart_heap ext c n q (tcount N) (tcount E) hroom htN hF
  have hcond : k * 0x1000 < E * 0x1000 := by omega
  have hdiv : k * 0x1000 / 0x1000 = k := by omega
  have hdir := hI.map.dir
  have htk : tcount N ≤ tcount k := by unfold tcount; omega
  have htk1 : tcount (k + 1) ≤ tcount E := by unfold tcount; omega
  have hheap : M.heap_end ≠ 0 := by rw [hI.heap]; omega
  -- the first lookup
  have hget : ∃ M1, get_page ext M (k * 0x1000) 1 M.kernel_directory =
      some (M1, (heap_places ext c n q (tcount N)).table (k / 1024) + 4 * (k % 1024)) ∧
      MapInv (heap_places ext c n q (tcount N)) N 7 M1 k (tcount (k + 1)) ∧
      M1.heap_end = E * 0x1000 ∧
      M1.heap_calls = q + (tcount (k + 1) - tcount N) := by
    by_cases hk : k % 1024 = 0
    · -- the table is absent
      have ht : k / 1024 = tcount k := by unfold tcount; omega
      have ht1 : tcount (k + 1) = tcount k + 1 := by unfold tcount; omega
      have htl : tcount k < 1024 := by omega
      have habs : load32 M.mem (M.kernel_directory + 4 * (k * 0x1000 / 0x1000 / 1024)) = 0 := by
        rw [hdiv, hdir, ht, hI.map.tables (tcount k) htl, if_neg (by omega)]
      have hv : ext.valloc M.heap_calls sizeof_page_table_t =
          (heap_places ext c n q (tcount N)).table (tcount k) := by
        simp only [heap_places]
        rw [if_neg (by omega), hI.calls]
      have hmp := hF.mapped (tcount k - tcount N) (by omega)
      have hlook : get_page_lookup M.mem (ext.valloc M.heap_calls sizeof_page_table_t)
          M.kernel_directory ≠ 0 := by
        rw [hI.calls]
        unfold get_page_lookup
        simp only
        have hx := hI.map.tables _ (by omega : ext.valloc (q + (tcount k - tcount N))
          sizeof_page_table_t / 0x1000 / 1024 < 1024)
        rw [if_pos (by omega)] at hx
        rw [hdir, hx]
        have hne := hA.table_ne _ (by omega : ext.valloc (q + (tcount k - tcount N))
          sizeof_page_table_t / 0x1000 / 1024 < tcount E)
        have hte := hA.table_end _ (by omega : ext.valloc (q + (tcount k - tcount N))
          sizeof_page_table_t / 0x1000 / 1024 < tcount E)
        rw [if_pos hne, Nat.mod_eq_of_lt (by omega)]
        omega
      obtain ⟨temp, hg⟩ := get_page_create_postheap ext M (k * 0x1000) M.kernel_directory
        hheap habs hlook
      rw [hg, hdiv, hdir, ht, hv]
      have hte := hA.table_end _ (by omega : tcount k < tcount E)
      have htd := hA.table_dir _ (by omega : tcount k < tcount E)
      have hde := hA.dir_end
      have e1 := (create_table_effect M.mem (heap_places ext c n q (tcount N)).dir (tcount k)
        ((heap_places ext c n q (tcount N)).table (tcount k)) temp htl hde hte htd).1
      rw [e1, Nat.mod_eq_of_lt (by omega)]
      refine ⟨{ M with
        heap_calls := M.heap_calls + 1
        kernel_directory := (heap_places ext c n q (tcount N)).dir
        mem := table_created M.mem (heap_places ext c n q (tcount N)).dir (tcount k)
          ((heap_places ext c n q (tcount N)).table (tcount k)) temp }, rfl, ?_, hI.heap, ?_⟩
      · rw [ht1]
        exact mapInv_create _ (tcount E) N 7 M _ k (tcount k) temp hA hI.map (by omega) htl
          (by omega) rfl hdir.symm rfl rfl
      · show M.heap_calls + 1 = _
        rw [hI.calls, ht1]; omega
    · -- the table is present
      have ht : k / 1024 < tcount k := by unfold tcount; omega
      have ht1 : tcount (k + 1) = tcount k := by unfold tcount; omega
      have htl : k / 1024 < 1024 := by omega
      have hpres : load32 M.mem (M.kernel_directory + 4 * (k * 0x1000 / 0x1000 / 1024)) =
          (heap_places ext c n q (tcount N)).table (k / 1024) := by
        rw [hdiv, hdir, hI.map.tables (k / 1024) htl, if_pos ht]
      have hne := hA.table_ne _ (by omega : k / 1024 < tcount E)
      have hte := hA.table_end _ (by omega : k / 1024 < tcount E)
      rw [get_page_table_present ext M _ _ _ _ hpres hne, hdiv]
      refine ⟨M, ?_, ?_, hI.heap, ?_⟩
      · rw [Nat.mod_eq_of_lt (by omega)]
      · rw [ht1]; exact hI.map
      · rw [hI.calls, ht1]
  obtain ⟨M1, hg, hmap, hhe, hcalls⟩ := hget
  -- the second lookup finds the table
  have ht : k / 1024 < tcount (k + 1) := by unfold tcount; omega
  have hpres : load32 M1.mem (M1.kernel_directory + 4 * (k * 0x1000 / 0x1000 / 1024)) =
      (heap_places ext c n q (tcount N)).table (k / 1024) := by
    rw [hdiv, hmap.dir, hmap.tables (k / 1024) (by omega), if_pos ht]
  have hne := hA.table_ne _ (by omega : k / 1024 < tcount E)
  have hte := hA.table_end _ (by omega : k / 1024 < tcount E)
  have hg2 := get_page_table_present ext M1 (k * 0x1000) 1 M1.kernel_directory _ hpres hne
  rw [hdiv, Nat.mod_eq_of_lt (by omega)] at hg2
  have hmap2 : MapInv (heap_places ext c n q (tcount N)) N
      ((if (0 : Int) = 1 then 0 else 1) * 4 + (if (1 : Int) = 1 then 1 else 0) * 2 + 1) M1 k
      (tcount (k + 1)) := hmap
  obtain ⟨m2, ha, hI2⟩ := mapInv_alloc _ (tcount E) N M1 k (tcount (k + 1)) 0 1
    hA hmap2 htk1 ht hk1 (show k < 8 * n by omega) (by omega)
  have hi : (k * 0x1000 + 0x1000) % 2 ^ 32 = (k + 1) * 0x1000 := by omega
  refine ⟨{ M1 with mem := m2 }, ⟨hI2, hhe, hcalls⟩, ?_⟩
  intro fuel
  rw [sbrk_loop, hI.heap, if_pos hcond, hg]
  dsimp only
  rw [hg2]
  dsimp only
  rw [ha]
  dsimp only
  rw [hi]

/-- The loop of `sbrk` stops at `heap_end`. -/
theorem grow_exit (ext : HeapCalls) (c n q N E : Nat) (M : Machine) (k : Nat)
    (hI : GrowInv ext c n q N (E * 0x1000) M k) (hk : E ≤ k) (fuel : Nat) :
    sbrk_loop ext (fuel + 1) M (k * 0x1000) = some (.returned M) := by
  rw [sbrk_loop, hI.heap, if_neg (by omega)]

/-- The loop of `sbrk`, when it runs to its end, has kept its invariant and
has mapped every page up to `heap_end`. -/
theorem grow_loop_spec (ext : HeapCalls) (c n q N E : Nat)
    (hroom : c + n + 0x403000 < 2 ^ 32) (hN : 1 ≤ N) (hNE : N ≤ E)
    (hE : E * 0x1000 < 2 ^ 32) (hcover : E ≤ 8 * n)
    (hF : FreshTables ext c n q (tcount N) (tcount E)) :
    ∀ (fuel : Nat) (M : Machine) (k : Nat) (M2 : Machine),
      GrowInv ext c n q N (E * 0x1000) M k → N ≤ k → k ≤ E →
      sbrk_loop ext fuel M (k * 0x1000) = some (.returned M2) →
      GrowInv ext c n q N (E * 0x1000) M2 E := by
  intro fuel
  induction fuel with
  | zero => intro M k M2 _ _ _ h; simp [sbrk_loop] at h
  | succ fuel ih =>
    intro M k M2 hI hk1 hk2 h
    by_cases hkE : k < E
    · obtain ⟨M1, hI1, hstep⟩ := grow_step ext c n q N E hroom hN hE hcover hF M k hI hk1 hkE
      rw [hstep fuel] at h
      exact ih M1 (k + 1) M2 hI1 (by omega) (by omega) h
    · rw [grow_exit ext c n q N E M k hI (by omega) fuel] at h
      simp only [Option.some.injEq, Run.returned.injEq] at h
      subst h
      have : k = E := by omega
      subst this
      exact hI

/-- The loop of `sbrk` runs to its end on enough fuel: it neither runs out of
frames nor dereferences a null pointer. -/
theorem grow_loop_returns (ext : HeapCalls) (c n q N E : Nat)
    (hroom : c + n + 0x403000 < 2 ^ 32) (hN : 1 ≤ N)
    (hE : E * 0x1000 < 2 ^ 32) (hcover : E ≤ 8 * n)
    (hF : FreshTables ext c n q (tcount N) (tcount E)) :
    ∀ (fuel : Nat) (M : Machine) (k : Nat),
      GrowInv ext c n q N (E * 0x1000) M k → N ≤ k → k ≤ E → E < fuel + k →
      ∃ M2, sbrk_loop ext fuel M (k * 0x1000) = some (.returned M2) := by
  intro fuel
  induction fuel with
  | zero =>
    intro M k _ _ hk2 hf
    omega
  | succ fuel ih =>
    intro M k hI hk1 hk2 hf
    by_cases hkE : k < E
    · obtain ⟨M1, hI1, hstep⟩ := grow_step ext c n q N E hroom hN hE hcover hF M k hI hk1 hkE
      rw [hstep fuel]
      exact ih M1 (k + 1) hI1 (by omega) (by omega) (by omega)
    · exact ⟨M, grow_exit ext c n q N E M k hI (by omega) fuel⟩

/-! ### What `sbrk` maps -/

/-- A return of `sbrk` returns the old `heap_end`, after a return of its loop
run with `heap_end` advanced. -/
theorem sbrk_returned (ext : HeapCalls) (M : Machine) (increment start : Nat) (M2 : Machine)
    (hret : sbrk ext M increment = some (.returned (M2, start))) :
    start = M.heap_end ∧
    sbrk_loop ext loop_fuel { M with heap_end := (M.heap_end + increment) % 2 ^ 32 } M.heap_end =
      some (.returned M2) := by
  unfold sbrk at hret
  split at hret
  · simp at hret
  · split at hret
    · simp at hret
    · dsimp only at hret
      split at hret
      · simp at hret
      · rename_i M3 hl
        simp only [Option.some.injEq, Run.returned.injEq, Prod.mk.injEq] at hret
        rw [← hret.1]
        exact ⟨hret.2.symm, hl⟩
      · simp at hret
      · simp at hret
      · simp at hret

/-- The state that `paging_install` and `heap_install` leave, and the state in
which `sbrk` enters its loop to grow the heap by `n` frames: the heap starts at
the page `N` that follows the pages `paging_install` mapped, and the loop
invariant holds at page `N`. -/
theorem booted_spec (ext : HeapCalls) (M : Machine) (memsize : Nat) (M1 : Machine) (n : Nat)
    (hpre : M.heap_end = 0)
    (hal : (M.placement_pointer + INDEX_FROM_BIT (memsize / 4)) % 0x1000 = 0)
    (hd : 0x1000 ≤ M.placement_pointer + INDEX_FROM_BIT (memsize / 4))
    (hroom : M.placement_pointer + INDEX_FROM_BIT (memsize / 4) + 0x403000 < 2 ^ 32)
    (hcover : (M.placement_pointer + INDEX_FROM_BIT (memsize / 4)) / 0x1000 + 3 +
      tcount (8 * INDEX_FROM_BIT (memsize / 4)) ≤ 8 * INDEX_FROM_BIT (memsize / 4))
    (hinst : paging_install ext M memsize = some (.returned M1)) :
    ∃ N, 1 ≤ N ∧ (heap_install M1).heap_end = N * 0x1000 ∧ N * 0x1000 < 2 ^ 32 ∧
      N * 0x1000 = M.placement_pointer + INDEX_FROM_BIT (memsize / 4) + 0x3000 +
        0x1000 * tcount N ∧
      MapInv (install_places M.placement_pointer (INDEX_FROM_BIT (memsize / 4))) 1 5 M1 N
        (tcount N) ∧
      GrowInv ext M.placement_pointer (INDEX_FROM_BIT (memsize / 4)) M.heap_calls N
        ((N + n) * 0x1000) { heap_install M1 with heap_end := (N + n) * 0x1000 } N := by
  obtain ⟨N, hN, hend, hcur, _, hcalls, hI⟩ :=
    paging_install_spec ext M memsize M1 hpre hal hd hroom hcover hinst
  have hlt : N * 0x1000 < 2 ^ 32 := by unfold tcount at hcur; omega
  have hhe : (heap_install M1).heap_end = N * 0x1000 := by
    unfold heap_install
    show ((M1.placement_pointer + 0x1000) % 2 ^ 32) &&& 0xFFFFF000 = _
    rw [hend, and_frame_mask_of_lt _ (Nat.mod_lt _ (by norm_num))]
    omega
  refine ⟨N, hN, hhe, hlt, by omega, hI, ⟨hI.frames, hI.dir, hI.scanned, ?_, hI.bits, ?_⟩,
    rfl, ?_⟩
  · intro m hm
    have := hI.tables m hm
    simp only [install_places, heap_places] at this ⊢
    show load32 M1.mem _ = _
    rw [this]
    split <;> rfl
  · intro j hj1 hj2
    have := hI.entries j (by omega) hj2
    have hjt : j / 1024 < tcount N := by omega
    simp only [install_places, heap_places] at this ⊢
    show load32 M1.mem _ = _
    rw [if_pos hjt, this, if_neg (by omega), if_neg (by omega)]
  · show M1.heap_calls = _
    rw [hcalls]; omega

/-- Under the conditions of claim C14 `sbrk` returns: its loop neither runs out
of frames, nor dereferences a null pointer, nor runs out of fuel. -/
theorem sbrk_returns (ext : HeapCalls) (M : Machine) (memsize : Nat) (M1 : Machine) (n : Nat)
    (hpre : M.heap_end = 0)
    (hal : (M.placement_pointer + INDEX_FROM_BIT (memsize / 4)) % 0x1000 = 0)
    (hd : 0x1000 ≤ M.placement_pointer + INDEX_FROM_BIT (memsize / 4))
    (hroom : M.placement_pointer + INDEX_FROM_BIT (memsize / 4) + 0x403000 < 2 ^ 32)
    (hcover : (M.placement_pointer + INDEX_FROM_BIT (memsize / 4)) / 0x1000 + 3 +
      tcount (8 * INDEX_FROM_BIT (memsize / 4)) ≤ 8 * INDEX_FROM_BIT (memsize / 4))
    (hinst : paging_install ext M memsize = some (.returned M1))
    (hfit : (heap_install M1).heap_end + n * 0x1000 < 2 ^ 32)
    (hbits : (heap_install M1).heap_end / 0x1000 + n ≤ 8 * INDEX_FROM_BIT (memsize / 4))
    (hfresh : FreshTables ext M.placement_pointer (INDEX_FROM_BIT (memsize / 4)) M.heap_calls
      (tcount ((heap_install M1).heap_end / 0x1000))
      (tcount ((heap_install M1).heap_end / 0x1000 + n))) :
    ∃ K2, sbrk ext (heap_install M1) (n * 0x1000) =
      some (.returned (K2, (heap_install M1).heap_end)) := by
  obtain ⟨N, hN, hhe, hlt, _, _, hstart⟩ :=
    booted_spec ext M memsize M1 n hpre hal hd hroom hcover hinst
  rw [hhe] at hfit hbits hfresh
  have hdivN : N * 0x1000 / 0x1000 = N := by omega
  rw [hdivN] at hbits hfresh
  obtain ⟨K2, hK2⟩ := grow_loop_returns ext _ _ _ N (N + n) hroom hN (by omega) hbits hfresh
    loop_fuel _ N hstart (le_refl _) (by omega) (by unfold loop_fuel; omega)
  refine ⟨K2, ?_⟩
  unfold sbrk
  rw [if_neg (by omega), hhe, if_neg (by omega)]
  dsimp only
  rw [show (N * 0x1000 + n * 0x1000) % 2 ^ 32 = (N + n) * 0x1000 by omega, hK2]

/-- Claim C14, amended: in the state reached by `paging_install` followed by
`heap_install`, `paging_install` having been called as in claim C13 (before the
heap is installed, the bitmap ending on a frame boundary, room below `2 ^ 32`,
a bit in the bytes reserved for the bitmap for every page it maps), for every
`n` such that the heap grown by `n` frames ends below `2 ^ 32` and has a bit in
the bytes reserved for the bitmap for each of its pages, and the blocks
`valloc` hands out for new page tables are as `FreshTables` says:
`sbrk(n * 4096)` returns `start`, the old `heap_end`, every frame-aligned
address in `[start, start + n * 4096)` resolves through `get_page(addr, 0,
kernel_directory)` to a page that is present, writable and user-accessible
(`rw == 1`, `user == 1`), the frames backing these `n` pages are pairwise
distinct, and each of them was free in the bitmap before the call. -/
theorem sbrk_maps (ext : HeapCalls) (M : Machine) (memsize : Nat) (M1 : Machine) (n : Nat)
    (hpre : M.heap_end = 0)
    (hal : (M.placement_pointer + INDEX_FROM_BIT (memsize / 4)) % 0x1000 = 0)
    (hroom : M.placement_pointer + INDEX_FROM_BIT (memsize / 4) + 0x403000 < 2 ^ 32)
    (hcover : (M.placement_pointer + INDEX_FROM_BIT (memsize / 4)) / 0x1000 + 3 +
      tcount (8 * INDEX_FROM_BIT (memsize / 4)) ≤ 8 * INDEX_FROM_BIT (memsize / 4))
    (hinst : paging_install ext M memsize = some (.returned M1))
    (hfit : (heap_install M1).heap_end + n * 0x1000 < 2 ^ 32)
    (hbits : (heap_install M1).heap_end / 0x1000 + n ≤ 8 * INDEX_FROM_BIT (memsize / 4))
    (hfresh : FreshTables ext M.placement_pointer (INDEX_FROM_BIT (memsize / 4)) M.heap_calls
      (tcount ((heap_install M1).heap_end / 0x1000))
      (tcount ((heap_install M1).heap_end / 0x1000 + n))) :
    ∃ K2, sbrk ext (heap_install M1) (n * 0x1000) =
        some (.returned (K2, (heap_install M1).heap_end)) ∧
      (∀ i, i < n → ∃ p,
        get_page ext K2 ((heap_install M1).heap_end + i * 0x1000) 0 K2.kernel_directory =
          some (K2, p) ∧ p ≠ 0 ∧
        page_present (load32 K2.mem p) = 1 ∧ page_rw (load32 K2.mem p) = 1 ∧
        page_user (load32 K2.mem p) = 1 ∧
        frame_used (bitmap (heap_install M1).mem (heap_install M1).frames)
          (page_frame (load32 K2.mem p)) = false) ∧
      (∀ i i2 p p2, i < n → i2 < n → i ≠ i2 →
        get_page ext K2 ((heap_install M1).heap_end + i * 0x1000) 0 K2.kernel_directory =
          some (K2, p) →
        get_page ext K2 ((heap_install M1).heap_end + i2 * 0x1000) 0 K2.kernel_directory =
          some (K2, p2) →
        page_frame (load32 K2.mem p) ≠ page_frame (load32 K2.mem p2)) := by
  have hd : 0x1000 ≤ M.placement_pointer + INDEX_FROM_BIT (memsize / 4) := by
    unfold tcount at hcover; omega
  obtain ⟨K2, hret⟩ := sbrk_returns ext M memsize M1 n hpre hal hd hroom hcover hinst hfit hbits
    hfresh
  refine ⟨K2, hret, ?_⟩
  obtain ⟨N, hN, hhe, hlt, _, hI, hstart⟩ :=
    booted_spec ext M memsize M1 n hpre hal hd hroom hcover hinst
  rw [hhe] at hfit hbits hfresh
  have hdivN : N * 0x1000 / 0x1000 = N := by omega
  rw [hdivN] at hbits hfresh
  obtain ⟨_, hl⟩ := sbrk_returned ext _ _ _ _ hret
  rw [hhe] at hl ⊢
  rw [show (N * 0x1000 + n * 0x1000) % 2 ^ 32 = (N + n) * 0x1000 by omega] at hl
  have htN : tcount N ≤ 1024 := by unfold tcount; omega
  have htE : tcount (N + n) ≤ 1024 := by unfold tcount; omega
  have hA := apart_heap ext _ _ _ (tcount N) (tcount (N + n)) hroom htN hfresh
  have hfin := grow_loop_spec ext _ _ _ N (N + n) hroom hN (by omega) (by omega) hbits hfresh
    loop_fuel _ N K2 hstart (le_refl _) (by omega) hl
  have look : ∀ i, i < n →
      get_page ext K2 (N * 0x1000 + i * 0x1000) 0 K2.kernel_directory =
        some (K2, (heap_places ext M.placement_pointer (INDEX_FROM_BIT (memsize / 4))
          M.heap_calls (tcount N)).table ((N + i) / 1024) + 4 * ((N + i) % 1024)) ∧
      (heap_places ext M.placement_pointer (INDEX_FROM_BIT (memsize / 4))
          M.heap_calls (tcount N)).table ((N + i) / 1024) + 4 * ((N + i) % 1024) ≠ 0 ∧
      load32 K2.mem ((heap_places ext M.placement_pointer (INDEX_FROM_BIT (memsize / 4))
          M.heap_calls (tcount N)).table ((N + i) / 1024) + 4 * ((N + i) % 1024)) =
        (N + i) * 0x1000 + 7 := by
    intro i hi
    have := mapInv_lookup ext _ (tcount (N + n)) N 7 K2 (N + n) (tcount (N + n)) (N + i) hA
      hfin.map (le_refl _) htE (by omega) (by omega) (by unfold tcount; omega)
    obtain ⟨t1, t2, t3⟩ := this
    rw [show (N + i) * 0x1000 = N * 0x1000 + i * 0x1000 by omega] at t1
    exact ⟨t1, t2, t3⟩
  have fields : ∀ i, i < n → page_present ((N + i) * 0x1000 + 7) = 1 ∧
      page_rw ((N + i) * 0x1000 + 7) = 1 ∧ page_user ((N + i) * 0x1000 + 7) = 1 ∧
      page_frame ((N + i) * 0x1000 + 7) = N + i := by
    intro i hi
    exact page_fields_of_flags (N + i) 1 1 (by omega) (by omega) (by omega)
  refine ⟨?_, ?_⟩
  · intro i hi
    obtain ⟨h1, h2, h3⟩ := look i hi
    obtain ⟨f1, f2, f3, f4⟩ := fields i hi
    refine ⟨_, h1, h2, ?_⟩
    rw [h3]
    refine ⟨f1, f2, f3, ?_⟩
    rw [f4]
    have := hI.bits (N + i) (by simp only [install_places]; omega)
    simp only [install_places] at this
    have hfr : (heap_install M1).frames = M.placement_pointer := hI.frames
    rw [hfr]
    show frame_used (bitmap M1.mem _) _ = false
    rw [this]
    simp
  · intro i i2 p p2 hi hi2 hne hp hp2
    obtain ⟨h1, _, h3⟩ := look i hi
    obtain ⟨g1, _, g3⟩ := look i2 hi2
    rw [h1] at hp
    rw [g1] at hp2
    simp only [Option.some.injEq, Prod.mk.injEq, true_and] at hp hp2
    rw [← hp, ← hp2, h3, g3, (fields i hi).2.2.2, (fields i2 hi2).2.2.2]
    omega

/-- Claim C14, as stated, fails on the user bit: `sbrk` calls
`alloc_frame(page, 0, 1)`, with `is_kernel` 0.  After `kmalloc_startat(0xFFC);
paging_install(512); heap_install()`, `sbrk(0x1000)` returns `0x5000` and the
page of address `0x5000`, the entry at `0x3014`, is present and writable with
`user == 1`.  After `kmalloc_startat(0x1000); paging_install(256);
heap_install()`, where the directory lies on the bitmap because the aligned
`kmalloc_real` rounds the cursor down, `sbrk(0x1000)` returns `0x5000` and the
page of address `0x5000` is looked up at `0x3053` and is not present.  After
`kmalloc_startat(0x3FFF); paging_install(128); heap_install()` the one byte
reserved for the bitmap holds the bits of the 8 pages `paging_install` mapped;
`sbrk(0x1000)` returns `0x8000`, `set_frame` for frame 8 sets bit 0 of
`tables[0]`, at `0x4000`, which becomes `0x6001`, and the page of address
`0x8000` is looked up at `0x6021` and is not present. -/
theorem sbrk_user_counterexample :
    ((Run.value (paging_install quiet_heap (boot_machine 0xFFC) 512)).bind
      (fun M => Run.value (sbrk quiet_heap (heap_install M) 0x1000))).map
      (fun r => (r.2, (get_page quiet_heap r.1 0x5000 0 r.1.kernel_directory).map Prod.snd,
        load32 r.1.mem 0x3014, page_present (load32 r.1.mem 0x3014),
        page_rw (load32 r.1.mem 0x3014), page_user (load32 r.1.mem 0x3014))) =
      some (0x5000, some 0x3014, 0x5007, 1, 1, 1) ∧
    ((Run.value (paging_install quiet_heap (boot_machine 0x1000) 256)).bind
      (fun M => Run.value (sbrk quiet_heap (heap_install M) 0x1000))).map
      (fun r => (r.2, (get_page quiet_heap r.1 0x5000 0 r.1.kernel_directory).map Prod.snd,
        page_present (load32 r.1.mem 0x3053))) = some (0x5000, some 0x3053, 0) ∧
    ((Run.value (paging_install quiet_heap (boot_machine 0x3FFF) 128)).bind
      (fun M => Run.value (sbrk quiet_heap (heap_install M) 0x1000))).map
      (fun r => (r.2, load32 r.1.mem 0x4000,
        (get_page quiet_heap r.1 0x8000 0 r.1.kernel_directory).map Prod.snd,
        page_present (load32 r.1.mem 0x6021))) = some (0x8000, 0x6001, some 0x6021, 0) := by
  refine ⟨by decide!, by decide!, by decide!⟩

/-- The blocks of `block_heap` are as `FreshTables` says for the second page
table, with the cursor at 1 MiB, 8192 bytes of bitmap and one page table in
place. -/
theorem freshTables_example : FreshTables block_heap 0x100000 0x2000 0 1 2 := by
  constructor <;> intros <;> simp only [sizeof_page_table_t, block_heap] <;> omega

/-- The call `paging_install(0x100000)` with the cursor at 1 MiB returns
`installed_machine`. -/
theorem installed_machine_spec :
    paging_install block_heap (boot_machine 0x100000) 0x100000 =
      some (.returned installed_machine) := by
  obtain ⟨M2, h⟩ := paging_install_returns block_heap (boot_machine 0x100000) 0x100000 rfl
    (by decide) (by decide) (by decide) (by decide)
  unfold installed_machine
  rw [h]
  rfl

/-- After `kmalloc_startat(0x100000); paging_install(0x100000); heap_install()`
the heap starts at `0x106000`. -/
theorem installed_machine_heap_end : (heap_install installed_machine).heap_end = 0x106000 := by
  obtain ⟨N, _, h1, _, h3, _⟩ := booted_spec block_heap (boot_machine 0x100000) 0x100000
    installed_machine 0 rfl (by decide) (by decide) (by decide) (by decide)
    installed_machine_spec
  have e : (boot_machine 0x100000).placement_pointer + INDEX_FROM_BIT (0x100000 / 4) =
      0x102000 := by decide
  rw [e] at h3
  rw [h1]
  unfold tcount at h3
  omega

/-- Claim C14, amended, at `kmalloc_startat(0x100000); paging_install(0x100000);
heap_install(); sbrk(1024 * 0x1000)` with the heap allocator `block_heap`: the
heap starts at `0x106000` and grows by 4 MiB, across the address `0x400000`,
whose page table `get_page` creates in the block that `valloc` hands out. -/
theorem sbrk_maps_witness :
    (boot_machine 0x100000).heap_end = 0 ∧
    ((boot_machine 0x100000).placement_pointer + INDEX_FROM_BIT (0x100000 / 4)) % 0x1000 = 0 ∧
    (boot_machine 0x100000).placement_pointer + INDEX_FROM_BIT (0x100000 / 4) + 0x403000 <
      2 ^ 32 ∧
    ((boot_machine 0x100000).placement_pointer + INDEX_FROM_BIT (0x100000 / 4)) / 0x1000 + 3 +
      tcount (8 * INDEX_FROM_BIT (0x100000 / 4)) ≤ 8 * INDEX_FROM_BIT (0x100000 / 4) ∧
    paging_install block_heap (boot_machine 0x100000) 0x100000 =
      some (.returned installed_machine) ∧
    (heap_install installed_machine).heap_end + 1024 * 0x1000 < 2 ^ 32 ∧
    (heap_install installed_machine).heap_end / 0x1000 + 1024 ≤
      8 * INDEX_FROM_BIT (0x100000 / 4) ∧
    FreshTables block_heap (boot_machine 0x100000).placement_pointer
      (INDEX_FROM_BIT (0x100000 / 4)) (boot_machine 0x100000).heap_calls
      (tcount ((heap_install installed_machine).heap_end / 0x1000))
      (tcount ((heap_install installed_machine).heap_end / 0x1000 + 1024)) ∧
    ∃ K2, sbrk block_heap (heap_install installed_machine) (1024 * 0x1000) =
        some (.returned (K2, (heap_install installed_machine).heap_end)) ∧
      (∀ i, i < 1024 → ∃ p,
        get_page block_heap K2 ((heap_install installed_machine).heap_end + i * 0x1000) 0
          K2.kernel_directory = some (K2, p) ∧ p ≠ 0 ∧
        page_present (load32 K2.mem p) = 1 ∧ page_rw (load32 K2.mem p) = 1 ∧
        page_user (load32 K2.mem p) = 1 ∧
        frame_used (bitmap (heap_install installed_machine).mem
          (heap_install installed_machine).frames) (page_frame (load32 K2.mem p)) = false) ∧
      (∀ i i2 p p2, i < 1024 → i2 < 1024 → i ≠ i2 →
        get_page block_heap K2 ((heap_install installed_machine).heap_end + i * 0x1000) 0
          K2.kernel_directory = some (K2, p) →
        get_page block_heap K2 ((heap_install installed_machine).heap_end + i2 * 0x1000) 0
          K2.kernel_directory = some (K2, p2) →
        page_frame (load32 K2.mem p) ≠ page_frame (load32 K2.mem p2)) :=
  have hfit : (heap_install installed_machine).heap_end + 1024 * 0x1000 < 2 ^ 32 := by
    rw [installed_machine_heap_end]; decide
  have hbits : (heap_install installed_machine).heap_end / 0x1000 + 1024 ≤
      8 * INDEX_FROM_BIT (0x100000 / 4) := by
    rw [installed_machine_heap_end]; decide
  have hfresh : FreshTables block_heap (boot_machine 0x100000).placement_pointer
      (INDEX_FROM_BIT (0x100000 / 4)) (boot_machine 0x100000).heap_calls
      (tcount ((heap_install installed_machine).heap_end / 0x1000))
      (tcount ((heap_install installed_machine).heap_end / 0x1000 + 1024)) := by
    rw [installed_machine_heap_end]
    exact freshTables_example
  ⟨rfl, by decide, by decide, by decide, installed_machine_spec, hfit, hbits, hfresh,
    sbrk_maps block_heap (boot_machine 0x100000) 0x100000 installed_machine 1024 rfl
      (by decide) (by decide) (by decide) installed_machine_spec hfit hbits hfresh⟩

/-! ### The identity mapping -/

/-- Claim C19 at `kmalloc_startat(0x1000); paging_install(256)`: the loop is
entered with `frames` and `kernel_directory` both `0x1000`, 64 frames, the
words of the bitmap and the directory all 0, and `first_frame()` returning 0.
It maps 5 pages without running out of frames.  Each `set_frame` sets a bit of
`tables[0]`, which ends as `0x301F`; afterwards `first_frame()` returns 5, the
address `0x1000` is looked up at `0x3023` and holds frame 0, not 1, and the
address 0 holds frame 4. -/
theorem install_loop_not_identity :
    ((paging_install_setup quiet_heap (boot_machine 0x1000) 256).map
      (fun M => (M.frames, M.kernel_directory, M.nframes, load32 M.mem 0x1000,
        load32 M.mem 0x1004, first_frame M))) = some (0x1000, 0x1000, 64, 0, 0, 0) ∧
    ((paging_install_setup quiet_heap (boot_machine 0x1000) 256).bind
      (fun M => Run.value (paging_install_loop quiet_heap loop_fuel M 0))).map
      (fun r => (r.2, load32 r.1.mem 0x1000, first_frame r.1)) = some (0x5000, 0x301F, 5) ∧
    ((paging_install_setup quiet_heap (boot_machine 0x1000) 256).bind
      (fun M => Run.value (paging_install_loop quiet_heap loop_fuel M 0))).map
      (fun r => ((get_page quiet_heap r.1 0x1000 0 r.1.kernel_directory).map Prod.snd,
        page_frame (load32 r.1.mem 0x3023))) = some (some 0x3023, 0) ∧
    ((paging_install_setup quiet_heap (boot_machine 0x1000) 256).bind
      (fun M => Run.value (paging_install_loop quiet_heap loop_fuel M 0))).map
      (fun r => ((get_page quiet_heap r.1 0 0 r.1.kernel_directory).map Prod.snd,
        page_frame (load32 r.1.mem 0x301F))) = some (some 0x301F, 4) := by
  refine ⟨by decide!, by decide!, by decide!, by decide!⟩

/-- The loop of `paging_install`, entered as `paging_install` enters it with
the bitmap ending on a frame boundary and a bit in the bytes reserved for the
bitmap for every page mapped, runs to its end and builds the identity mapping:
having mapped `N` pages, it has covered every address up to the cursor plus one
frame, page `j` holds frame `j` for every `j < N`, and `first_frame()` returns
`N` when frame `N` has its bit in the bytes reserved for the bitmap. -/
theorem install_loop_identity_apart (ext : HeapCalls) (M : Machine) (memsize : Nat)
    (hpre : M.heap_end = 0)
    (hal : (M.placement_pointer + INDEX_FROM_BIT (memsize / 4)) % 0x1000 = 0)
    (hroom : M.placement_pointer + INDEX_FROM_BIT (memsize / 4) + 0x403000 < 2 ^ 32)
    (hcover : (M.placement_pointer + INDEX_FROM_BIT (memsize / 4)) / 0x1000 + 3 +
      tcount (8 * INDEX_FROM_BIT (memsize / 4)) ≤ 8 * INDEX_FROM_BIT (memsize / 4)) :
    ∃ M1 M2 N, paging_install_setup ext M memsize = some M1 ∧
      paging_install_loop ext loop_fuel M1 0 = some (.returned (M2, N * 0x1000)) ∧
      M2.placement_pointer + 0x1000 ≤ N * 0x1000 ∧
      (∀ j, j < N → ∃ p, get_page ext M2 (j * 0x1000) 0 M2.kernel_directory = some (M2, p) ∧
        page_frame (load32 M2.mem p) = j) ∧
      (N < 8 * INDEX_FROM_BIT (memsize / 4) → first_frame M2 = N) := by
  have hd : 0x1000 ≤ M.placement_pointer + INDEX_FROM_BIT (memsize / 4) := by
    unfold tcount at hcover; omega
  obtain ⟨M1, hs, hI0⟩ := paging_install_setup_spec ext M memsize hpre hal hd hroom
  obtain ⟨r, hl2⟩ := install_loop_returns ext _ _ _ hal hd hroom hcover loop_fuel M1 0 hI0
    (by unfold loop_fuel; norm_num)
  obtain ⟨N, _, he, hI, hexit⟩ := install_loop_spec ext _ _ _ hal hd hroom hcover loop_fuel M1 0
    r.1 r.2 hI0 hl2
  have hA := apart_install M.placement_pointer (INDEX_FROM_BIT (memsize / 4)) hroom
  have hcur := hI.cursor
  have htight := hI.tight
  have htn : tcount N ≤ 1024 := by
    unfold tcount at hcur htight ⊢
    split at hcur <;> omega
  rw [Nat.zero_mul] at hl2
  refine ⟨M1, r.1, N, hs, by rw [hl2, ← he], hexit, ?_, ?_⟩
  · intro j hj
    obtain ⟨h1, _, h3⟩ := mapInv_lookup ext _ 1024 0 5 r.1 N (tcount N) j hA hI.map htn htn
      (Nat.zero_le _) hj (by unfold tcount; omega)
    refine ⟨_, h1, ?_⟩
    rw [h3]
    have hj20 : j < 2 ^ 20 := by
      unfold tcount at hcur htight
      split at hcur <;> omega
    exact (page_fields_of_flags j 0 1 hj20 (by omega) (by omega)).2.2.2
  · intro hN
    unfold first_frame
    rw [hI.map.frames]
    apply first_frame_eq_of_lowest_free
    · have := hI.map.scanned
      simp only [install_places] at this
      omega
    · rw [hI.map.bits N (by simp only [install_places]; omega)]; simp
    · intro b hb
      rw [hI.map.bits b (by simp only [install_places]; omega)]; simp [hb]

/-! ### The width of the frame field -/

/-- A frame whose bitmap word is 0 is free. -/
theorem frame_used_of_word_zero (v : Nat → Nat) (b : Nat) (h : v (b / 32) = 0) :
    frame_used v b = false := by
  rw [frame_used_eq, h]; simp

/-- The bitmap words of `high_memory_machine`: the first `32768` are full, the
next ones clear. -/
theorem high_memory_machine_word (i : Nat) (hi : i < 40000) :
    bitmap high_memory_machine.mem high_memory_machine.frames i =
      if i < 32768 then 0xFFFFFFFF else 0 := by
  unfold bitmap load32 load8 high_memory_machine
  simp only
  rw [Nat.mod_eq_of_lt (by omega : 0x100000 + 4 * i < 2 ^ 32),
    Nat.mod_eq_of_lt (by omega : 0x100000 + 4 * i + 1 < 2 ^ 32),
    Nat.mod_eq_of_lt (by omega : 0x100000 + 4 * i + 2 < 2 ^ 32),
    Nat.mod_eq_of_lt (by omega : 0x100000 + 4 * i + 3 < 2 ^ 32)]
  by_cases h : i < 32768
  · rw [if_pos (by omega), if_pos (by omega), if_pos (by omega), if_pos (by omega), if_pos h]
    norm_num
  · rw [if_neg (by omega), if_neg (by omega), if_neg (by omega), if_neg (by omega), if_neg h]
    norm_num

/-- In `high_memory_machine` the lowest free frame is frame `2 ^ 20`. -/
theorem first_frame_high_memory_machine : first_frame high_memory_machine = 0x100000 := by
  unfold first_frame
  apply first_frame_eq_of_lowest_free
  · decide
  · rw [frame_used_of_word_zero]
    rw [high_memory_machine_word _ (by norm_num)]
    norm_num
  · intro b hb
    rw [frame_used_eq, high_memory_machine_word _ (by omega), if_pos (by omega)]
    have hm : (0xFFFFFFFF : Nat) = 2 ^ 32 - 1 := by norm_num
    rw [hm, Nat.testBit_two_pow_sub_one]
    have : b % 32 < 32 := Nat.mod_lt _ (by norm_num)
    simpa using this

/-- With `2 ^ 20 + 32` frames of which the first `2 ^ 20` are used, frame 0
among them, `alloc_frame` on a cleared entry finds frame `2 ^ 20` and returns
with the entry present and its 20-bit frame field 0. -/
theorem alloc_frame_truncates_frame :
    frame_used (bitmap high_memory_machine.mem high_memory_machine.frames) 0 = true ∧
    page_frame (load32 high_memory_machine.mem 0x200000) = 0 ∧
    first_frame high_memory_machine = 0x100000 ∧
    ∃ m2, alloc_frame high_memory_machine 0x200000 1 1 =
        .returned { high_memory_machine with mem := m2 } ∧
      page_present (load32 m2 0x200000) = 1 ∧ page_frame (load32 m2 0x200000) = 0 := by
  have hw : load32 high_memory_machine.mem 0x200000 = 0 := by decide
  have hpf : page_frame (load32 high_memory_machine.mem 0x200000) = 0 := by rw [hw]; rfl
  have hff := first_frame_high_memory_machine
  have hfr : high_memory_machine.frames = 0x100000 := rfl
  refine ⟨by decide, hpf, hff, ?_⟩
  unfold alloc_frame
  rw [if_neg (by rw [hpf]; simp)]
  simp only [hff]
  rw [if_neg (by norm_num)]
  refine ⟨_, rfl, ?_⟩
  have hs0 : load32 (set_frame high_memory_machine.mem high_memory_machine.frames
      (0x100000 * 0x1000 % 2 ^ 32)) 0x200000 = 0 := by
    unfold set_frame INDEX_FROM_BIT OFFSET_FROM_BIT
    rw [hfr]
    rw [load32_store32_ne _ _ _ _ (by norm_num) (by norm_num) (by norm_num), hw]
  simp only [load32_store32_same _ _ _ (by norm_num : 0x200000 + 3 < 2 ^ 32), hs0]
  have e := with_fields_zero 0x100000 1 0 (by norm_num) (by norm_num)
  simp only [if_pos, if_true] at e ⊢
  rw [e]
  decide

end Flat

/-! ## Frame index 0 -/

/-- Claim C8, as stated, fails.  First, over an all-clear bitmap `alloc_frame`
returns normally on an unmapped page, marks frame 0 used and leaves the page
present with `frame == 0`.  Second, with frame 0 marked used: in a bitmap of
`2 ^ 20 + 32` frames whose first `2 ^ 20` frames are used, `alloc_frame` finds
frame `2 ^ 20`, which the 20-bit frame field does not hold, and returns with
the page present and `frame == 0`. -/
theorem alloc_frame_hands_out_frame_zero :
    (unmapped_page.frame = 0 ∧
      ∃ fr p, alloc_frame clear_bitmap 32 unmapped_page 1 1 = .returned (fr, p) ∧
        p.present = 1 ∧ p.frame = 0 ∧ frame_used fr 0 = true) ∧
    (frame_used (Flat.bitmap Flat.high_memory_machine.mem Flat.high_memory_machine.frames) 0 =
        true ∧
      Flat.page_frame (Flat.load32 Flat.high_memory_machine.mem 0x200000) = 0 ∧
      Flat.first_frame Flat.high_memory_machine = 0x100000 ∧
      ∃ m2, Flat.alloc_frame Flat.high_memory_machine 0x200000 1 1 =
          .returned { Flat.high_memory_machine with mem := m2 } ∧
        Flat.page_present (Flat.load32 m2 0x200000) = 1 ∧
        Flat.page_frame (Flat.load32 m2 0x200000) = 0) := by
  refine ⟨⟨rfl, set_frame clear_bitmap 0, { present := 1, rw := 1, user := 0, frame := 0 },
    ?_, rfl, rfl, by decide⟩, Flat.alloc_frame_truncates_frame⟩
  have hff : first_frame clear_bitmap 32 = 0 := by decide
  simp [alloc_frame, unmapped_page, hff]

/-- Claim C8, amended: for every bitmap whose scanned words hold at most
`2 ^ 20` frames (`INDEX_FROM_BIT(nframes) <= 0x8000`, so that every index
`first_frame` returns fits the 20-bit frame field) and in which frame 0 is
marked used, and every unmapped page, when `alloc_frame` returns normally the
index stored in the page is below `2 ^ 20` and the page has `frame != 0`. -/
theorem alloc_frame_frame_ne_zero (frames : Nat → Nat) (nframes : Nat) (page : page_t)
    (is_kernel is_writeable : Int) (fr : Nat → Nat) (p : page_t)
    (hfit : INDEX_FROM_BIT nframes ≤ 0x8000)
    (hpage : page.frame = 0) (hzero : frame_used frames 0 = true)
    (hret : alloc_frame frames nframes page is_kernel is_writeable = .returned (fr, p)) :
    p.frame ≠ 0 ∧ p.frame < 2 ^ 20 := by
  unfold INDEX_FROM_BIT at hfit
  rcases first_frame_cases frames nframes with ⟨h1, _⟩ | ⟨k, h1, h2, h3, _⟩
  · simp [alloc_frame, hpage, h1] at hret
  · have hk : k ≠ 0 := by
      rintro rfl
      rw [hzero] at h3; cases h3
    simp only [alloc_frame, hpage, h1] at hret
    by_cases hs : k = 0xFFFFFFFF
    · simp [hs] at hret
    · simp [hs] at hret
      rw [← hret.2]
      exact ⟨hk, by show k < 2 ^ 20; omega⟩

/-- Claim C8, amended, at a bitmap of 64 frames with only frame 0 used: the
call returns and the page receives frame 1. -/
theorem alloc_frame_frame_ne_zero_witness :
    INDEX_FROM_BIT 64 ≤ 0x8000 ∧
    unmapped_page.frame = 0 ∧ frame_used reserved_state.frames 0 = true ∧
    alloc_frame reserved_state.frames 64 unmapped_page 1 1 =
      .returned (set_frame reserved_state.frames 0x1000,
        { present := 1, rw := 1, user := 0, frame := 1 }) ∧
    (({ present := 1, rw := 1, user := 0, frame := 1 } : page_t).frame ≠ 0 ∧
      ({ present := 1, rw := 1, user := 0, frame := 1 } : page_t).frame < 2 ^ 20) :=
  have hret : alloc_frame reserved_state.frames 64 unmapped_page 1 1 =
      .returned (set_frame reserved_state.frames 0x1000,
        { present := 1, rw := 1, user := 0, frame := 1 }) := by
    have hff : first_frame reserved_state.frames 64 = 1 := by decide
    simp [alloc_frame, unmapped_page, hff]
  ⟨by decide, rfl, by decide, hret,
    alloc_frame_frame_ne_zero reserved_state.frames 64 unmapped_page 1 1 _ _ (by decide) rfl
      (by decide) hret⟩

end Mem
